import Mathlib

/-!
Verification development for the Simples Nacional batch-enrichment engine
(worker `processor.worker.ts` of the consulta-cnpj repository).

The engine is shallowly embedded: pure functions are translated directly;
stateful code is explicit state passing; the event loop's suspension points
(network calls, rate-limiter waits, inter-round sleeps) become oracle
parameters and small-step transition systems.  Times are modelled in integer
milliseconds (as `Date.now()` returns) where the code only adds integer
amounts, and in `ℚ` where fractional seconds arise.  The per-row visual
progress counter, a float in the source holding exact multiples of
`1/maxRounds`, is stored scaled by `maxRounds` so all arithmetic is exact
and executable (`visualProgress_source = visualScaled / maxRounds`).
-/

namespace ConsultaCnpj

/-! ## Generic association-list helpers (JS `Map` / plain-object semantics)

`Map.get` returns the value of the unique entry with the key; `Map.set`
overwrites it in place or appends a fresh entry at the end, preserving
iteration (insertion) order. -/

def mapGet? {κ α : Type} [BEq κ] (m : List (κ × α)) (k : κ) : Option α :=
  (m.find? (fun kv => kv.1 == k)).map (·.2)

def mapSet {κ α : Type} [BEq κ] : List (κ × α) → κ → α → List (κ × α)
  | [], k, v => [(k, v)]
  | (k', v') :: rest, k, v =>
    if k' == k then (k', v) :: rest else (k', v') :: mapSet rest k v

/-- Grouping used by `rowsByCnpj`: push a row number onto the group of its
key, creating the group at the end on first sight (insertion order). -/
def groupAdd : List (String × List Nat) → String → Nat → List (String × List Nat)
  | [], k, r => [(k, [r])]
  | (k', g) :: rest, k, r =>
    if k' == k then (k', g ++ [r]) :: rest else (k', g) :: groupAdd rest k r

/-! ## Stable sort

JavaScript's `Array.prototype.sort` is stable (ES2019); a stable sort for a
total preorder has a unique result, so a structural insertion sort is an
exact model and stays kernel-executable. -/

def insertLe {α : Type} (le : α → α → Bool) (x : α) : List α → List α
  | [] => [x]
  | y :: ys => if le x y then x :: y :: ys else y :: insertLe le x ys

def stableSort {α : Type} (le : α → α → Bool) (l : List α) : List α :=
  l.foldr (insertLe le) []

theorem insertLe_perm {α : Type} (le : α → α → Bool) (x : α) (l : List α) :
    List.Perm (insertLe le x l) (x :: l) := by
  induction l with
  | nil => simp [insertLe]
  | cons y ys ih =>
    simp only [insertLe]
    split
    · exact List.Perm.refl _
    · exact (List.Perm.cons y ih).trans (List.Perm.swap x y ys)

theorem stableSort_perm {α : Type} (le : α → α → Bool) (l : List α) :
    List.Perm (stableSort le l) l := by
  induction l with
  | nil => simp [stableSort]
  | cons y ys ih =>
    simpa [stableSort] using (insertLe_perm le y (stableSort le ys)).trans (ih.cons y)

theorem insertLe_pairwise {α : Type} (le : α → α → Bool)
    (htrans : ∀ a b c, le a b = true → le b c = true → le a c = true)
    (htot : ∀ a b, le a b = false → le b a = true) (x : α) (l : List α)
    (h : l.Pairwise (fun a b => le a b = true)) :
    (insertLe le x l).Pairwise (fun a b => le a b = true) := by
  induction l with
  | nil => simp [insertLe]
  | cons y ys ih =>
    rcases List.pairwise_cons.mp h with ⟨hy, hys⟩
    simp only [insertLe]
    split
    · rename_i hxy
      refine List.pairwise_cons.mpr ⟨?_, h⟩
      intro b hb
      rcases List.mem_cons.mp hb with rfl | hb
      · exact hxy
      · exact htrans x y b hxy (hy b hb)
    · rename_i hxy
      refine List.pairwise_cons.mpr ⟨?_, ih hys⟩
      intro b hb
      have hb' : b = x ∨ b ∈ ys := by
        have := (insertLe_perm le x ys).mem_iff.mp hb
        simpa using this
      rcases hb' with rfl | hb'
      · exact htot b y (by simpa using hxy)
      · exact hy b hb'

theorem stableSort_pairwise {α : Type} (le : α → α → Bool)
    (htrans : ∀ a b c, le a b = true → le b c = true → le a c = true)
    (htot : ∀ a b, le a b = false → le b a = true) (l : List α) :
    (stableSort le l).Pairwise (fun a b => le a b = true) := by
  induction l with
  | nil => simp [stableSort]
  | cons y ys ih => exact insertLe_pairwise le htrans htot y _ ih

/-! ## JavaScript string primitives

Modelled over the character list of the string.  `String.prototype.sort`'s
default comparator and `toUpperCase`/`trim`/`parseInt` are reimplemented
structurally so that they evaluate inside the kernel; for the identifier and
field strings the engine handles (digits, ASCII provider text) they agree
with the JavaScript semantics. -/

def cmpChars : List Char → List Char → Ordering
  | [], [] => .eq
  | [], _ :: _ => .lt
  | _ :: _, [] => .gt
  | a :: as, b :: bs =>
    if a.toNat < b.toNat then .lt
    else if b.toNat < a.toNat then .gt
    else cmpChars as bs

/-- Lexicographic `<` on strings, as used by `Array.prototype.sort()`'s
default comparator. -/
def strLtJs (a b : String) : Bool := cmpChars a.data b.data == .lt

def strLeJs (a b : String) : Bool := !(strLtJs b a)

def sortStrings (l : List String) : List String := stableSort strLeJs l

def startsWithB : List Char → List Char → Bool
  | [], _ => true
  | _ :: _, [] => false
  | a :: as, b :: bs => a == b && startsWithB as bs

def hasInfixB (pat : List Char) : List Char → Bool
  | [] => startsWithB pat []
  | c :: rest => startsWithB pat (c :: rest) || hasInfixB pat rest

/-- The string contains the pattern as a substring (`String.prototype.includes`). -/
def strIncludes (s pat : String) : Bool := hasInfixB pat.data s.data

/-- `String.prototype.toUpperCase`, on the ASCII range the payload fields use. -/
def jsToUpperCase (s : String) : String := String.mk (s.data.map Char.toUpper)

/-- `String.prototype.trim`. -/
def jsTrim (s : String) : String :=
  String.mk (((s.data.dropWhile Char.isWhitespace).reverse.dropWhile Char.isWhitespace).reverse)

def digitsVal (l : List Char) : Nat := l.foldl (fun a c => a * 10 + (c.toNat - 48)) 0

/-- `Number.parseInt(s, 10)` on the strings the report produces (decimal
digit runs, possibly signed; a digit-free string, `NaN` in JavaScript, is
collapsed to 0 — the report only ever parses digit strings). -/
def parseIntJs (s : String) : Int :=
  let t := s.data.dropWhile Char.isWhitespace
  match t with
  | '-' :: rest => -(digitsVal (rest.takeWhile Char.isDigit) : Int)
  | '+' :: rest => (digitsVal (rest.takeWhile Char.isDigit) : Int)
  | _ => (digitsVal (t.takeWhile Char.isDigit) : Int)

/-! ## JSON values and the JavaScript coercions the worker applies to them -/

inductive Json where
  | null : Json
  | bool : Bool → Json
  | num : Int → Json
  | str : String → Json
  | arr : List Json → Json
  | obj : List (String × Json) → Json

/-- Field access `payload.k` on a parsed JSON object. -/
def jsLookup (fields : List (String × Json)) (k : String) : Option Json :=
  mapGet? fields k

/-- `toJsonRecord`: a JSON value is a record iff it is a non-array object
(`typeof value === 'object' && !Array.isArray(value)` and non-null). -/
def toJsonRecord : Json → Option (List (String × Json))
  | .obj fs => some fs
  | _ => none

/-- JavaScript truthiness of a field value (`payload.message ? ... : ...`);
an absent field (`undefined`) is falsy. -/
def jsTruthy : Option Json → Bool
  | none => false
  | some .null => false
  | some (.bool b) => b
  | some (.num n) => n != 0
  | some (.str s) => s != ""
  | some (.arr _) => true
  | some (.obj _) => true

/-- `String(v)` for the values that can sit in a JSON field. -/
def jsToString : Json → String
  | .null => "null"
  | .bool true => "true"
  | .bool false => "false"
  | .num n => toString n
  | .str s => s
  | .arr xs => String.intercalate "," (xs.map fun x => jsToStringShallow x)
  | .obj _ => "[object Object]"
where
  /-- Array elements are stringified one level deep (nested arrays flatten in
  JavaScript; one level suffices for the payloads the parser inspects). -/
  jsToStringShallow : Json → String
    | .null => ""
    | .bool true => "true"
    | .bool false => "false"
    | .num n => toString n
    | .str s => s
    | .arr _ => ""
    | .obj _ => "[object Object]"

/-- `String(item.forma_de_tributacao ?? '')`: `??` replaces only
`null`/`undefined` by the empty string, everything else goes through
`String(...)`. -/
def jsStringOrEmpty : Option Json → String
  | none => ""
  | some .null => ""
  | some v => jsToString v

/-! ## Statuses, outcomes and providers (`shared/contracts.ts`, worker constants) -/

inductive QueryStatus where
  | SIM | NAO | SEM_DADO | ERRO | CNPJ_INVALIDO | PENDENTE
deriving DecidableEq, Repr

/-- The literal string the worker uses for each status (the source spells
the negative status `"NÃO"`). -/
def statusText : QueryStatus → String
  | .SIM => "SIM"
  | .NAO => "NÃO"
  | .SEM_DADO => "SEM_DADO"
  | .ERRO => "ERRO"
  | .CNPJ_INVALIDO => "CNPJ_INVALIDO"
  | .PENDENTE => "PENDENTE"

structure QueryOutcome where
  status : QueryStatus
  detail : String
  provider : String
deriving DecidableEq, Repr

inductive ProviderName where
  | receitaws | minhareceita | brasilapi | cnpjws
deriving DecidableEq, Repr

def PROVIDERS_FALLBACK : List ProviderName :=
  [.receitaws, .minhareceita, .brasilapi, .cnpjws]

def providerText : ProviderName → String
  | .receitaws => "receitaws"
  | .minhareceita => "minhareceita"
  | .brasilapi => "brasilapi"
  | .cnpjws => "cnpjws"

/-- `PROVIDER_RATE_FACTORS`, scaled by 10 to stay integral
(1.0, 0.4, 0.4, 0.7). -/
def PROVIDER_RATE_FACTORS : ProviderName → ℚ
  | .receitaws => 1
  | .minhareceita => 4/10
  | .brasilapi => 4/10
  | .cnpjws => 7/10

def PROVIDER_FAILURE_THRESHOLD : Nat := 4
def PROVIDER_COOLDOWN_SECONDS : Nat := 45
def MIN_DELAY_SECONDS : ℚ := 1/10

/-- `sanitizeCnpj`: strip every non-digit, keep the result only when exactly
14 digits remain. -/
def sanitizeCnpj (value : String) : String :=
  let digits := String.mk (value.data.filter Char.isDigit)
  if digits.data.length == 14 then digits else ""

/-! ## Response interpretation (`SimplesApiClient.parseGenericSimples`) -/

abbrev JsonFields := List (String × Json)

/-- A provider interaction as `requestJson` concludes it: either a soft
failure with its reason string, or a successfully parsed JSON record
(`requestJson` returns exactly one of `[parsed, null]` / `[null, error]`). -/
abbrev ProviderResponse := Except String JsonFields

/-- The nested rule's guard: `payload.simples` is a record carrying a
boolean `optante` (`simplesObject && typeof simplesObject.optante === 'boolean'`). -/
def nestedOptanteOf (payload : JsonFields) : Option Bool :=
  match jsLookup payload "simples" with
  | some j =>
    match toJsonRecord j with
    | some fs =>
      match jsLookup fs "optante" with
      | some (.bool b) => some b
      | _ => none
    | none => none
  | none => none

/-- A top-level field holding a boolean (`typeof payload.k === 'boolean'`). -/
def topBoolOf (payload : JsonFields) (k : String) : Option Bool :=
  match jsLookup payload k with
  | some (.bool b) => some b
  | _ => none

/-- `payload.regime_tributario` when it is an array (`Array.isArray`). -/
def regimeArrOf (payload : JsonFields) : Option (List Json) :=
  match jsLookup payload "regime_tributario" with
  | some (.arr regime) => some regime
  | _ => none

def parseGenericSimples (payload : JsonFields) (providerName : String) : QueryOutcome :=
  match nestedOptanteOf payload with
  | some b =>
    if b then ⟨.SIM, s!"{providerName}: simples.optante=true", providerName⟩
    else ⟨.NAO, s!"{providerName}: simples.optante=false", providerName⟩
  | none =>
  match topBoolOf payload "simples" with
  | some b =>
    if b then ⟨.SIM, s!"{providerName}: simples=true", providerName⟩
    else ⟨.NAO, s!"{providerName}: simples=false", providerName⟩
  | none =>
  match topBoolOf payload "opcao_pelo_simples" with
  | some b =>
    if b then ⟨.SIM, s!"{providerName}: opcao_pelo_simples=true", providerName⟩
    else ⟨.NAO, s!"{providerName}: opcao_pelo_simples=false", providerName⟩
  | none =>
  match topBoolOf payload "opcao_simples" with
  | some b =>
    if b then ⟨.SIM, s!"{providerName}: opcao_simples=true", providerName⟩
    else ⟨.NAO, s!"{providerName}: opcao_simples=false", providerName⟩
  | none =>
  match regimeArrOf payload with
  | some regime =>
    if 0 < regime.length then
      let formas := (regime.filterMap toJsonRecord).map
        (fun item => jsToUpperCase (jsStringOrEmpty (jsLookup item "forma_de_tributacao")))
      if formas.any (fun forma => strIncludes forma "SIMPLES") then
        ⟨.SIM, s!"{providerName}: regime_tributario=simples", providerName⟩
      else ⟨.NAO, s!"{providerName}: regime_tributario sem simples", providerName⟩
    else ⟨.NAO, s!"{providerName}: campo de simples NÃO retornado", providerName⟩
  | none => ⟨.NAO, s!"{providerName}: campo de simples NÃO retornado", providerName⟩

/-- None of the recognition rules of `parseGenericSimples` applies to the
payload: no nested `simples.optante` boolean, no top-level boolean among
`simples` / `opcao_pelo_simples` / `opcao_simples`, and no non-empty
`regime_tributario` array. -/
def noSimplesRule (payload : JsonFields) : Bool :=
  (nestedOptanteOf payload).isNone &&
  (topBoolOf payload "simples").isNone &&
  (topBoolOf payload "opcao_pelo_simples").isNone &&
  (topBoolOf payload "opcao_simples").isNone &&
  (match regimeArrOf payload with
   | some regime => regime.isEmpty
   | none => true)

/-! ## Per-provider wrappers and the fallback chain
(`consultarReceitaWs` … `consultarSimples`) -/

def consultarReceitaWs (resp : ProviderResponse) : QueryOutcome :=
  match resp with
  | .error e => ⟨.ERRO, e, "receitaws"⟩
  | .ok payload =>
    let statusIsError : Bool :=
      match jsLookup payload "status" with
      | some (.str s) => s == "ERROR"
      | _ => false
    if statusIsError then
      let message :=
        if jsTruthy (jsLookup payload "message") then
          jsToString ((jsLookup payload "message").getD .null)
        else "erro na consulta"
      ⟨.ERRO, s!"receitaws: {message}", "receitaws"⟩
    else parseGenericSimples payload "receitaws"

def consultarMinhaReceita (resp : ProviderResponse) : QueryOutcome :=
  match resp with
  | .error e => ⟨.ERRO, e, "minhareceita"⟩
  | .ok payload => parseGenericSimples payload "minhareceita"

def consultarBrasilApi (resp : ProviderResponse) : QueryOutcome :=
  match resp with
  | .error e => ⟨.ERRO, e, "brasilapi"⟩
  | .ok payload => parseGenericSimples payload "brasilapi"

def consultarCnpjWs (resp : ProviderResponse) : QueryOutcome :=
  match resp with
  | .error e => ⟨.ERRO, e, "cnpjws"⟩
  | .ok payload => parseGenericSimples payload "cnpjws"

def isDefinitive (o : QueryOutcome) : Bool := o.status == .SIM || o.status == .NAO

def providerCall (resp : ProviderName → ProviderResponse) : ProviderName → QueryOutcome
  | .receitaws => consultarReceitaWs (resp .receitaws)
  | .minhareceita => consultarMinhaReceita (resp .minhareceita)
  | .brasilapi => consultarBrasilApi (resp .brasilapi)
  | .cnpjws => consultarCnpjWs (resp .cnpjws)

/-- Detail of the all-providers-failed outcome:
`errors.slice(0, 4).map(e => e.detail).join(' | ')`, or `'falha sem detalhe'`
when no error was collected. -/
def joinErrorDetail (errors : List QueryOutcome) : String :=
  if 0 < errors.length then String.intercalate " | " ((errors.take 4).map (·.detail))
  else "falha sem detalhe"

/-- The fallback loop of `consultarSimples`, with the ordered list of
providers still to try and the soft errors collected so far; the second
component of the result is the trace of providers actually called. -/
def consultarSimplesAux (resp : ProviderName → ProviderResponse) :
    List ProviderName → List QueryOutcome → QueryOutcome × List ProviderName
  | [], errors => (⟨.ERRO, joinErrorDetail errors, "fallback"⟩, [])
  | p :: rest, errors =>
    let outcome := providerCall resp p
    if isDefinitive outcome then (outcome, [p])
    else
      let r := consultarSimplesAux resp rest (errors ++ [outcome])
      (r.1, p :: r.2)

def consultarSimples (resp : ProviderName → ProviderResponse) :
    QueryOutcome × List ProviderName :=
  consultarSimplesAux resp PROVIDERS_FALLBACK []

/-- The outcome the worker loop records when `consultarSimples` throws a
non-cancellation exception (`queryCnpjsParallel`, catch branch). -/
def workerCatchOutcome (workerId : Nat) (detail : String) : QueryOutcome :=
  ⟨.ERRO, s!"worker-{workerId}: excecao {detail}", "worker"⟩

/-! ## Circuit breaker and `requestJson` (`SimplesApiClient`)

Timestamps are integer milliseconds, as `Date.now()` yields; the cooldown
arithmetic of the source (`now + PROVIDER_COOLDOWN_SECONDS * 1000`, the
`> 0` test, `Math.floor(seconds remaining)`) is exactly integral. -/

def updFn {κ α : Type} [DecidableEq κ] (f : κ → α) (k : κ) (v : α) : κ → α :=
  fun x => if x = k then v else f x

structure ClientState where
  providerFailures : ProviderName → Nat
  providerCooldownUntil : ProviderName → Nat
deriving Inhabited

def clientInit : ClientState := ⟨fun _ => 0, fun _ => 0⟩

def recordProviderSuccess (p : ProviderName) (st : ClientState) : ClientState :=
  { providerFailures := updFn st.providerFailures p 0,
    providerCooldownUntil := updFn st.providerCooldownUntil p 0 }

def recordProviderFailure (now : Nat) (p : ProviderName) (st : ClientState) :
    ClientState × Option Nat :=
  let failures := st.providerFailures p + 1
  if PROVIDER_FAILURE_THRESHOLD ≤ failures then
    ({ providerFailures := updFn st.providerFailures p 0,
       providerCooldownUntil :=
         updFn st.providerCooldownUntil p (now + PROVIDER_COOLDOWN_SECONDS * 1000) },
     some PROVIDER_COOLDOWN_SECONDS)
  else
    ({ st with providerFailures := updFn st.providerFailures p failures }, none)

/-- Remaining cooldown in milliseconds (the source computes seconds; only
`> 0` and the floor of the seconds are consumed). -/
def providerCooldownRemainingMs (now : Nat) (p : ProviderName) (st : ClientState) : Nat :=
  let cooldownUntil := st.providerCooldownUntil p
  if cooldownUntil ≤ now then 0 else cooldownUntil - now

/-- What one `fetch` of the retry loop produced: an HTTP response whose body
either parsed as JSON or did not, or a network/timeout exception. -/
inductive FetchResult where
  | ok (status : Nat) (jsonBody : Option Json)
  | netErr (msg : String)

/-- The retry loop of `requestJson`.  `fetchAt`/`timeAt` give the response
and the `Date.now()` reading of each attempt; result components are the
`[payload, error]` pair, the breaker state, and the number of network
requests actually issued.  The rate-limiter wait between the cooldown check
and the fetch affects timing only and is modelled separately. -/
def requestJsonAux (p : ProviderName) (fetchAt : Nat → FetchResult) (timeAt : Nat → Nat) :
    Nat → Nat → ClientState → String → Nat → Except String JsonFields × ClientState × Nat
  | attempt, 0, st, lastError, count =>
    let st' := (recordProviderFailure (timeAt attempt) p st).1
    let detail := if lastError == "" then "falha sem detalhe" else lastError
    (.error s!"{providerText p}: {detail}", st', count)
  | attempt, fuel + 1, st, _lastError, count =>
    let now := timeAt attempt
    let remaining := providerCooldownRemainingMs now p st
    if 0 < remaining then
      (.error s!"{providerText p}: provedor pausado ({remaining / 1000}s restantes apos falhas consecutivas)",
       st, count)
    else
      match fetchAt attempt with
      | .netErr msg =>
        match recordProviderFailure now p st with
        | (st', some cooldown) =>
          (.error s!"{providerText p}: pausado por {cooldown}s por falhas consecutivas de rede",
           st', count + 1)
        | (st', none) =>
          requestJsonAux p fetchAt timeAt (attempt + 1) fuel st' s!"falha de rede: {msg}" (count + 1)
      | .ok status body =>
        if status == 429 then
          match recordProviderFailure now p st with
          | (st', some cooldown) =>
            (.error s!"{providerText p}: pausado por {cooldown}s por limite de requisicoes (429)",
             st', count + 1)
          | (st', none) =>
            (.error s!"{providerText p}: limite de requisicoes (429)", st', count + 1)
        else if 500 ≤ status then
          let lastError := s!"erro no servidor ({status})"
          match recordProviderFailure now p st with
          | (st', some cooldown) =>
            (.error s!"{providerText p}: pausado por {cooldown}s por erros consecutivos no servidor",
             st', count + 1)
          | (st', none) => requestJsonAux p fetchAt timeAt (attempt + 1) fuel st' lastError (count + 1)
        else if status != 200 then
          (.error s!"{providerText p}: HTTP {status}", st, count + 1)
        else
          match body with
          | none =>
            match recordProviderFailure now p st with
            | (st', some cooldown) =>
              (.error s!"{providerText p}: pausado por {cooldown}s por respostas invalidas consecutivas",
               st', count + 1)
            | (st', none) => (.error s!"{providerText p}: resposta invalida", st', count + 1)
          | some payload =>
            match toJsonRecord payload with
            | none =>
              match recordProviderFailure now p st with
              | (st', some cooldown) =>
                (.error s!"{providerText p}: pausado por {cooldown}s por payload inesperado consecutivo",
                 st', count + 1)
              | (st', none) => (.error s!"{providerText p}: payload inesperado", st', count + 1)
            | some parsed => (.ok parsed, recordProviderSuccess p st, count + 1)

/-- `requestJson` with the constructor clamp `maxRetries := Math.max(1, maxRetries)`. -/
def requestJson (p : ProviderName) (fetchAt : Nat → FetchResult) (timeAt : Nat → Nat)
    (maxRetries : Nat) (st : ClientState) : Except String JsonFields × ClientState × Nat :=
  requestJsonAux p fetchAt timeAt 1 (max 1 maxRetries) st "" 0

/-! ## Provider rate limiter (`ProviderRateLimiter.waitTurn`)

`waitTurn` polls until `Date.now() >= nextAllowed` and then, with no
suspension point in between, reserves `nextAllowed := now + interval*1000`.
A run of the limiter is therefore a sequence of grant events
`(provider, grant time in ms)`; `validGrants` says each grant honoured the
next-allowed timestamp in force when it happened.  Times are `ℚ` because
`interval * 1000` may be fractional. -/

structure ProviderRateLimiter where
  baseDelaySeconds : ℚ

def mkRateLimiter (delaySeconds : ℚ) : ProviderRateLimiter :=
  ⟨max delaySeconds MIN_DELAY_SECONDS⟩

def intervalSeconds (rl : ProviderRateLimiter) (p : ProviderName) : ℚ :=
  max (rl.baseDelaySeconds * PROVIDER_RATE_FACTORS p) MIN_DELAY_SECONDS

def applyGrant (rl : ProviderRateLimiter) (next : ProviderName → ℚ) (e : ProviderName × ℚ) :
    ProviderName → ℚ :=
  updFn next e.1 (e.2 + intervalSeconds rl e.1 * 1000)

def validGrants (rl : ProviderRateLimiter) : (ProviderName → ℚ) → List (ProviderName × ℚ) → Prop
  | _, [] => True
  | next, e :: rest => next e.1 ≤ e.2 ∧ validGrants rl (applyGrant rl next e) rest

/-- Initial `nextAllowed` map: every lookup misses and defaults to 0. -/
def limiterInit : ProviderName → ℚ := fun _ => 0

/-! ## Concurrent worker pool (`queryCnpjsParallel`)

The JavaScript event loop interleaves the `numWorkers` worker loops at
suspension points; `getNextTask` and `results.set` run without suspension
and are therefore atomic.  The pool is modelled as a small-step transition
system: each step is one atomic action of one worker.  `stopAllowed = false`
describes runs during which the cancellation flag never becomes true;
`stopAllowed = true` over-approximates runs where it may be observed.
`dequeued` is a ghost trace of the values `getNextTask` returned. -/

inductive WStatus where
  | idle | running (cnpj : String) | done
deriving DecidableEq, Repr

def runningOf : WStatus → Option String
  | .running c => some c
  | _ => none

def runningList (ws : List WStatus) : List String := ws.filterMap runningOf

/-- Number of lookups in flight (`activeRequests` at its peak meaning). -/
def inFlight (st : List WStatus) : Nat := (runningList st).length

structure PoolState where
  taskIndex : Nat
  ws : List WStatus
  results : List (String × QueryOutcome)
  dequeued : List String
deriving Repr

def poolInit (numW : Nat) : PoolState := ⟨0, List.replicate numW .idle, [], []⟩

inductive PoolStep (cnpjs : List String) (outcomeOf : String → QueryOutcome)
    (stopAllowed : Bool) : PoolState → PoolState → Prop where
  | pick (st : PoolState) (i : Nat) (c : String)
      (hi : st.ws.get? i = some .idle) (hidx : cnpjs.get? st.taskIndex = some c) :
      PoolStep cnpjs outcomeOf stopAllowed st
        ⟨st.taskIndex + 1, st.ws.set i (.running c), st.results, st.dequeued ++ [c]⟩
  | exhaust (st : PoolState) (i : Nat)
      (hi : st.ws.get? i = some .idle) (hge : cnpjs.length ≤ st.taskIndex) :
      PoolStep cnpjs outcomeOf stopAllowed st
        ⟨st.taskIndex, st.ws.set i .done, st.results, st.dequeued⟩
  | stopExit (st : PoolState) (i : Nat)
      (hi : st.ws.get? i = some .idle) (hs : stopAllowed = true) :
      PoolStep cnpjs outcomeOf stopAllowed st
        ⟨st.taskIndex, st.ws.set i .done, st.results, st.dequeued⟩
  | finish (st : PoolState) (i : Nat) (c : String)
      (hi : st.ws.get? i = some (.running c)) :
      PoolStep cnpjs outcomeOf stopAllowed st
        ⟨st.taskIndex, st.ws.set i .idle, mapSet st.results c (outcomeOf c), st.dequeued⟩
  | finishStop (st : PoolState) (i : Nat) (c : String)
      (hi : st.ws.get? i = some (.running c)) (hs : stopAllowed = true) :
      PoolStep cnpjs outcomeOf stopAllowed st
        ⟨st.taskIndex, st.ws.set i .done, st.results, st.dequeued⟩

inductive PoolReach (numW : Nat) (cnpjs : List String) (outcomeOf : String → QueryOutcome)
    (stopAllowed : Bool) : PoolState → Prop where
  | init : PoolReach numW cnpjs outcomeOf stopAllowed (poolInit numW)
  | step {s s' : PoolState} : PoolReach numW cnpjs outcomeOf stopAllowed s →
      PoolStep cnpjs outcomeOf stopAllowed s s' → PoolReach numW cnpjs outcomeOf stopAllowed s'

/-- `Math.max(1, Math.min(workers, cnpjs.length || 1))`. -/
def numWorkers (workers len : Nat) : Nat :=
  max 1 (min workers (if len == 0 then 1 else len))

/-! ## The round orchestrator (`processWorkbook`)

Spreadsheet reading/writing is outside the engine (the spec treats it as an
external collaborator): the model consumes the ordered
`(row number, raw cell text)` records and drops the cell writes.  Each round
consumes a `RoundInput` oracle describing what the event loop delivered:
the cancellation flag at the round-top check (`stopBefore`), the completion
order in which `queryCnpjsParallel` invoked the per-identifier progress
callback (`completed`), the results map of the round (`outcome`, `none` for
an identifier whose lookup was aborted), the flag when the round's
`Promise.all` resolved (`stopAfter` — the same synchronous read serves the
mid-processing retry condition and the post-round check, since no suspension
point separates them), and the flag outcome of the inter-round sleep
(`stopDuringWait`). -/

structure ReportEntry where
  linha : String
  cnpj_original : String
  cnpj_limpo : String
  resultado : String
  origem : String
  provedor : String
  detalhe : String
deriving DecidableEq, Repr

def mkEntry (row : Nat) (cnpjRaw cnpjClean status origin provider detail : String) :
    ReportEntry :=
  ⟨toString row, cnpjRaw, cnpjClean, status, origin, provider, detail⟩

def csvEscape (value : String) : String :=
  if value.data.any (fun c => c == '"' || c == ',' || c == '\n' || c == '\r') then
    "\"" ++ String.mk (value.data.foldr (fun c acc =>
      if c == '"' then '"' :: '"' :: acc else c :: acc) []) ++ "\""
  else value

def reportHeaders : List String :=
  ["linha", "cnpj_original", "cnpj_limpo", "resultado", "origem", "provedor", "detalhe"]

def entryField (e : ReportEntry) (h : String) : String :=
  if h == "linha" then e.linha
  else if h == "cnpj_original" then e.cnpj_original
  else if h == "cnpj_limpo" then e.cnpj_limpo
  else if h == "resultado" then e.resultado
  else if h == "origem" then e.origem
  else if h == "provedor" then e.provedor
  else e.detalhe

/-- The comparator of `writeDetailedReport`:
`(a, b) => Number.parseInt(a.linha, 10) - Number.parseInt(b.linha, 10)`. -/
def reportLe (a b : ReportEntry) : Bool :=
  decide (parseIntJs a.linha ≤ parseIntJs b.linha)

def sortReportEntries (entries : List ReportEntry) : List ReportEntry :=
  stableSort reportLe entries

/-- `writeDetailedReport` as the list of CSV lines it writes. -/
def writeDetailedReport (entries : List ReportEntry) : List String :=
  (String.intercalate "," reportHeaders) ::
    (sortReportEntries entries).map (fun e =>
      String.intercalate "," (reportHeaders.map (fun h => csvEscape (entryField e h))))

/-- `loadCache` keeps only entries whose value is one of the two resolved
statuses (a missing or malformed file yields no entries at all). -/
def loadCache (entries : List (String × String)) : List (String × String) :=
  entries.filter (fun kv => kv.2 == "SIM" || kv.2 == "NÃO")

/-- `saveCache` persists only the valid entries of the in-memory cache. -/
def saveCache (cache : List (String × String)) : List (String × String) :=
  cache.filter (fun kv => kv.2 == "SIM" || kv.2 == "NÃO")

structure RoundInput where
  stopBefore : Bool
  completed : List String
  outcome : String → Option QueryOutcome
  stopAfter : Bool
  stopDuringWait : Bool

structure RunInput where
  rows : List (Nat × String)
  maxRows : Option Nat
  reprocessRounds : Nat
  cacheFile : List (String × String)
  rounds : Nat → RoundInput

structure RunCtx where
  total : Nat
  maxRounds : Nat
  rowsByCnpj : List (String × List Nat)
  selectedRows : List (Nat × String)
deriving Repr

structure RunState where
  detailedRows : List ReportEntry
  cache : List (String × String)
  outcomeByCnpj : List (String × QueryOutcome)
  attempts : List (String × Nat)
  pending : List String
  processed : Nat
  success : Nat
  semDadoCount : Nat
  erroCount : Nat
  invalidCount : Nat
  cacheHits : Nat
  interrupted : Bool
  visualScaled : Nat
  reported : Nat
  events : List (Nat × Nat)
  roundLists : List (List String)
  waits : List Nat
deriving Repr

/-- Row collection (lines 1049–1056): keep rows whose trimmed cell text is
non-empty, carrying the trimmed text. -/
def rowDataOf (rows : List (Nat × String)) : List (Nat × String) :=
  (rows.map (fun it => (it.1, jsTrim it.2))).filter (fun it => it.2 != "")

def selectedRowsOf (inp : RunInput) : List (Nat × String) :=
  match inp.maxRows with
  | none => rowDataOf inp.rows
  | some m => (rowDataOf inp.rows).take (max m 0)

/-- Partition of the selected rows into the identifier groups and the
invalid rows (lines 1081–1092). -/
def buildGroups (selected : List (Nat × String)) :
    List (String × List Nat) × List (Nat × String) :=
  selected.foldl (fun acc it =>
    let cnpj := sanitizeCnpj it.2
    if cnpj == "" then (acc.1, acc.2 ++ [it]) else (groupAdd acc.1 cnpj it.1, acc.2))
    ([], [])

def rowsByCnpjOf (selected : List (Nat × String)) : List (String × List Nat) :=
  (buildGroups selected).1

def invalidRowsOf (selected : List (Nat × String)) : List (Nat × String) :=
  (buildGroups selected).2

def ctxOf (inp : RunInput) : RunCtx :=
  let selected := selectedRowsOf inp
  ⟨selected.length, 1 + max 0 inp.reprocessRounds, rowsByCnpjOf selected, selected⟩

def cnpjOriginalByRow (selected : List (Nat × String)) : List (Nat × String) :=
  selected.foldl (fun m it => mapSet m it.1 it.2) []

def origGet (ctx : RunCtx) (row : Nat) : String :=
  (mapGet? (cnpjOriginalByRow ctx.selectedRows) row).getD ""

def initState (ctx : RunCtx) (cacheLoaded : List (String × String)) : RunState :=
  { detailedRows := [], cache := cacheLoaded, outcomeByCnpj := [], attempts := [],
    pending := [], processed := 0, success := 0, semDadoCount := 0, erroCount := 0,
    invalidCount := 0, cacheHits := 0, interrupted := false, visualScaled := 0,
    reported := 0, events := [(0, ctx.total)], roundLists := [], waits := [] }

/-- `reportVisualProgress`; the argument is the scaled value
(`float value × maxRounds`), so `Math.floor(value)` is integer division. -/
def reportVisualProgress (ctx : RunCtx) (scaledValue : Nat) (st : RunState) : RunState :=
  let done := max 0 (min ctx.total (scaledValue / ctx.maxRounds))
  if done ≤ st.reported then st
  else { st with reported := done, events := st.events ++ [(done, ctx.total)] }

def reportProcessedProgress (ctx : RunCtx) (st : RunState) : RunState :=
  let st :=
    if st.visualScaled < ctx.maxRounds * st.processed then
      { st with visualScaled := ctx.maxRounds * st.processed }
    else st
  reportVisualProgress ctx st.visualScaled st

def invalidStep (ctx : RunCtx) (st : RunState) (it : Nat × String) : RunState :=
  let st := { st with
    processed := st.processed + 1, invalidCount := st.invalidCount + 1,
    detailedRows := st.detailedRows ++
      [mkEntry it.1 it.2 "" "CNPJ_INVALIDO" "VALIDACAO" "VALIDACAO" "CNPJ invalido"] }
  reportProcessedProgress ctx st

def invalidStage (ctx : RunCtx) (invalids : List (Nat × String)) (st : RunState) : RunState :=
  invalids.foldl (invalidStep ctx) st

def cacheStep (ctx : RunCtx) (st : RunState) (g : String × List Nat) : RunState :=
  let cnpj := g.1
  let rows := g.2
  let cachedStatus := mapGet? st.cache cnpj
  if cachedStatus == some "SIM" || cachedStatus == some "NÃO" then
    let s := cachedStatus.getD ""
    let st := { st with
      detailedRows := st.detailedRows ++ rows.map (fun row =>
        mkEntry row (origGet ctx row) cnpj s "CACHE" "CACHE" "valor em cache"),
      processed := st.processed + rows.length, success := st.success + rows.length,
      cacheHits := st.cacheHits + rows.length,
      outcomeByCnpj := mapSet st.outcomeByCnpj cnpj
        ⟨if s == "SIM" then .SIM else .NAO, "valor em cache", "CACHE"⟩ }
    reportProcessedProgress ctx st
  else { st with pending := st.pending ++ [cnpj] }

def cacheStage (ctx : RunCtx) (st : RunState) : RunState :=
  ctx.rowsByCnpj.foldl (cacheStep ctx) st

def attemptsInit (st : RunState) : RunState :=
  { st with attempts := st.pending.map (fun c => (c, 0)) }

/-- `onRoundProgress` (lines 1223–1238), scaled: `rowWeight / maxRounds`
becomes `+ rowWeight` on the scaled counter. -/
def onRoundProgress (ctx : RunCtx) (acc : List String × RunState) (cnpj : String) :
    List String × RunState :=
  let (seen, st) := acc
  if seen.contains cnpj then (seen, st)
  else
    let seen := seen ++ [cnpj]
    let rowWeight := ((mapGet? ctx.rowsByCnpj cnpj).getD []).length
    if rowWeight == 0 then (seen, st)
    else
      let att := min ctx.maxRounds ((mapGet? st.attempts cnpj).getD 0 + 1)
      let st := { st with
        attempts := mapSet st.attempts cnpj att
        visualScaled := st.visualScaled + rowWeight }
      (seen, reportVisualProgress ctx st.visualScaled st)

def roundProgressStage (ctx : RunCtx) (completed : List String) (st : RunState) : RunState :=
  (completed.foldl (onRoundProgress ctx) ([], st)).2

/-- Credit of the remaining round weight on resolution/finalization
(lines 1280–1286 and 1330–1336), scaled by `maxRounds`. -/
def creditRemaining (ctx : RunCtx) (cnpj : String) (nrows : Nat) (st : RunState) : RunState :=
  let spent := (mapGet? st.attempts cnpj).getD 0
  let remaining := ctx.maxRounds - spent
  if 0 < remaining then
    let st := { st with
      visualScaled := st.visualScaled + nrows * remaining
      attempts := mapSet st.attempts cnpj ctx.maxRounds }
    reportVisualProgress ctx st.visualScaled st
  else st

/-- Per-identifier result handling of one round (lines 1252–1348); the
accumulator carries the state and `nextPending`. -/
def resolveCnpj (ctx : RunCtx) (roundIndex : Nat) (stopMid : Bool)
    (oc : String → Option QueryOutcome) (acc : RunState × List String) (cnpj : String) :
    RunState × List String :=
  let (st, nextPending) := acc
  match oc cnpj with
  | none => (st, nextPending ++ [cnpj])
  | some outcome =>
    let rows := (mapGet? ctx.rowsByCnpj cnpj).getD []
    if outcome.status == .SIM || outcome.status == .NAO then
      let st := { st with
        detailedRows := st.detailedRows ++ rows.map (fun row =>
          mkEntry row (origGet ctx row) cnpj (statusText outcome.status) "API"
            outcome.provider outcome.detail),
        cache := mapSet st.cache cnpj (statusText outcome.status),
        processed := st.processed + rows.length, success := st.success + rows.length,
        outcomeByCnpj := mapSet st.outcomeByCnpj cnpj outcome }
      let st := creditRemaining ctx cnpj rows.length st
      (reportProcessedProgress ctx st, nextPending)
    else if outcome.status == .ERRO && decide (roundIndex < ctx.maxRounds) && !stopMid then
      (st, nextPending ++ [cnpj])
    else
      let finalStatus : QueryStatus := if outcome.status == .ERRO then .ERRO else .NAO
      let st := { st with
        detailedRows := st.detailedRows ++ rows.map (fun row =>
          mkEntry row (origGet ctx row) cnpj (statusText finalStatus) "API"
            outcome.provider outcome.detail),
        processed := st.processed + rows.length,
        outcomeByCnpj := mapSet st.outcomeByCnpj cnpj
          ⟨finalStatus, outcome.detail, outcome.provider⟩ }
      let st := creditRemaining ctx cnpj rows.length st
      let st :=
        if finalStatus == .ERRO then { st with erroCount := st.erroCount + rows.length }
        else { st with semDadoCount := st.semDadoCount + rows.length }
      (reportProcessedProgress ctx st, nextPending)

/-- The result processing of one round over the sorted round list; the
second component is `nextPending`. -/
def processRoundList (ctx : RunCtx) (roundIndex : Nat) (stopMid : Bool)
    (oc : String → Option QueryOutcome) (st : RunState) (roundList : List String) :
    RunState × List String :=
  roundList.foldl (resolveCnpj ctx roundIndex stopMid oc) (st, [])

/-- The round loop (lines 1207–1379), structurally recursive on the number
of rounds still available (`fuel = maxRounds - roundIndex + 1` at entry).
`waits` records the inter-round sleeps actually performed. -/
def runRounds (ctx : RunCtx) (rounds : Nat → RoundInput) :
    Nat → Nat → RunState → RunState
  | 0, _, st => st
  | fuel + 1, roundIndex, st =>
    if st.pending.isEmpty then st
    else if (rounds roundIndex).stopBefore then { st with interrupted := true }
    else
      let inp := rounds roundIndex
      let roundList := sortStrings st.pending
      let st := { st with roundLists := st.roundLists ++ [roundList] }
      let st := roundProgressStage ctx inp.completed st
      let res := processRoundList ctx roundIndex inp.stopAfter inp.outcome st roundList
      let st := { res.1 with pending := res.2 }
      if inp.stopAfter then { st with interrupted := true }
      else if !st.pending.isEmpty && decide (0 < fuel) then
        if inp.stopDuringWait then { st with interrupted := true }
        else runRounds ctx rounds fuel (roundIndex + 1)
          { st with waits := st.waits ++ [min (2 * roundIndex) 8] }
      else runRounds ctx rounds fuel (roundIndex + 1) st

def finalErrorStep (ctx : RunCtx) (st : RunState) (cnpj : String) : RunState :=
  let rows := (mapGet? ctx.rowsByCnpj cnpj).getD []
  let st := { st with
    detailedRows := st.detailedRows ++ rows.map (fun row =>
      mkEntry row (origGet ctx row) cnpj "ERRO" "REPROCESSAMENTO_FINAL" "fallback"
        "sem retorno apos reprocessamento"),
    processed := st.processed + rows.length, erroCount := st.erroCount + rows.length,
    outcomeByCnpj := mapSet st.outcomeByCnpj cnpj
      ⟨.ERRO, "sem retorno apos reprocessamento", "fallback"⟩ }
  reportProcessedProgress ctx st

/-- Force-finalization of leftover pending identifiers (lines 1381–1408). -/
def finalErrorStage (ctx : RunCtx) (st : RunState) : RunState :=
  if !st.interrupted && !st.pending.isEmpty then
    (sortStrings st.pending).foldl (finalErrorStep ctx) st
  else st

def interruptedStep (ctx : RunCtx) (st : RunState) (cnpj : String) : RunState :=
  { st with detailedRows := st.detailedRows ++
      (((mapGet? ctx.rowsByCnpj cnpj).getD []).map (fun row =>
        mkEntry row (origGet ctx row) cnpj "PENDENTE" "INTERRUPCAO" "NÃO_CONCLUIDO"
          "processamento interrompido antes da conclusao")) }

/-- Pending rows of an interrupted run (lines 1410–1424). -/
def interruptedStage (ctx : RunCtx) (st : RunState) : RunState :=
  if st.interrupted && !st.pending.isEmpty then
    (sortStrings st.pending).foldl (interruptedStep ctx) st
  else st

structure ProcessResult where
  processed : Nat
  total : Nat
  success : Nat
  failed : Nat
  semDado : Nat
  erro : Nat
  invalid : Nat
  interrupted : Bool
deriving DecidableEq, Repr

structure RunOutput where
  ctx : RunCtx
  state : RunState
  reportSorted : List ReportEntry
  reportLines : List String
  savedCache : List (String × String)
  result : ProcessResult
deriving Repr

/-- The state after cache load, invalid-row handling, the cache-hit
partition and the attempt-counter initialisation — everything that runs
before the first round. -/
def initStateOf (inp : RunInput) : RunState :=
  let ctx := ctxOf inp
  attemptsInit (cacheStage ctx
    (invalidStage ctx (invalidRowsOf ctx.selectedRows)
      (initState ctx (loadCache inp.cacheFile))))

/-- The `done` values of the emitted progress-event stream. -/
def dones (st : RunState) : List Nat := st.events.map Prod.fst

/-- The output rows an identifier covers (`rowsByCnpj.get(cnpj) ?? []`). -/
def rowsOf (ctx : RunCtx) (cnpj : String) : List Nat :=
  (mapGet? ctx.rowsByCnpj cnpj).getD []

/-- Number of report rows whose clean identifier is `cnpj`. -/
def countRowsFor (cnpj : String) (st : RunState) : Nat :=
  (st.detailedRows.filter (fun e => e.cnpj_limpo == cnpj)).length

/-- Total row weight of the identifiers answered from the cache. -/
def cachedRowsTotal (inp : RunInput) : Nat :=
  (((ctxOf inp).rowsByCnpj.filter (fun g =>
      mapGet? (loadCache inp.cacheFile) g.1 == some "SIM" ||
      mapGet? (loadCache inp.cacheFile) g.1 == some "NÃO")).map (fun g => g.2.length)).sum

def processWorkbook (inp : RunInput) : RunOutput :=
  let ctx := ctxOf inp
  let st := runRounds ctx inp.rounds ctx.maxRounds 1 (initStateOf inp)
  let st := finalErrorStage ctx st
  let st := interruptedStage ctx st
  let savedCache := saveCache st.cache
  let reportSorted := sortReportEntries st.detailedRows
  let reportLines := writeDetailedReport st.detailedRows
  let st := if st.interrupted then st
            else reportVisualProgress ctx (ctx.total * ctx.maxRounds) st
  let result : ProcessResult :=
    ⟨st.processed, ctx.total, st.success,
     st.invalidCount + st.erroCount + st.semDadoCount,
     st.semDadoCount, st.erroCount, st.invalidCount, st.interrupted⟩
  ⟨ctx, st, reportSorted, reportLines, savedCache, result⟩

/-- The data fields of the run state that the progress bookkeeping
(`reportVisualProgress`, `creditRemaining`, attempt counters) never touches. -/
structure SameData (a b : RunState) : Prop where
  detailedRows : b.detailedRows = a.detailedRows
  cache : b.cache = a.cache
  outcomeByCnpj : b.outcomeByCnpj = a.outcomeByCnpj
  pending : b.pending = a.pending
  processed : b.processed = a.processed
  success : b.success = a.success
  semDadoCount : b.semDadoCount = a.semDadoCount
  erroCount : b.erroCount = a.erroCount
  invalidCount : b.invalidCount = a.invalidCount
  cacheHits : b.cacheHits = a.cacheHits
  interrupted : b.interrupted = a.interrupted
  roundLists : b.roundLists = a.roundLists
  waits : b.waits = a.waits

/-- Invariant of the progress-event stream: the `done` values emitted so far
are strictly increasing, the last one is the currently reported value, and
everything is clamped to the row total. -/
structure ProgressInv (ctx : RunCtx) (st : RunState) : Prop where
  chain : (dones st).Chain' (· < ·)
  lastr : (dones st).getLast? = some st.reported
  hle : st.reported ≤ ctx.total
  alle : ∀ e ∈ st.events, e.2 = ctx.total

/-! ## Theorems -/

/-- C1: for every identifier, the fallback resolver tries
receitaws, minhareceita, brasilapi, cnpjws strictly in that order, returns
the outcome of the first provider whose answer is definitive (SIM or NÃO)
and calls no provider after it; a parsed payload matching none of the
recognition rules (nested `simples.optante` boolean, then a top-level
boolean among `simples`/`opcao_pelo_simples`/`opcao_simples`, then a
non-empty `regime_tributario` array) is itself a definitive NÃO; and when
all four providers fail softly the resolver returns ERRO with the first
four failure reasons joined. -/
theorem c1_fallback_first_definitive :
    (∀ resp : ProviderName → ProviderResponse,
      (isDefinitive (providerCall resp .receitaws) = true →
        consultarSimples resp = (providerCall resp .receitaws, [.receitaws])) ∧
      (isDefinitive (providerCall resp .receitaws) = false →
        isDefinitive (providerCall resp .minhareceita) = true →
        consultarSimples resp = (providerCall resp .minhareceita, [.receitaws, .minhareceita])) ∧
      (isDefinitive (providerCall resp .receitaws) = false →
        isDefinitive (providerCall resp .minhareceita) = false →
        isDefinitive (providerCall resp .brasilapi) = true →
        consultarSimples resp =
          (providerCall resp .brasilapi, [.receitaws, .minhareceita, .brasilapi])) ∧
      (isDefinitive (providerCall resp .receitaws) = false →
        isDefinitive (providerCall resp .minhareceita) = false →
        isDefinitive (providerCall resp .brasilapi) = false →
        isDefinitive (providerCall resp .cnpjws) = true →
        consultarSimples resp = (providerCall resp .cnpjws, PROVIDERS_FALLBACK)) ∧
      (isDefinitive (providerCall resp .receitaws) = false →
        isDefinitive (providerCall resp .minhareceita) = false →
        isDefinitive (providerCall resp .brasilapi) = false →
        isDefinitive (providerCall resp .cnpjws) = false →
        consultarSimples resp =
          (⟨.ERRO,
            String.intercalate " | "
              [(providerCall resp .receitaws).detail, (providerCall resp .minhareceita).detail,
               (providerCall resp .brasilapi).detail, (providerCall resp .cnpjws).detail],
            "fallback"⟩, PROVIDERS_FALLBACK))) ∧
    (∀ (payload : JsonFields) (providerName : String),
      isDefinitive (parseGenericSimples payload providerName) = true) ∧
    (∀ (payload : JsonFields) (providerName : String), noSimplesRule payload = true →
      parseGenericSimples payload providerName =
        ⟨.NAO, s!"{providerName}: campo de simples NÃO retornado", providerName⟩) := by
  refine ⟨fun resp => ?_, fun payload pn => ?_, fun payload pn h => ?_⟩
  · refine ⟨fun h1 => ?_, fun h1 h2 => ?_, fun h1 h2 h3 => ?_, fun h1 h2 h3 h4 => ?_,
      fun h1 h2 h3 h4 => ?_⟩ <;>
      simp_all [consultarSimples, consultarSimplesAux, PROVIDERS_FALLBACK, joinErrorDetail]
  · unfold parseGenericSimples
    repeat' split
    all_goals try rfl
    all_goals dsimp only
    all_goals split <;> rfl
  · simp only [noSimplesRule, Bool.and_eq_true, Option.isNone_iff_eq_none] at h
    obtain ⟨⟨⟨⟨h1, h2⟩, h3⟩, h4⟩, h5⟩ := h
    unfold parseGenericSimples
    rw [h1, h2, h3, h4]
    cases hr : regimeArrOf payload with
    | none => rfl
    | some regime =>
      rw [hr] at h5
      have : regime = [] := by simpa [List.isEmpty_iff] using h5
      subst this
      simp

/-- Witness for C1: a concrete run where the first two providers fail
softly and the third answers a definitive NÃO through a payload matching
no recognition rule. -/
theorem c1_fallback_first_definitive_witness :
    consultarSimples (fun p => match p with
      | .receitaws => .error "receitaws: HTTP 429"
      | .minhareceita => .error "minhareceita: resposta invalida"
      | .brasilapi => .ok [("razao_social", .str "ACME LTDA")]
      | .cnpjws => .ok [("simples", .obj [("optante", .bool true)])]) =
      (⟨.NAO, "brasilapi: campo de simples NÃO retornado", "brasilapi"⟩,
       [.receitaws, .minhareceita, .brasilapi]) ∧
    parseGenericSimples [("razao_social", .str "ACME LTDA")] "brasilapi" =
      ⟨.NAO, "brasilapi: campo de simples NÃO retornado", "brasilapi"⟩ := by
  constructor
  · exact ((c1_fallback_first_definitive.1 _).2.2.1 (by decide) (by decide) (by decide)).trans
      (by decide)
  · exact (c1_fallback_first_definitive.2.2 _ "brasilapi" (by decide)).trans (by decide)

theorem requestJsonAux_count_mono (p : ProviderName) (fetchAt : Nat → FetchResult)
    (timeAt : Nat → Nat) :
    ∀ (fuel attempt : Nat) (st : ClientState) (lastError : String) (count : Nat),
      count ≤ (requestJsonAux p fetchAt timeAt attempt fuel st lastError count).2.2 := by
  intro fuel
  induction fuel with
  | zero => intro attempt st lastError count; simp [requestJsonAux]
  | succ n ih =>
    intro attempt st lastError count
    simp only [requestJsonAux]
    repeat' split
    all_goals try dsimp only
    all_goals first
      | omega
      | exact Nat.le_trans (Nat.le_succ count) (ih _ _ _ _)

/-- C3: the circuit breaker trips on the failure that brings the
consecutive-failure counter to the threshold 4, setting a 45-second cooldown
and resetting the counter; while the cooldown is active `requestJson`
returns the "provedor pausado" soft error with the breaker state untouched
and zero network requests issued; a success resets the counter and clears
the cooldown; once the cooldown timestamp has passed, the call goes back to
the network (at least one request is issued). -/
theorem c3_circuit_breaker :
    (PROVIDER_FAILURE_THRESHOLD = 4 ∧ PROVIDER_COOLDOWN_SECONDS = 45) ∧
    (∀ (p : ProviderName) (st : ClientState) (now : Nat),
      st.providerFailures p = 3 →
      (recordProviderFailure now p st).1.providerFailures p = 0 ∧
      (recordProviderFailure now p st).1.providerCooldownUntil p = now + 45 * 1000 ∧
      (recordProviderFailure now p st).2 = some 45) ∧
    (∀ (p : ProviderName) (st : ClientState),
      (recordProviderSuccess p st).providerFailures p = 0 ∧
      (recordProviderSuccess p st).providerCooldownUntil p = 0) ∧
    (∀ (p : ProviderName) (fetchAt : Nat → FetchResult) (timeAt : Nat → Nat)
        (maxRetries : Nat) (st : ClientState),
      timeAt 1 < st.providerCooldownUntil p →
      ∃ secs : Nat,
        secs = (st.providerCooldownUntil p - timeAt 1) / 1000 ∧
        requestJson p fetchAt timeAt maxRetries st =
          (.error s!"{providerText p}: provedor pausado ({secs}s restantes apos falhas consecutivas)",
           st, 0)) ∧
    (∀ (p : ProviderName) (fetchAt : Nat → FetchResult) (timeAt : Nat → Nat)
        (maxRetries : Nat) (st : ClientState),
      st.providerCooldownUntil p ≤ timeAt 1 →
      1 ≤ (requestJson p fetchAt timeAt maxRetries st).2.2) := by
  refine ⟨⟨rfl, rfl⟩, fun p st now h => ?_, fun p st => ?_, fun p fetchAt timeAt mr st h => ?_,
    fun p fetchAt timeAt mr st h => ?_⟩
  · simp [recordProviderFailure, h, PROVIDER_FAILURE_THRESHOLD, PROVIDER_COOLDOWN_SECONDS, updFn]
  · simp [recordProviderSuccess, updFn]
  · refine ⟨(st.providerCooldownUntil p - timeAt 1) / 1000, rfl, ?_⟩
    obtain ⟨k, hk⟩ : ∃ k, max 1 mr = k + 1 := ⟨max 1 mr - 1, by omega⟩
    rw [requestJson, hk]
    have hrem : providerCooldownRemainingMs (timeAt 1) p st = st.providerCooldownUntil p - timeAt 1 := by
      simp [providerCooldownRemainingMs, Nat.not_le.mpr h]
    simp only [requestJsonAux, hrem]
    rw [if_pos (by omega)]
  · obtain ⟨k, hk⟩ : ∃ k, max 1 mr = k + 1 := ⟨max 1 mr - 1, by omega⟩
    rw [requestJson, hk]
    have hrem : providerCooldownRemainingMs (timeAt 1) p st = 0 := by
      simp [providerCooldownRemainingMs, h]
    simp only [requestJsonAux, hrem]
    rw [if_neg (by omega)]
    repeat' split
    all_goals try dsimp only
    all_goals first
      | omega
      | exact requestJsonAux_count_mono p fetchAt timeAt _ _ _ _ _

/-- Witness for C3: a provider at three recorded failures trips on the
fourth at `t = 1000`; a call at `t = 10000` during the cooldown
short-circuits with no fetch; a call at `t = 46000`, when the cooldown has
elapsed, fetches again. -/
theorem c3_circuit_breaker_witness :
    (let st3 : ClientState := ⟨fun _ => 3, fun _ => 0⟩
     (recordProviderFailure 1000 .receitaws st3).1.providerFailures .receitaws = 0 ∧
     (recordProviderFailure 1000 .receitaws st3).1.providerCooldownUntil .receitaws = 46000 ∧
     (recordProviderFailure 1000 .receitaws st3).2 = some 45) ∧
    (let stCooled : ClientState := ⟨fun _ => 0, fun _ => 46000⟩
     requestJson .receitaws (fun _ => .ok 200 (some (.obj []))) (fun _ => 10000) 2 stCooled =
       (.error "receitaws: provedor pausado (36s restantes apos falhas consecutivas)", stCooled, 0) ∧
     1 ≤ (requestJson .receitaws (fun _ => .ok 200 (some (.obj []))) (fun _ => 46000) 2 stCooled).2.2) := by
  refine ⟨?_, ?_, ?_⟩
  · have h := c3_circuit_breaker.2.1 .receitaws ⟨fun _ => 3, fun _ => 0⟩ 1000 rfl
    exact ⟨h.1, h.2.1, h.2.2⟩
  · obtain ⟨secs, hsecs, heq⟩ := c3_circuit_breaker.2.2.2.1 .receitaws
      (fun _ => .ok 200 (some (.obj []))) (fun _ => 10000) 2 ⟨fun _ => 0, fun _ => 46000⟩
      (by decide)
    rw [heq, hsecs]
    rfl
  · exact c3_circuit_breaker.2.2.2.2 .receitaws (fun _ => .ok 200 (some (.obj [])))
      (fun _ => 46000) 2 ⟨fun _ => 0, fun _ => 46000⟩ (by decide)

theorem intervalSeconds_nonneg (rl : ProviderRateLimiter) (p : ProviderName) :
    (0 : ℚ) ≤ intervalSeconds rl p := by
  have : MIN_DELAY_SECONDS ≤ intervalSeconds rl p := le_max_right _ _
  have h0 : (0 : ℚ) ≤ MIN_DELAY_SECONDS := by norm_num [MIN_DELAY_SECONDS]
  linarith

theorem validGrants_spacing_aux (rl : ProviderRateLimiter) (p : ProviderName) :
    ∀ (tr : List (ProviderName × ℚ)) (next : ProviderName → ℚ),
      validGrants rl next tr →
      List.Chain' (fun a b => a + intervalSeconds rl p * 1000 ≤ b)
        ((tr.filter (fun e => e.1 == p)).map (·.2)) ∧
      ∀ t ∈ (tr.filter (fun e => e.1 == p)).map (·.2), next p ≤ t := by
  intro tr
  induction tr with
  | nil => intro next _; simp
  | cons e rest ih =>
    obtain ⟨q, t⟩ := e
    intro next hv
    obtain ⟨h1, h2⟩ := hv
    obtain ⟨ihc, ihb⟩ := ih _ h2
    by_cases hp : q = p
    · subst hp
      have hap : (applyGrant rl next (q, t)) q = t + intervalSeconds rl q * 1000 := by
        simp [applyGrant, updFn]
      have hrw : List.filter (fun e => e.1 == q) ((q, t) :: rest) =
          (q, t) :: List.filter (fun e => e.1 == q) rest := by
        simp [List.filter_cons]
      rw [hrw, List.map_cons]
      have hnn : (0 : ℚ) ≤ intervalSeconds rl q * 1000 := by
        have := intervalSeconds_nonneg rl q; nlinarith
      constructor
      · refine List.chain'_cons'.mpr ⟨?_, ihc⟩
        intro b hb
        have hbmem : b ∈ (List.filter (fun e => e.1 == q) rest).map (·.2) :=
          List.mem_of_mem_head? hb
        have hfrom := ihb b hbmem
        rw [hap] at hfrom
        exact hfrom
      · intro s hs
        rcases List.mem_cons.mp hs with rfl | hs
        · exact h1
        · have hfrom := ihb s hs
          rw [hap] at hfrom
          linarith
    · have hfe : (((q, t) : ProviderName × ℚ).1 == p) = false := by simpa using hp
      have hap : (applyGrant rl next (q, t)) p = next p := by
        simp only [applyGrant, updFn]
        rw [if_neg (fun hc => hp hc.symm)]
      have hrw : List.filter (fun e => e.1 == p) ((q, t) :: rest) =
          List.filter (fun e => e.1 == p) rest := by
        simp [List.filter_cons, hfe]
      rw [hrw]
      refine ⟨ihc, ?_⟩
      intro s hs
      have hfrom := ihb s hs
      rw [hap] at hfrom
      exact hfrom

/-- C4: any two consecutive grants that the shared per-provider rate limiter
hands out for one provider are at least
`max(baseDelaySeconds × providerWeightFactor, 0.1 s)` apart, whichever
worker requested them: a grant is only valid once the provider's
next-allowed timestamp has passed, and it reserves the next slot at
`now + interval`.  The interval of the limiter built from the configured
delay is exactly `max(max(delay, 0.1) × factor, 0.1)` seconds. -/
theorem c4_rate_limiter_spacing :
    (∀ (delaySeconds : ℚ) (p : ProviderName),
      intervalSeconds (mkRateLimiter delaySeconds) p =
        max (max delaySeconds (1/10) * PROVIDER_RATE_FACTORS p) (1/10)) ∧
    (∀ (delaySeconds : ℚ) (tr : List (ProviderName × ℚ)) (p : ProviderName),
      validGrants (mkRateLimiter delaySeconds) limiterInit tr →
      List.Chain' (fun a b => a + intervalSeconds (mkRateLimiter delaySeconds) p * 1000 ≤ b)
        ((tr.filter (fun e => e.1 == p)).map (·.2))) := by
  constructor
  · intro d p; rfl
  · intro d tr p hv
    exact (validGrants_spacing_aux (mkRateLimiter d) p tr limiterInit hv).1

/-- Witness for C4: with a base delay of 1 s, grants to receitaws at
`t = 0 ms` and `t = 1000 ms` with a minhareceita grant in between form a
valid limiter run, and the receitaws dispatch times are spaced by the full
1000 ms interval. -/
theorem c4_rate_limiter_spacing_witness :
    List.Chain'
      (fun a b => a + intervalSeconds (mkRateLimiter 1) .receitaws * 1000 ≤ b)
      (([((.receitaws : ProviderName), (0 : ℚ)), (.minhareceita, 100), (.receitaws, 1000)].filter
          (fun e => e.1 == ProviderName.receitaws)).map (·.2)) := by
  refine c4_rate_limiter_spacing.2 1
    [((.receitaws : ProviderName), (0 : ℚ)), (.minhareceita, 100), (.receitaws, 1000)]
    .receitaws ?_
  refine ⟨by norm_num [limiterInit], ?_, ?_, trivial⟩
  · simp only [applyGrant, updFn, limiterInit]
    rw [if_neg (by decide)]
    norm_num
  · simp only [applyGrant, updFn, limiterInit]
    rw [if_neg (by decide), if_pos trivial]
    norm_num [intervalSeconds, mkRateLimiter, PROVIDER_RATE_FACTORS, MIN_DELAY_SECONDS]

theorem runningList_cons (a : WStatus) (l : List WStatus) :
    runningList (a :: l) = (runningOf a).toList ++ runningList l := by
  cases a <;> simp [runningList, List.filterMap_cons, runningOf]

theorem perm_rotate {α : Type} (x r w : List α) :
    List.Perm ((x ++ r) ++ w) ((w ++ r) ++ x) := by
  have h1 : List.Perm ((x ++ r) ++ w) (w ++ (x ++ r)) := List.perm_append_comm
  have h3 : List.Perm (w ++ (x ++ r)) (w ++ (r ++ x)) :=
    List.Perm.append_left w List.perm_append_comm
  have h4 : w ++ (r ++ x) = (w ++ r) ++ x := (List.append_assoc w r x).symm
  exact h4 ▸ (h1.trans h3)

theorem runningList_set_perm : ∀ (ws : List WStatus) (i : Nat) (w x : WStatus),
    ws.get? i = some w →
    List.Perm (runningList (ws.set i x) ++ (runningOf w).toList)
      (runningList ws ++ (runningOf x).toList) := by
  intro ws
  induction ws with
  | nil => intro i w x h; simp at h
  | cons a as ih =>
    intro i w x h
    cases i with
    | zero =>
      simp only [List.get?] at h
      injection h with h
      simp only [List.set, runningList_cons]
      rw [h]
      exact perm_rotate _ _ _
    | succ n =>
      simp only [List.get?] at h
      simp only [List.set, runningList_cons]
      rw [List.append_assoc, List.append_assoc]
      exact List.Perm.append_left _ (ih n w x h)

theorem mem_runningList_of_get? {ws : List WStatus} {i : Nat} {c : String}
    (h : ws.get? i = some (.running c)) : c ∈ runningList ws :=
  List.mem_filterMap.mpr ⟨.running c, List.get?_mem h, rfl⟩

theorem runningList_replicate_idle : ∀ n : Nat, runningList (List.replicate n .idle) = [] := by
  intro n
  induction n with
  | zero => rfl
  | succ m ihm => simpa [List.replicate, runningList_cons, runningOf] using ihm

theorem mem_mapSet {κ α : Type} [BEq κ] [LawfulBEq κ] :
    ∀ (m : List (κ × α)) (k : κ) (v : α) (kv : κ × α),
      kv ∈ mapSet m k v → kv ∈ m ∨ kv = (k, v) := by
  intro m k v
  induction m with
  | nil => intro kv h; simp [mapSet] at h; simp [h]
  | cons e rest ih =>
    intro kv h
    simp only [mapSet] at h
    split at h
    · rcases List.mem_cons.mp h with rfl | h
      · rename_i he
        right
        have : e.1 = k := eq_of_beq he
        simp [← this]
      · exact .inl (List.mem_cons.mpr (.inr h))
    · rcases List.mem_cons.mp h with rfl | h
      · exact .inl (List.mem_cons.mpr (.inl rfl))
      · rcases ih kv h with h' | h'
        · exact .inl (List.mem_cons.mpr (.inr h'))
        · exact .inr h'

theorem mapSet_of_fresh {κ α : Type} [BEq κ] [LawfulBEq κ] :
    ∀ (m : List (κ × α)) (k : κ) (v : α), k ∉ m.map Prod.fst →
      mapSet m k v = m ++ [(k, v)] := by
  intro m k v
  induction m with
  | nil => intro _; rfl
  | cons e rest ih =>
    intro h
    simp only [List.map_cons, List.mem_cons] at h
    push_neg at h
    simp only [mapSet]
    rw [if_neg (by simpa using fun he => h.1 he.symm)]
    rw [ih h.2]
    simp

theorem mapGet?_of_mem_keys {κ α : Type} [BEq κ] [LawfulBEq κ] :
    ∀ (m : List (κ × α)) (k : κ), k ∈ m.map Prod.fst →
      ∃ v, mapGet? m k = some v ∧ (k, v) ∈ m := by
  intro m k
  induction m with
  | nil => intro h; simp at h
  | cons e rest ih =>
    intro h
    by_cases he : e.1 = k
    · exact ⟨e.2, by simp [mapGet?, List.find?_cons, he], by
        simp only [List.mem_cons]
        left
        cases e
        simp_all⟩
    · have h' : k ∈ rest.map Prod.fst := by
        simp only [List.map_cons, List.mem_cons] at h
        rcases h with h | h
        · exact absurd h.symm he
        · exact h
      obtain ⟨v, hv, hmem⟩ := ih h'
      refine ⟨v, ?_, List.mem_cons.mpr (.inr hmem)⟩
      simp only [mapGet?, List.find?_cons] at hv ⊢
      rw [show (e.1 == k) = false by simpa using he]
      exact hv

theorem poolReach_basic {numW : Nat} {cnpjs : List String}
    {outcomeOf : String → QueryOutcome} {stopAllowed : Bool} :
    ∀ {st : PoolState}, PoolReach numW cnpjs outcomeOf stopAllowed st →
      st.ws.length = numW ∧
      st.dequeued = cnpjs.take st.taskIndex ∧
      st.taskIndex ≤ cnpjs.length ∧
      (∀ kv ∈ st.results, kv.2 = outcomeOf kv.1) := by
  intro st hr
  induction hr with
  | init => simp [poolInit]
  | @step s s' hprev hstep ih =>
    obtain ⟨ihlen, ihdeq, ihle, ihval⟩ := ih
    cases hstep with
    | pick i c hi hidx =>
      refine ⟨by simpa using ihlen, ?_, ?_, ihval⟩
      · dsimp only
        simp only [List.take_succ]
        rw [← ihdeq]
        have hg : cnpjs[s.taskIndex]? = some c := by
          rw [← List.get?_eq_getElem?]
          exact hidx
        simp [hg]
      · dsimp only
        have : s.taskIndex < cnpjs.length := by
          by_contra hge
          rw [List.get?_eq_none.mpr (by omega)] at hidx
          exact Option.noConfusion hidx
        omega
    | exhaust i hi hge => exact ⟨by simpa using ihlen, ihdeq, ihle, ihval⟩
    | stopExit i hi hs => exact ⟨by simpa using ihlen, ihdeq, ihle, ihval⟩
    | finish i c hi =>
      refine ⟨by simpa using ihlen, ihdeq, ihle, ?_⟩
      intro kv hkv
      rcases mem_mapSet _ _ _ _ hkv with h | h
      · exact ihval kv h
      · rw [h]
    | finishStop i c hi hs => exact ⟨by simpa using ihlen, ihdeq, ihle, ihval⟩

theorem poolReach_no_stop {numW : Nat} {cnpjs : List String}
    {outcomeOf : String → QueryOutcome} (hnd : cnpjs.Nodup) :
    ∀ {st : PoolState}, PoolReach numW cnpjs outcomeOf false st →
      List.Perm (st.results.map Prod.fst ++ runningList st.ws) st.dequeued ∧
      (∀ i w, st.ws.get? i = some w → w = .done → cnpjs.length ≤ st.taskIndex) := by
  intro st hr
  induction hr with
  | init =>
    constructor
    · simp [poolInit, runningList_replicate_idle]
    · intro i w hw hdone
      have := List.eq_of_mem_replicate (List.get?_mem hw)
      rw [this] at hdone
      exact absurd hdone (by simp)
  | @step s s' hprev hstep ih =>
    obtain ⟨ihperm, ihdone⟩ := ih
    obtain ⟨hlen, hdeq, hle, _⟩ := poolReach_basic hprev
    cases hstep with
    | pick i c hi hidx =>
      constructor
      · dsimp only
        have hset := runningList_set_perm s.ws i .idle (.running c) hi
        simp only [runningOf, Option.toList] at hset
        rw [List.append_nil] at hset
        have h1 : List.Perm (s.results.map Prod.fst ++ runningList (s.ws.set i (.running c)))
            (s.results.map Prod.fst ++ (runningList s.ws ++ [c])) :=
          List.Perm.append_left _ hset
        have h2 : List.Perm ((s.results.map Prod.fst ++ runningList s.ws) ++ [c])
            (s.dequeued ++ [c]) := List.Perm.append_right _ ihperm
        rw [List.append_assoc] at h2
        exact h1.trans h2
      · intro j w hw hdone
        dsimp only at hw ⊢
        by_cases hji : j = i
        · subst hji
          rw [List.get?_set_eq] at hw
          rw [hi] at hw
          simp at hw
          rw [hdone] at hw
          exact absurd hw (by simp)
        · rw [List.get?_set_ne _ _ (fun h => hji h.symm)] at hw
          have := ihdone j w hw hdone
          omega
    | exhaust i hi hge =>
      constructor
      · dsimp only
        have hset := runningList_set_perm s.ws i .idle .done hi
        simp only [runningOf, Option.toList] at hset
        rw [List.append_nil, List.append_nil] at hset
        exact (List.Perm.append_left _ hset).trans ihperm
      · intro j w hw hdone
        exact hge
    | stopExit i hi hs => exact absurd hs (by simp)
    | finish i c hi =>
      have hcmem : c ∈ runningList s.ws := mem_runningList_of_get? hi
      have hndek : (s.results.map Prod.fst ++ runningList s.ws).Nodup := by
        refine List.Perm.nodup ihperm.symm ?_
        rw [hdeq]
        exact hnd.sublist (List.take_sublist _ _)
      have hcnotin : c ∉ s.results.map Prod.fst := by
        rw [List.nodup_append] at hndek
        exact fun hc => hndek.2.2 hc hcmem
      constructor
      · dsimp only
        have hset := runningList_set_perm s.ws i (.running c) .idle hi
        simp only [runningOf, Option.toList] at hset
        rw [List.append_nil] at hset
        rw [mapSet_of_fresh _ _ _ hcnotin]
        have h0 : (s.results ++ [(c, outcomeOf c)]).map Prod.fst ++
              runningList (s.ws.set i .idle) =
            s.results.map Prod.fst ++ ([c] ++ runningList (s.ws.set i .idle)) := by
          simp
        have h1 : List.Perm (s.results.map Prod.fst ++ ([c] ++ runningList (s.ws.set i .idle)))
            (s.results.map Prod.fst ++ (runningList (s.ws.set i .idle) ++ [c])) :=
          List.Perm.append_left _ List.perm_append_comm
        have h2 : List.Perm (s.results.map Prod.fst ++ (runningList (s.ws.set i .idle) ++ [c]))
            (s.results.map Prod.fst ++ runningList s.ws) :=
          List.Perm.append_left _ hset
        rw [h0]
        exact (h1.trans h2).trans ihperm
      · intro j w hw hdone
        dsimp only at hw ⊢
        by_cases hji : j = i
        · subst hji
          rw [List.get?_set_eq] at hw
          rw [hi] at hw
          simp at hw
          rw [hdone] at hw
          exact absurd hw (by simp)
        · rw [List.get?_set_ne _ _ (fun h => hji h.symm)] at hw
          exact ihdone j w hw hdone
    | finishStop i c hi hs => exact absurd hs (by simp)

/-- C5: each round's pool spawns exactly
`numWorkers = max(1, min(configuredWorkers, listLength))` worker loops; the
number of in-flight lookups never exceeds that bound; the dequeue trace is
exactly the processed prefix of the (duplicate-free) round list, so no
identifier is dequeued twice; and a run that terminates without any
cancellation has recorded the resolver outcome for every identifier of the
list. -/
theorem c5_worker_pool :
    (∀ workers len : Nat, numWorkers workers len = max 1 (min workers len)) ∧
    (∀ (numW : Nat) (cnpjs : List String) (outcomeOf : String → QueryOutcome)
        (stopAllowed : Bool) (st : PoolState),
      PoolReach numW cnpjs outcomeOf stopAllowed st →
      st.ws.length = numW ∧ inFlight st.ws ≤ numW ∧
      st.dequeued = cnpjs.take st.taskIndex ∧
      (cnpjs.Nodup → st.dequeued.Nodup)) ∧
    (∀ (numW : Nat) (cnpjs : List String) (outcomeOf : String → QueryOutcome)
        (st : PoolState),
      0 < numW → cnpjs.Nodup →
      PoolReach numW cnpjs outcomeOf false st →
      (∀ w ∈ st.ws, w = .done) →
      ∀ c ∈ cnpjs, mapGet? st.results c = some (outcomeOf c)) := by
  refine ⟨?_, ?_, ?_⟩
  · intro w n
    unfold numWorkers
    rcases Nat.eq_zero_or_pos n with rfl | hn
    · simp
    · rw [if_neg (by simpa using hn.ne')]
  · intro numW cnpjs outcomeOf stopAllowed st hr
    obtain ⟨hlen, hdeq, _, _⟩ := poolReach_basic hr
    refine ⟨hlen, ?_, hdeq, fun hnd => ?_⟩
    · calc inFlight st.ws ≤ st.ws.length := List.length_filterMap_le _ _
        _ = numW := hlen
    · rw [hdeq]
      exact hnd.sublist (List.take_sublist _ _)
  · intro numW cnpjs outcomeOf st hW hnd hr hterm c hc
    obtain ⟨hperm, hdone⟩ := poolReach_no_stop hnd hr
    obtain ⟨hlen, hdeq, hle, hval⟩ := poolReach_basic hr
    have hws : ∃ w, st.ws.get? 0 = some w := by
      have : 0 < st.ws.length := by omega
      exact ⟨st.ws.get ⟨0, this⟩, List.get?_eq_get this⟩
    obtain ⟨w, hw⟩ := hws
    have hwdone : w = .done := hterm w (List.get?_mem hw)
    have htake : st.taskIndex = cnpjs.length := by
      have := hdone 0 w hw hwdone
      omega
    have hrun : runningList st.ws = [] := by
      rcases hrl : runningList st.ws with _ | ⟨a, rest⟩
      · rfl
      · exfalso
        have : a ∈ runningList st.ws := by rw [hrl]; exact List.mem_cons_self a rest
        obtain ⟨wst, hwmem, hwa⟩ := List.mem_filterMap.mp this
        have := hterm wst hwmem
        rw [this] at hwa
        simp [runningOf] at hwa
    have hkeys : List.Perm (st.results.map Prod.fst) cnpjs := by
      have := hperm
      rw [hrun, List.append_nil, hdeq, htake, List.take_length] at this
      exact this
    have hcmem : c ∈ st.results.map Prod.fst := hkeys.mem_iff.mpr hc
    obtain ⟨v, hv, hmem⟩ := mapGet?_of_mem_keys st.results c hcmem
    have hveq : v = outcomeOf c := by simpa using hval (c, v) hmem
    rw [hv, hveq]

/-- Witness for C5: a single worker drains the one-element list
`["11222333000181"]` (pick, finish, exhaust) and the terminal pool state
records the resolver outcome for it. -/
theorem c5_worker_pool_witness :
    numWorkers 6 1 = max 1 (min 6 1) ∧
    (∀ c ∈ ["11222333000181"],
      mapGet?
        ((⟨1, [WStatus.done],
           [("11222333000181", (⟨.NAO, "receitaws: simples=false", "receitaws"⟩ : QueryOutcome))],
           ["11222333000181"]⟩ : PoolState)).results c =
        some (⟨.NAO, "receitaws: simples=false", "receitaws"⟩ : QueryOutcome)) := by
  constructor
  · exact c5_worker_pool.1 6 1
  · have h1 : PoolReach 1 ["11222333000181"]
        (fun _ => (⟨.NAO, "receitaws: simples=false", "receitaws"⟩ : QueryOutcome)) false
        ⟨1, [.running "11222333000181"], [], ["11222333000181"]⟩ :=
      PoolReach.step PoolReach.init (PoolStep.pick _ 0 "11222333000181" rfl rfl)
    have h2 : PoolReach 1 ["11222333000181"]
        (fun _ => (⟨.NAO, "receitaws: simples=false", "receitaws"⟩ : QueryOutcome)) false
        ⟨1, [.idle],
         [("11222333000181", (⟨.NAO, "receitaws: simples=false", "receitaws"⟩ : QueryOutcome))],
         ["11222333000181"]⟩ :=
      PoolReach.step h1 (PoolStep.finish _ 0 "11222333000181" rfl)
    have h3 : PoolReach 1 ["11222333000181"]
        (fun _ => (⟨.NAO, "receitaws: simples=false", "receitaws"⟩ : QueryOutcome)) false
        ⟨1, [.done],
         [("11222333000181", (⟨.NAO, "receitaws: simples=false", "receitaws"⟩ : QueryOutcome))],
         ["11222333000181"]⟩ :=
      PoolReach.step h2 (PoolStep.exhaust _ 0 rfl (by decide))
    exact c5_worker_pool.2.2 1 ["11222333000181"] _ _ (by decide) (by decide) h3 (by decide)

/-! ### Association-list and fold lemmas shared by the run-model claims -/

theorem mapGet?_mapSet_self {κ α : Type} [BEq κ] [LawfulBEq κ] :
    ∀ (m : List (κ × α)) (k : κ) (v : α), mapGet? (mapSet m k v) k = some v := by
  intro m k v
  induction m with
  | nil => simp [mapSet, mapGet?, List.find?]
  | cons e rest ih =>
    simp only [mapSet]
    split
    · rename_i he
      simp [mapGet?, List.find?_cons, he]
    · rename_i he
      simp only [mapGet?, List.find?_cons] at ih ⊢
      rw [show (e.1 == k) = false by simpa using he]
      exact ih

theorem mapGet?_mapSet_ne {κ α : Type} [BEq κ] [LawfulBEq κ] :
    ∀ (m : List (κ × α)) (k' k : κ) (v : α), k' ≠ k →
      mapGet? (mapSet m k' v) k = mapGet? m k := by
  intro m k' k v hne
  induction m with
  | nil =>
    simp [mapSet, mapGet?, List.find?_cons, show (k' == k) = false by simpa using hne]
  | cons e rest ih =>
    simp only [mapSet]
    split
    · rename_i he
      have he' : e.1 = k' := eq_of_beq he
      have hf : (e.1 == k) = false := by simpa [he'] using hne
      simp [mapGet?, List.find?_cons, hf]
    · simp only [mapGet?, List.find?_cons] at ih ⊢
      split
      · rfl
      · exact ih

theorem mapGet?_eq_of_mem_nodup {κ α : Type} [BEq κ] [LawfulBEq κ] :
    ∀ (m : List (κ × α)) (k : κ) (v : α), (k, v) ∈ m → (m.map Prod.fst).Nodup →
      mapGet? m k = some v := by
  intro m k v hmem hnd
  induction m with
  | nil => simp at hmem
  | cons e rest ih =>
    simp only [List.map_cons, List.nodup_cons] at hnd
    rcases List.mem_cons.mp hmem with rfl | hmem
    · simp [mapGet?, List.find?_cons]
    · have hk : e.1 ≠ k := by
        intro he
        exact hnd.1 (he ▸ (List.mem_map.mpr ⟨(k, v), hmem, rfl⟩))
      simp only [mapGet?, List.find?_cons]
      rw [show (e.1 == k) = false by simpa using hk]
      exact ih hmem hnd.2

theorem foldl_preserve {σ α : Type} (P : σ → Prop) (f : σ → α → σ)
    (hf : ∀ s x, P s → P (f s x)) : ∀ (l : List α) (s : σ), P s → P (l.foldl f s) := by
  intro l
  induction l with
  | nil => intro s hs; exact hs
  | cons x xs ih => intro s hs; exact ih (f s x) (hf s x hs)

/-! ### Progress calls leave the orchestration data untouched -/

/-- The state fields that carry orchestration data (report, cache, outcome
map, pending set, counters, traces) — everything except the progress
bookkeeping (`attempts`, `visualScaled`, `reported`, `events`). -/
theorem sameData_refl {a : RunState} : SameData a a :=
  ⟨Eq.refl _, Eq.refl _, Eq.refl _, Eq.refl _, Eq.refl _, Eq.refl _, Eq.refl _,
   Eq.refl _, Eq.refl _, Eq.refl _, Eq.refl _, Eq.refl _, Eq.refl _⟩

theorem SameData.trans {a b c : RunState} (h1 : SameData a b) (h2 : SameData b c) :
    SameData a c :=
  ⟨h2.detailedRows.trans h1.detailedRows, h2.cache.trans h1.cache,
   h2.outcomeByCnpj.trans h1.outcomeByCnpj, h2.pending.trans h1.pending,
   h2.processed.trans h1.processed, h2.success.trans h1.success,
   h2.semDadoCount.trans h1.semDadoCount, h2.erroCount.trans h1.erroCount,
   h2.invalidCount.trans h1.invalidCount, h2.cacheHits.trans h1.cacheHits,
   h2.interrupted.trans h1.interrupted, h2.roundLists.trans h1.roundLists,
   h2.waits.trans h1.waits⟩

theorem sameData_reportVisualProgress (ctx : RunCtx) (v : Nat) (st : RunState) :
    SameData st (reportVisualProgress ctx v st) := by
  unfold reportVisualProgress
  dsimp only
  split
  · exact sameData_refl
  · exact ⟨rfl, rfl, rfl, rfl, rfl, rfl, rfl, rfl, rfl, rfl, rfl, rfl, rfl⟩

theorem sameData_reportProcessedProgress (ctx : RunCtx) (st : RunState) :
    SameData st (reportProcessedProgress ctx st) := by
  unfold reportProcessedProgress
  dsimp only
  split
  · refine SameData.trans ?_ (sameData_reportVisualProgress ctx _ _)
    exact ⟨rfl, rfl, rfl, rfl, rfl, rfl, rfl, rfl, rfl, rfl, rfl, rfl, rfl⟩
  · exact sameData_reportVisualProgress ctx _ _

theorem sameData_creditRemaining (ctx : RunCtx) (cnpj : String) (nrows : Nat)
    (st : RunState) : SameData st (creditRemaining ctx cnpj nrows st) := by
  unfold creditRemaining
  dsimp only
  split
  · refine SameData.trans ?_ (sameData_reportVisualProgress ctx _ _)
    exact ⟨rfl, rfl, rfl, rfl, rfl, rfl, rfl, rfl, rfl, rfl, rfl, rfl, rfl⟩
  · exact sameData_refl

theorem sameData_onRoundProgress (ctx : RunCtx) (acc : List String × RunState)
    (cnpj : String) : SameData acc.2 (onRoundProgress ctx acc cnpj).2 := by
  obtain ⟨seen, st⟩ := acc
  unfold onRoundProgress
  dsimp only
  split
  · exact sameData_refl
  · split
    · exact sameData_refl
    · refine SameData.trans ?_ (sameData_reportVisualProgress ctx _ _)
      exact ⟨rfl, rfl, rfl, rfl, rfl, rfl, rfl, rfl, rfl, rfl, rfl, rfl, rfl⟩

theorem sameData_roundProgressStage (ctx : RunCtx) (completed : List String)
    (st : RunState) : SameData st (roundProgressStage ctx completed st) := by
  unfold roundProgressStage
  have h := foldl_preserve (fun acc : List String × RunState => SameData st acc.2)
    (onRoundProgress ctx)
    (fun acc c hacc => hacc.trans (sameData_onRoundProgress ctx acc c))
    completed ([], st) sameData_refl
  exact h

/-! ### Shape of one `resolveCnpj` step -/

theorem mkEntry_cnpj_limpo (row : Nat) (a c s o p d : String) :
    (mkEntry row a c s o p d).cnpj_limpo = c := rfl

theorem sameData_credit_report (ctx : RunCtx) (c : String) (n : Nat) (st : RunState) :
    SameData st (reportProcessedProgress ctx (creditRemaining ctx c n st)) :=
  SameData.trans (sameData_creditRemaining ctx c n st)
    (sameData_reportProcessedProgress ctx _)

theorem resolveCnpj_shape (ctx : RunCtx) (roundIndex : Nat) (stopMid : Bool)
    (oc : String → Option QueryOutcome) (acc : RunState × List String) (c : String) :
    ((resolveCnpj ctx roundIndex stopMid oc acc c).2 = acc.2 ∨
      (resolveCnpj ctx roundIndex stopMid oc acc c).2 = acc.2 ++ [c]) ∧
    (∃ extra, (resolveCnpj ctx roundIndex stopMid oc acc c).1.detailedRows =
        acc.1.detailedRows ++ extra ∧ ∀ e ∈ extra, e.cnpj_limpo = c) ∧
    ((resolveCnpj ctx roundIndex stopMid oc acc c).1.cache = acc.1.cache ∨
      ∃ sv, (resolveCnpj ctx roundIndex stopMid oc acc c).1.cache =
        mapSet acc.1.cache c sv) ∧
    ((resolveCnpj ctx roundIndex stopMid oc acc c).1.outcomeByCnpj = acc.1.outcomeByCnpj ∨
      ∃ o, (resolveCnpj ctx roundIndex stopMid oc acc c).1.outcomeByCnpj =
        mapSet acc.1.outcomeByCnpj c o) ∧
    (resolveCnpj ctx roundIndex stopMid oc acc c).1.pending = acc.1.pending ∧
    (resolveCnpj ctx roundIndex stopMid oc acc c).1.interrupted = acc.1.interrupted ∧
    (resolveCnpj ctx roundIndex stopMid oc acc c).1.roundLists = acc.1.roundLists ∧
    (resolveCnpj ctx roundIndex stopMid oc acc c).1.waits = acc.1.waits ∧
    (resolveCnpj ctx roundIndex stopMid oc acc c).1.invalidCount = acc.1.invalidCount ∧
    (resolveCnpj ctx roundIndex stopMid oc acc c).1.cacheHits = acc.1.cacheHits := by
  obtain ⟨st, np⟩ := acc
  unfold resolveCnpj
  dsimp only
  cases hoc : oc c with
  | none =>
    exact ⟨Or.inr rfl, ⟨[], by simp, by simp⟩, Or.inl rfl, Or.inl rfl,
      rfl, rfl, rfl, rfl, rfl, rfl⟩
  | some o =>
    dsimp only
    split
    · refine ⟨Or.inl rfl,
        ⟨_, (sameData_credit_report ctx c _ _).detailedRows, ?_⟩,
        Or.inr ⟨statusText o.status, (sameData_credit_report ctx c _ _).cache⟩,
        Or.inr ⟨o, (sameData_credit_report ctx c _ _).outcomeByCnpj⟩,
        (sameData_credit_report ctx c _ _).pending,
        (sameData_credit_report ctx c _ _).interrupted,
        (sameData_credit_report ctx c _ _).roundLists,
        (sameData_credit_report ctx c _ _).waits,
        (sameData_credit_report ctx c _ _).invalidCount,
        (sameData_credit_report ctx c _ _).cacheHits⟩
      intro e he
      obtain ⟨row, _, hrow⟩ := List.mem_map.mp he
      rw [← hrow]
      rfl
    · split
      · exact ⟨Or.inr rfl, ⟨[], by simp, by simp⟩, Or.inl rfl, Or.inl rfl,
          rfl, rfl, rfl, rfl, rfl, rfl⟩
      · split <;>
          (refine ⟨Or.inl rfl,
            ⟨_, ((sameData_reportProcessedProgress ctx _).detailedRows).trans
              ((sameData_creditRemaining ctx c _ _).detailedRows), ?_⟩,
            Or.inl (((sameData_reportProcessedProgress ctx _).cache).trans
              ((sameData_creditRemaining ctx c _ _).cache)),
            Or.inr ⟨_, ((sameData_reportProcessedProgress ctx _).outcomeByCnpj).trans
              ((sameData_creditRemaining ctx c _ _).outcomeByCnpj)⟩,
            ((sameData_reportProcessedProgress ctx _).pending).trans
              ((sameData_creditRemaining ctx c _ _).pending),
            ((sameData_reportProcessedProgress ctx _).interrupted).trans
              ((sameData_creditRemaining ctx c _ _).interrupted),
            ((sameData_reportProcessedProgress ctx _).roundLists).trans
              ((sameData_creditRemaining ctx c _ _).roundLists),
            ((sameData_reportProcessedProgress ctx _).waits).trans
              ((sameData_creditRemaining ctx c _ _).waits),
            ((sameData_reportProcessedProgress ctx _).invalidCount).trans
              ((sameData_creditRemaining ctx c _ _).invalidCount),
            ((sameData_reportProcessedProgress ctx _).cacheHits).trans
              ((sameData_creditRemaining ctx c _ _).cacheHits)⟩
           intro e he
           obtain ⟨row, _, hrow⟩ := List.mem_map.mp he
           rw [← hrow]
           rfl)

theorem resolveCnpj_retry (ctx : RunCtx) (roundIndex : Nat)
    (oc : String → Option QueryOutcome) (st : RunState) (np : List String)
    (cnpj : String) (o : QueryOutcome) (ho : oc cnpj = some o) (hs : o.status = .ERRO)
    (hlt : roundIndex < ctx.maxRounds) :
    resolveCnpj ctx roundIndex false oc (st, np) cnpj = (st, np ++ [cnpj]) := by
  unfold resolveCnpj
  dsimp only
  rw [ho]
  dsimp only
  rw [if_neg (by rw [hs]; decide), if_pos (by rw [hs]; simpa using hlt)]

theorem resolveCnpj_final (ctx : RunCtx) (roundIndex : Nat) (stopMid : Bool)
    (oc : String → Option QueryOutcome) (st : RunState) (np : List String)
    (cnpj : String) (o : QueryOutcome) (ho : oc cnpj = some o) (hs : o.status = .ERRO)
    (hnot : ¬(roundIndex < ctx.maxRounds ∧ stopMid = false)) :
    (resolveCnpj ctx roundIndex stopMid oc (st, np) cnpj).2 = np ∧
    mapGet? (resolveCnpj ctx roundIndex stopMid oc (st, np) cnpj).1.outcomeByCnpj cnpj =
      some ⟨.ERRO, o.detail, o.provider⟩ ∧
    (∀ row ∈ rowsOf ctx cnpj,
      mkEntry row (origGet ctx row) cnpj "ERRO" "API" o.provider o.detail ∈
        (resolveCnpj ctx roundIndex stopMid oc (st, np) cnpj).1.detailedRows) ∧
    mapGet? (resolveCnpj ctx roundIndex stopMid oc (st, np) cnpj).1.cache cnpj =
      mapGet? st.cache cnpj := by
  have hcond : ¬((o.status == QueryStatus.ERRO && decide (roundIndex < ctx.maxRounds) &&
      !stopMid) = true) := by
    rw [hs]
    simp only [beq_self_eq_true, Bool.true_and, Bool.and_eq_true, decide_eq_true_eq,
      Bool.not_eq_true']
    exact fun h => hnot ⟨h.1, h.2⟩
  unfold resolveCnpj
  dsimp only
  rw [ho]
  dsimp only
  rw [if_neg (by rw [hs]; decide), if_neg hcond, hs]
  dsimp only
  rw [if_pos (by decide)]
  refine ⟨rfl, ?_, ?_, ?_⟩
  · rw [(sameData_reportProcessedProgress ctx _).outcomeByCnpj]
    dsimp only
    rw [(sameData_creditRemaining ctx cnpj _ _).outcomeByCnpj]
    exact mapGet?_mapSet_self _ _ _
  · intro row hrow
    rw [(sameData_reportProcessedProgress ctx _).detailedRows]
    dsimp only
    rw [(sameData_creditRemaining ctx cnpj _ _).detailedRows]
    exact List.mem_append_right _ (List.mem_map.mpr ⟨row, hrow, rfl⟩)
  · rw [(sameData_reportProcessedProgress ctx _).cache]
    dsimp only
    rw [(sameData_creditRemaining ctx cnpj _ _).cache]

theorem countRowsFor_ext (cnpj : String) {a b : List ReportEntry} {extra : List ReportEntry}
    (h : b = a ++ extra) (hx : ∀ e ∈ extra, e.cnpj_limpo ≠ cnpj) :
    (b.filter (fun e => e.cnpj_limpo == cnpj)).length =
      (a.filter (fun e => e.cnpj_limpo == cnpj)).length := by
  subst h
  rw [List.filter_append, List.length_append]
  have : extra.filter (fun e => e.cnpj_limpo == cnpj) = [] := by
    rw [List.filter_eq_nil_iff]
    intro e he
    simpa using hx e he
  rw [this]
  simp

/-- Every `resolveCnpj` step only appends report rows. -/
theorem processRoundList_rows_mono (ctx : RunCtx) (roundIndex : Nat) (stopMid : Bool)
    (oc : String → Option QueryOutcome) :
    ∀ (roundList : List String) (acc : RunState × List String) (e : ReportEntry),
      e ∈ acc.1.detailedRows →
      e ∈ (roundList.foldl (resolveCnpj ctx roundIndex stopMid oc) acc).1.detailedRows := by
  intro roundList
  induction roundList with
  | nil => intro acc e he; exact he
  | cons c rest ih =>
    intro acc e he
    obtain ⟨_, ⟨extra, hext, _⟩, _⟩ := resolveCnpj_shape ctx roundIndex stopMid oc acc c
    exact ih _ e (by rw [hext]; exact List.mem_append_left _ he)

/-- A fold that never meets `cnpj` leaves everything about `cnpj` alone. -/
theorem processRoundList_untouched (ctx : RunCtx) (roundIndex : Nat) (stopMid : Bool)
    (oc : String → Option QueryOutcome) (cnpj : String) :
    ∀ (roundList : List String) (st : RunState) (np : List String),
      cnpj ∉ roundList → cnpj ∉ np →
      cnpj ∉ (roundList.foldl (resolveCnpj ctx roundIndex stopMid oc) (st, np)).2 ∧
      mapGet? (roundList.foldl (resolveCnpj ctx roundIndex stopMid oc) (st, np)).1.outcomeByCnpj
          cnpj = mapGet? st.outcomeByCnpj cnpj ∧
      mapGet? (roundList.foldl (resolveCnpj ctx roundIndex stopMid oc) (st, np)).1.cache cnpj =
        mapGet? st.cache cnpj ∧
      countRowsFor cnpj
          (roundList.foldl (resolveCnpj ctx roundIndex stopMid oc) (st, np)).1 =
        countRowsFor cnpj st := by
  intro roundList
  induction roundList with
  | nil => intro st np _ hnp; exact ⟨hnp, rfl, rfl, rfl⟩
  | cons c rest ih =>
    intro st np hnl hnp
    have hcne : c ≠ cnpj := fun h => hnl (h ▸ List.mem_cons_self c rest)
    have hrest : cnpj ∉ rest := fun h => hnl (List.mem_cons_of_mem c h)
    obtain ⟨hnp', ⟨extra, hext, hxc⟩, hcache, houtc, _⟩ :=
      resolveCnpj_shape ctx roundIndex stopMid oc (st, np) c
    set r1 := resolveCnpj ctx roundIndex stopMid oc (st, np) c with hr1
    have hnp1 : cnpj ∉ r1.2 := by
      rcases hnp' with h | h
      · rw [h]; exact hnp
      · rw [h]
        intro hmem
        rcases List.mem_append.mp hmem with h' | h'
        · exact hnp h'
        · exact hcne (List.mem_singleton.mp h').symm
    have hob : mapGet? r1.1.outcomeByCnpj cnpj = mapGet? st.outcomeByCnpj cnpj := by
      rcases houtc with h | ⟨o, h⟩
      · rw [h]
      · rw [h, mapGet?_mapSet_ne _ _ _ _ hcne]
    have hcb : mapGet? r1.1.cache cnpj = mapGet? st.cache cnpj := by
      rcases hcache with h | ⟨sv, h⟩
      · rw [h]
      · rw [h, mapGet?_mapSet_ne _ _ _ _ hcne]
    have hcnt : countRowsFor cnpj r1.1 = countRowsFor cnpj st :=
      countRowsFor_ext cnpj hext (fun e he => (hxc e he) ▸ hcne)
    have hfold : rest.foldl (resolveCnpj ctx roundIndex stopMid oc) r1 =
        rest.foldl (resolveCnpj ctx roundIndex stopMid oc) (r1.1, r1.2) := by rw [hr1]
    obtain ⟨ha, hb, hc, hd⟩ := ih r1.1 r1.2 hrest hnp1
    refine ⟨?_, ?_, ?_, ?_⟩
    · simpa [List.foldl_cons, hfold] using ha
    · rw [List.foldl_cons, hfold, hb, hob]
    · rw [List.foldl_cons, hfold, hc, hcb]
    · rw [List.foldl_cons, hfold, hd, hcnt]

/-- The retry branch: an `ERRO` outcome with rounds remaining and no stop
requested keeps the identifier in `nextPending` and writes neither a report
row nor a cache entry for it during that round. -/
theorem processRoundList_retry (ctx : RunCtx) (roundIndex : Nat)
    (oc : String → Option QueryOutcome) (cnpj : String) (o : QueryOutcome)
    (ho : oc cnpj = some o) (hs : o.status = .ERRO) (hlt : roundIndex < ctx.maxRounds) :
    ∀ (roundList : List String) (st : RunState) (np : List String),
      (cnpj ∈ np ∨ cnpj ∈ roundList) →
      cnpj ∈ (roundList.foldl (resolveCnpj ctx roundIndex false oc) (st, np)).2 ∧
      countRowsFor cnpj
          (roundList.foldl (resolveCnpj ctx roundIndex false oc) (st, np)).1 =
        countRowsFor cnpj st ∧
      mapGet? (roundList.foldl (resolveCnpj ctx roundIndex false oc) (st, np)).1.cache cnpj =
        mapGet? st.cache cnpj := by
  intro roundList
  induction roundList with
  | nil =>
    intro st np hmem
    rcases hmem with h | h
    · exact ⟨h, rfl, rfl⟩
    · simp at h
  | cons c rest ih =>
    intro st np hmem
    by_cases hc : c = cnpj
    · subst hc
      rw [List.foldl_cons, resolveCnpj_retry ctx roundIndex oc st np c o ho hs hlt]
      exact ih st (np ++ [c]) (Or.inl (List.mem_append_right _ (List.mem_singleton.mpr rfl)))
    · obtain ⟨hnp', ⟨extra, hext, hxc⟩, hcache, _, _⟩ :=
        resolveCnpj_shape ctx roundIndex false oc (st, np) c
      set r1 := resolveCnpj ctx roundIndex false oc (st, np) c with hr1
      have hcnt : countRowsFor cnpj r1.1 = countRowsFor cnpj st :=
        countRowsFor_ext cnpj hext (fun e he => (hxc e he) ▸ fun heq => hc heq)
      have hcb : mapGet? r1.1.cache cnpj = mapGet? st.cache cnpj := by
        rcases hcache with h | ⟨sv, h⟩
        · rw [h]
        · rw [h, mapGet?_mapSet_ne _ _ _ _ (fun heq => hc heq)]
      have hmem1 : cnpj ∈ r1.2 ∨ cnpj ∈ rest := by
        rcases hmem with h | h
        · left
          rcases hnp' with h' | h'
          · rw [h']; exact h
          · rw [h']; exact List.mem_append_left _ h
        · rcases List.mem_cons.mp h with h' | h'
          · exact absurd h'.symm hc
          · exact Or.inr h'
      have hfold : rest.foldl (resolveCnpj ctx roundIndex false oc) r1 =
          rest.foldl (resolveCnpj ctx roundIndex false oc) (r1.1, r1.2) := by rw [hr1]
      obtain ⟨ha, hb, hcc⟩ := ih r1.1 r1.2 hmem1
      refine ⟨?_, ?_, ?_⟩
      · simpa [List.foldl_cons, hfold] using ha
      · rw [List.foldl_cons, hfold, hb, hcnt]
      · rw [List.foldl_cons, hfold, hcc, hcb]

/-- The finalization branch: an `ERRO` outcome on the last round (or under a
stop) is removed from pending, gets terminal outcome `ERRO` and a report row
per covered output row. -/
theorem processRoundList_final (ctx : RunCtx) (roundIndex : Nat) (stopMid : Bool)
    (oc : String → Option QueryOutcome) (cnpj : String) (o : QueryOutcome)
    (ho : oc cnpj = some o) (hs : o.status = .ERRO)
    (hnot : ¬(roundIndex < ctx.maxRounds ∧ stopMid = false)) :
    ∀ (roundList : List String) (st : RunState) (np : List String),
      cnpj ∈ roundList → cnpj ∉ np → roundList.Nodup →
      cnpj ∉ (roundList.foldl (resolveCnpj ctx roundIndex stopMid oc) (st, np)).2 ∧
      mapGet?
          (roundList.foldl (resolveCnpj ctx roundIndex stopMid oc) (st, np)).1.outcomeByCnpj
          cnpj = some ⟨.ERRO, o.detail, o.provider⟩ ∧
      ∀ row ∈ rowsOf ctx cnpj,
        mkEntry row (origGet ctx row) cnpj "ERRO" "API" o.provider o.detail ∈
          (roundList.foldl (resolveCnpj ctx roundIndex stopMid oc) (st, np)).1.detailedRows := by
  intro roundList
  induction roundList with
  | nil => intro st np hmem _ _; simp at hmem
  | cons c rest ih =>
    intro st np hmem hnp hnd
    rw [List.nodup_cons] at hnd
    by_cases hc : c = cnpj
    · subst hc
      obtain ⟨h2, hout, hrows, _⟩ :=
        resolveCnpj_final ctx roundIndex stopMid oc st np c o ho hs hnot
      set r1 := resolveCnpj ctx roundIndex stopMid oc (st, np) c with hr1
      have hfold : rest.foldl (resolveCnpj ctx roundIndex stopMid oc) r1 =
          rest.foldl (resolveCnpj ctx roundIndex stopMid oc) (r1.1, r1.2) := by rw [hr1]
      have hnp1 : c ∉ r1.2 := by rw [h2]; exact hnp
      obtain ⟨ha, hb, hcc, _⟩ :=
        processRoundList_untouched ctx roundIndex stopMid oc c rest r1.1 r1.2 hnd.1 hnp1
      refine ⟨?_, ?_, ?_⟩
      · simpa [List.foldl_cons, hfold] using ha
      · rw [List.foldl_cons, hfold, hb, hout]
      · intro row hrow
        rw [List.foldl_cons, hfold]
        exact processRoundList_rows_mono ctx roundIndex stopMid oc rest (r1.1, r1.2)
          _ (hrows row hrow)
    · obtain ⟨hnp', ⟨extra, hext, hxc⟩, _, _, _⟩ :=
        resolveCnpj_shape ctx roundIndex stopMid oc (st, np) c
      set r1 := resolveCnpj ctx roundIndex stopMid oc (st, np) c with hr1
      have hfold : rest.foldl (resolveCnpj ctx roundIndex stopMid oc) r1 =
          rest.foldl (resolveCnpj ctx roundIndex stopMid oc) (r1.1, r1.2) := by rw [hr1]
      have hmem1 : cnpj ∈ rest := by
        rcases List.mem_cons.mp hmem with h' | h'
        · exact absurd h'.symm hc
        · exact h'
      have hnp1 : cnpj ∉ r1.2 := by
        rcases hnp' with h | h
        · rw [h]; exact hnp
        · rw [h]
          intro hm
          rcases List.mem_append.mp hm with h' | h'
          · exact hnp h'
          · exact hc (List.mem_singleton.mp h').symm
      obtain ⟨ha, hb, hcc⟩ := ih r1.1 r1.2 hmem1 hnp1 hnd.2
      exact ⟨by simpa [List.foldl_cons, hfold] using ha,
        by rw [List.foldl_cons, hfold]; exact hb,
        by rw [List.foldl_cons, hfold]; exact hcc⟩

theorem mkEntry_linha (row : Nat) (a c s o p d : String) :
    (mkEntry row a c s o p d).linha = toString row := rfl

/-- One `resolveCnpj` step either defers the identifier (appending it to
`nextPending`, state untouched) or settles it (pending untouched, exactly
its covered rows appended to the report). -/
theorem resolveCnpj_settles_or_defers (ctx : RunCtx) (roundIndex : Nat) (stopMid : Bool)
    (oc : String → Option QueryOutcome) (acc : RunState × List String) (c : String) :
    (resolveCnpj ctx roundIndex stopMid oc acc c = (acc.1, acc.2 ++ [c])) ∨
    ((resolveCnpj ctx roundIndex stopMid oc acc c).2 = acc.2 ∧
      ∃ extra, (resolveCnpj ctx roundIndex stopMid oc acc c).1.detailedRows =
          acc.1.detailedRows ++ extra ∧
        extra.map (·.linha) = (rowsOf ctx c).map toString ∧
        ∀ e ∈ extra, e.cnpj_limpo = c) := by
  obtain ⟨st, np⟩ := acc
  unfold resolveCnpj
  dsimp only
  cases hoc : oc c with
  | none => exact Or.inl rfl
  | some o =>
    dsimp only
    split
    · refine Or.inr ⟨rfl, _, (sameData_credit_report ctx c _ _).detailedRows, ?_, ?_⟩
      · rw [List.map_map]
        rfl
      · intro e he
        obtain ⟨row, _, hrow⟩ := List.mem_map.mp he
        rw [← hrow]
        rfl
    · split
      · exact Or.inl rfl
      · split <;>
          (refine Or.inr ⟨rfl, _,
            ((sameData_reportProcessedProgress ctx _).detailedRows).trans
              ((sameData_creditRemaining ctx c _ _).detailedRows), ?_, ?_⟩
           · rw [List.map_map]
             rfl
           · intro e he
             obtain ⟨row, _, hrow⟩ := List.mem_map.mp he
             rw [← hrow]
             rfl)

/-- Fold invariant of one round's result processing: `nextPending` is
duplicate-free, its identifiers still have no report rows, it only contains
identifiers of the round list (or carried-over accumulator), and the report
rows plus the pending row weights form the same multiset as before. -/
theorem processRoundList_inv (ctx : RunCtx) (roundIndex : Nat) (stopMid : Bool)
    (oc : String → Option QueryOutcome) :
    ∀ (L : List String) (st : RunState) (np : List String),
      (L ++ np).Nodup →
      (∀ c ∈ L ++ np, countRowsFor c st = 0) →
      (L.foldl (resolveCnpj ctx roundIndex stopMid oc) (st, np)).2.Nodup ∧
      (∀ c ∈ (L.foldl (resolveCnpj ctx roundIndex stopMid oc) (st, np)).2,
        countRowsFor c (L.foldl (resolveCnpj ctx roundIndex stopMid oc) (st, np)).1 = 0) ∧
      (∀ c ∈ (L.foldl (resolveCnpj ctx roundIndex stopMid oc) (st, np)).2,
        c ∈ np ∨ c ∈ L) ∧
      List.Perm
        ((L.foldl (resolveCnpj ctx roundIndex stopMid oc) (st, np)).1.detailedRows.map
            (·.linha) ++
          (L.foldl (resolveCnpj ctx roundIndex stopMid oc) (st, np)).2.flatMap
            (fun c => (rowsOf ctx c).map toString))
        (st.detailedRows.map (·.linha) ++
          np.flatMap (fun c => (rowsOf ctx c).map toString) ++
          L.flatMap (fun c => (rowsOf ctx c).map toString)) := by
  intro L
  induction L with
  | nil =>
    intro st np hnd hcnt
    refine ⟨by simpa using hnd, fun c hc => hcnt c (by simpa using hc),
      fun c hc => Or.inl hc, ?_⟩
    simp
  | cons c rest ih =>
    intro st np hnd hcnt
    have hndc : c ∉ rest ∧ c ∉ np := by
      rw [List.cons_append, List.nodup_cons] at hnd
      exact ⟨fun h => hnd.1 (List.mem_append_left _ h),
        fun h => hnd.1 (List.mem_append_right _ h)⟩
    rw [List.foldl_cons]
    rcases resolveCnpj_settles_or_defers ctx roundIndex stopMid oc (st, np) c with
      heq | ⟨hnp, extra, hext, hlin, hxc⟩
    · rw [heq]
      have hnd' : (rest ++ (np ++ [c])).Nodup := by
        have hperm : List.Perm ((c :: rest) ++ np) (rest ++ (np ++ [c])) := by
          rw [List.cons_append, ← List.append_assoc]
          exact (List.perm_append_singleton c (rest ++ np)).symm
        exact hperm.nodup hnd
      have hcnt' : ∀ x ∈ rest ++ (np ++ [c]), countRowsFor x st = 0 := by
        intro x hx
        apply hcnt
        rcases List.mem_append.mp hx with h | h
        · exact List.mem_append_left _ (List.mem_cons_of_mem c h)
        · rcases List.mem_append.mp h with h | h
          · exact List.mem_append_right _ h
          · rw [List.mem_singleton.mp h]
            exact List.mem_append_left _ (List.mem_cons_self c rest)
      obtain ⟨ha, hb, hsub, hperm⟩ := ih st (np ++ [c]) hnd' hcnt'
      refine ⟨ha, hb, ?_, ?_⟩
      · intro x hx
        rcases hsub x hx with h | h
        · rcases List.mem_append.mp h with h | h
          · exact Or.inl h
          · exact Or.inr (List.mem_cons.mpr (Or.inl (List.mem_singleton.mp h)))
        · exact Or.inr (List.mem_cons_of_mem c h)
      · refine hperm.trans ?_
        refine Multiset.coe_eq_coe.mp ?_
        simp only [List.flatMap_append, List.flatMap_cons, ← Multiset.coe_add,
          List.flatMap_nil, List.append_nil]
        abel
    · set r1 := resolveCnpj ctx roundIndex stopMid oc (st, np) c with hr1
      have hnp2 : r1.2 = np := hnp
      have hfold : rest.foldl (resolveCnpj ctx roundIndex stopMid oc) r1 =
          rest.foldl (resolveCnpj ctx roundIndex stopMid oc) (r1.1, r1.2) := by rw [hr1]
      have hnd' : (rest ++ np).Nodup := by
        rw [List.cons_append, List.nodup_cons] at hnd
        exact hnd.2
      have hcnt' : ∀ x ∈ rest ++ np, countRowsFor x r1.1 = 0 := by
        intro x hx
        have hxne : c ≠ x := by
          intro h
          subst h
          rcases List.mem_append.mp hx with h | h
          · exact hndc.1 h
          · exact hndc.2 h
        have := countRowsFor_ext x hext (fun e he => (hxc e he) ▸ hxne)
        unfold countRowsFor
        rw [this]
        exact hcnt x (by
          rcases List.mem_append.mp hx with h | h
          · exact List.mem_append_left _ (List.mem_cons_of_mem c h)
          · exact List.mem_append_right _ h)
      obtain ⟨ha, hb, hsub, hperm⟩ :=
        ih r1.1 r1.2 (by rw [hnp2]; exact hnd') (by rw [hnp2]; exact hcnt')
      rw [hfold]
      refine ⟨ha, hb, ?_, ?_⟩
      · intro x hx
        rcases hsub x hx with h | h
        · rw [hnp2] at h
          exact Or.inl h
        · exact Or.inr (List.mem_cons_of_mem c h)
      · refine hperm.trans ?_
        rw [hnp2, hext, List.map_append, hlin]
        refine Multiset.coe_eq_coe.mp ?_
        simp only [List.flatMap_cons, ← Multiset.coe_add]
        abel

/-! ### Force-finalization and interruption stages -/

theorem finalErrorStep_shape (ctx : RunCtx) (st : RunState) (c : String) :
    (finalErrorStep ctx st c).detailedRows =
      st.detailedRows ++ (rowsOf ctx c).map (fun row =>
        mkEntry row (origGet ctx row) c "ERRO" "REPROCESSAMENTO_FINAL" "fallback"
          "sem retorno apos reprocessamento") ∧
    (finalErrorStep ctx st c).outcomeByCnpj =
      mapSet st.outcomeByCnpj c ⟨.ERRO, "sem retorno apos reprocessamento", "fallback"⟩ ∧
    (finalErrorStep ctx st c).pending = st.pending ∧
    (finalErrorStep ctx st c).interrupted = st.interrupted ∧
    (finalErrorStep ctx st c).cache = st.cache ∧
    (finalErrorStep ctx st c).semDadoCount = st.semDadoCount ∧
    (finalErrorStep ctx st c).success = st.success ∧
    (finalErrorStep ctx st c).invalidCount = st.invalidCount ∧
    (finalErrorStep ctx st c).cacheHits = st.cacheHits ∧
    (finalErrorStep ctx st c).roundLists = st.roundLists ∧
    (finalErrorStep ctx st c).waits = st.waits := by
  unfold finalErrorStep
  dsimp only
  exact ⟨(sameData_reportProcessedProgress ctx _).detailedRows,
    (sameData_reportProcessedProgress ctx _).outcomeByCnpj,
    (sameData_reportProcessedProgress ctx _).pending,
    (sameData_reportProcessedProgress ctx _).interrupted,
    (sameData_reportProcessedProgress ctx _).cache,
    (sameData_reportProcessedProgress ctx _).semDadoCount,
    (sameData_reportProcessedProgress ctx _).success,
    (sameData_reportProcessedProgress ctx _).invalidCount,
    (sameData_reportProcessedProgress ctx _).cacheHits,
    (sameData_reportProcessedProgress ctx _).roundLists,
    (sameData_reportProcessedProgress ctx _).waits⟩

theorem finalError_fold (ctx : RunCtx) :
    ∀ (L : List String) (st : RunState),
      (L.foldl (finalErrorStep ctx) st).detailedRows =
        st.detailedRows ++ L.flatMap (fun c => (rowsOf ctx c).map (fun row =>
          mkEntry row (origGet ctx row) c "ERRO" "REPROCESSAMENTO_FINAL" "fallback"
            "sem retorno apos reprocessamento")) ∧
      (L.foldl (finalErrorStep ctx) st).pending = st.pending ∧
      (L.foldl (finalErrorStep ctx) st).interrupted = st.interrupted ∧
      (L.foldl (finalErrorStep ctx) st).cache = st.cache ∧
      (L.foldl (finalErrorStep ctx) st).semDadoCount = st.semDadoCount ∧
      (L.foldl (finalErrorStep ctx) st).success = st.success ∧
      (L.foldl (finalErrorStep ctx) st).invalidCount = st.invalidCount ∧
      (L.foldl (finalErrorStep ctx) st).cacheHits = st.cacheHits ∧
      (L.foldl (finalErrorStep ctx) st).roundLists = st.roundLists ∧
      (L.foldl (finalErrorStep ctx) st).waits = st.waits ∧
      (∀ c, c ∉ L →
        mapGet? (L.foldl (finalErrorStep ctx) st).outcomeByCnpj c =
          mapGet? st.outcomeByCnpj c) := by
  intro L
  induction L with
  | nil =>
    intro st
    refine ⟨by simp, rfl, rfl, rfl, rfl, rfl, rfl, rfl, rfl, rfl, fun c _ => rfl⟩
  | cons c rest ih =>
    intro st
    obtain ⟨hrows, houtc, hpend, hint, hcache, hsd, hsucc, hinv, hch, hrl, hw⟩ :=
      finalErrorStep_shape ctx st c
    obtain ⟨irows, ipend, iint, icache, isd, isucc, iinv, ich, irl, iw, iunt⟩ :=
      ih (finalErrorStep ctx st c)
    rw [List.foldl_cons]
    refine ⟨?_, ipend.trans hpend, iint.trans hint, icache.trans hcache,
      isd.trans hsd, isucc.trans hsucc, iinv.trans hinv, ich.trans hch,
      irl.trans hrl, iw.trans hw, ?_⟩
    · rw [irows, hrows, List.flatMap_cons, List.append_assoc]
    · intro x hx
      have hx1 : x ∉ rest := fun h => hx (List.mem_cons_of_mem c h)
      have hx2 : c ≠ x := fun h => hx (h ▸ List.mem_cons_self c rest)
      rw [iunt x hx1, houtc, mapGet?_mapSet_ne _ _ _ _ hx2]

theorem finalError_fold_outcome (ctx : RunCtx) :
    ∀ (L : List String) (st : RunState) (c : String), c ∈ L → L.Nodup →
      mapGet? (L.foldl (finalErrorStep ctx) st).outcomeByCnpj c =
        some ⟨.ERRO, "sem retorno apos reprocessamento", "fallback"⟩ := by
  intro L
  induction L with
  | nil => intro st c hc; simp at hc
  | cons a rest ih =>
    intro st c hc hnd
    rw [List.nodup_cons] at hnd
    rw [List.foldl_cons]
    by_cases hac : a = c
    · subst hac
      rw [(finalError_fold ctx rest _).2.2.2.2.2.2.2.2.2.2 a hnd.1,
        (finalErrorStep_shape ctx st a).2.1, mapGet?_mapSet_self]
    · rcases List.mem_cons.mp hc with h | h
      · exact absurd h.symm hac
      · exact ih _ c h hnd.2

theorem interruptedStep_shape (ctx : RunCtx) (st : RunState) (c : String) :
    (interruptedStep ctx st c).detailedRows =
      st.detailedRows ++ (rowsOf ctx c).map (fun row =>
        mkEntry row (origGet ctx row) c "PENDENTE" "INTERRUPCAO" "NÃO_CONCLUIDO"
          "processamento interrompido antes da conclusao") ∧
    (interruptedStep ctx st c).cache = st.cache ∧
    (interruptedStep ctx st c).outcomeByCnpj = st.outcomeByCnpj ∧
    (interruptedStep ctx st c).pending = st.pending ∧
    (interruptedStep ctx st c).interrupted = st.interrupted ∧
    (interruptedStep ctx st c).processed = st.processed ∧
    (interruptedStep ctx st c).success = st.success ∧
    (interruptedStep ctx st c).semDadoCount = st.semDadoCount ∧
    (interruptedStep ctx st c).erroCount = st.erroCount ∧
    (interruptedStep ctx st c).invalidCount = st.invalidCount ∧
    (interruptedStep ctx st c).cacheHits = st.cacheHits ∧
    (interruptedStep ctx st c).events = st.events ∧
    (interruptedStep ctx st c).reported = st.reported ∧
    (interruptedStep ctx st c).roundLists = st.roundLists ∧
    (interruptedStep ctx st c).waits = st.waits :=
  ⟨rfl, rfl, rfl, rfl, rfl, rfl, rfl, rfl, rfl, rfl, rfl, rfl, rfl, rfl, rfl⟩

theorem interrupted_fold (ctx : RunCtx) :
    ∀ (L : List String) (st : RunState),
      (L.foldl (interruptedStep ctx) st).detailedRows =
        st.detailedRows ++ L.flatMap (fun c => (rowsOf ctx c).map (fun row =>
          mkEntry row (origGet ctx row) c "PENDENTE" "INTERRUPCAO" "NÃO_CONCLUIDO"
            "processamento interrompido antes da conclusao")) ∧
      (L.foldl (interruptedStep ctx) st).cache = st.cache ∧
      (L.foldl (interruptedStep ctx) st).outcomeByCnpj = st.outcomeByCnpj ∧
      (L.foldl (interruptedStep ctx) st).pending = st.pending ∧
      (L.foldl (interruptedStep ctx) st).interrupted = st.interrupted ∧
      (L.foldl (interruptedStep ctx) st).processed = st.processed ∧
      (L.foldl (interruptedStep ctx) st).success = st.success ∧
      (L.foldl (interruptedStep ctx) st).semDadoCount = st.semDadoCount ∧
      (L.foldl (interruptedStep ctx) st).erroCount = st.erroCount ∧
      (L.foldl (interruptedStep ctx) st).invalidCount = st.invalidCount ∧
      (L.foldl (interruptedStep ctx) st).cacheHits = st.cacheHits ∧
      (L.foldl (interruptedStep ctx) st).events = st.events ∧
      (L.foldl (interruptedStep ctx) st).reported = st.reported ∧
      (L.foldl (interruptedStep ctx) st).roundLists = st.roundLists ∧
      (L.foldl (interruptedStep ctx) st).waits = st.waits := by
  intro L
  induction L with
  | nil =>
    intro st
    exact ⟨by simp, rfl, rfl, rfl, rfl, rfl, rfl, rfl, rfl, rfl, rfl, rfl, rfl, rfl, rfl⟩
  | cons c rest ih =>
    intro st
    obtain ⟨irows, ic, io, ip, ii, ipr, isu, isd, ier, iin, ich, iev, ire, irl, iw⟩ :=
      ih (interruptedStep ctx st c)
    rw [List.foldl_cons]
    exact ⟨by rw [irows, (interruptedStep_shape ctx st c).1, List.flatMap_cons,
        List.append_assoc], ic, io, ip, ii, ipr, isu, isd, ier, iin, ich, iev, ire, irl, iw⟩

/-! ### Row grouping -/

theorem groupAdd_flat (gs : List (String × List Nat)) (k : String) (v : Nat) :
    List.Perm ((groupAdd gs k v).flatMap (·.2)) (gs.flatMap (·.2) ++ [v]) := by
  induction gs with
  | nil => simp [groupAdd]
  | cons hd rest ih =>
    obtain ⟨k', g⟩ := hd
    simp only [groupAdd]
    split
    · simp only [List.flatMap_cons]
      refine Multiset.coe_eq_coe.mp ?_
      simp only [← Multiset.coe_add]
      abel
    · simp only [List.flatMap_cons, List.append_assoc]
      exact List.Perm.append_left g ih

theorem groupAdd_keys_cases (gs : List (String × List Nat)) (k : String) (v : Nat) :
    (groupAdd gs k v).map Prod.fst = gs.map Prod.fst ∨
    (groupAdd gs k v).map Prod.fst = gs.map Prod.fst ++ [k] := by
  induction gs with
  | nil => exact Or.inr rfl
  | cons hd rest ih =>
    obtain ⟨k', g⟩ := hd
    simp only [groupAdd]
    split
    · exact Or.inl rfl
    · rcases ih with h | h
      · exact Or.inl (by simp only [List.map_cons, h])
      · exact Or.inr (by simp only [List.map_cons, h, List.cons_append])

theorem groupAdd_keys_nodup (gs : List (String × List Nat)) (k : String) (v : Nat)
    (h : (gs.map Prod.fst).Nodup) : ((groupAdd gs k v).map Prod.fst).Nodup := by
  induction gs with
  | nil => simp [groupAdd]
  | cons hd rest ih =>
    obtain ⟨k', g⟩ := hd
    rw [List.map_cons, List.nodup_cons] at h
    simp only [groupAdd]
    split
    · rw [List.map_cons, List.nodup_cons]
      exact h
    · rename_i hne
      rw [List.map_cons, List.nodup_cons]
      refine ⟨?_, ih h.2⟩
      rcases groupAdd_keys_cases rest k v with hc | hc
      · rw [hc]; exact h.1
      · rw [hc]
        intro hmem
        rcases List.mem_append.mp hmem with h' | h'
        · exact h.1 h'
        · exact absurd (by simpa using (List.mem_singleton.mp h' : k' = k)) hne

theorem groupAdd_mem_keys (gs : List (String × List Nat)) (k : String) (v : Nat) :
    k ∈ (groupAdd gs k v).map Prod.fst := by
  induction gs with
  | nil => simp [groupAdd]
  | cons hd rest ih =>
    obtain ⟨k', g⟩ := hd
    simp only [groupAdd]
    split
    · rename_i hk
      rw [List.map_cons]
      exact (eq_of_beq hk) ▸ List.mem_cons_self _ _
    · rw [List.map_cons]
      exact List.mem_cons_of_mem _ ih

/-- The fold of `buildGroups`: group keys stay duplicate-free and nonempty,
and the group contents plus the invalid rows partition the scanned rows. -/
theorem buildGroups_fold :
    ∀ (sel : List (Nat × String)) (acc : List (String × List Nat) × List (Nat × String)),
      ((acc.1.map Prod.fst).Nodup →
        (((sel.foldl (fun acc it =>
          let cnpj := sanitizeCnpj it.2
          if cnpj == "" then (acc.1, acc.2 ++ [it])
          else (groupAdd acc.1 cnpj it.1, acc.2)) acc).1).map Prod.fst).Nodup) ∧
      (∀ x ∈ ((sel.foldl (fun acc it =>
          let cnpj := sanitizeCnpj it.2
          if cnpj == "" then (acc.1, acc.2 ++ [it])
          else (groupAdd acc.1 cnpj it.1, acc.2)) acc).1).map Prod.fst,
        x ∈ acc.1.map Prod.fst ∨ x ≠ "") ∧
      List.Perm
        ((sel.foldl (fun acc it =>
          let cnpj := sanitizeCnpj it.2
          if cnpj == "" then (acc.1, acc.2 ++ [it])
          else (groupAdd acc.1 cnpj it.1, acc.2)) acc).1.flatMap (·.2) ++
          ((sel.foldl (fun acc it =>
            let cnpj := sanitizeCnpj it.2
            if cnpj == "" then (acc.1, acc.2 ++ [it])
            else (groupAdd acc.1 cnpj it.1, acc.2)) acc).2).map Prod.fst)
        (acc.1.flatMap (·.2) ++ acc.2.map Prod.fst ++ sel.map Prod.fst) := by
  intro sel
  induction sel with
  | nil =>
    intro acc
    exact ⟨fun h => h, fun x hx => Or.inl hx, by simp⟩
  | cons it rest ih =>
    intro acc
    rw [List.foldl_cons]
    dsimp only
    split
    · obtain ⟨ia, ib, ic⟩ := ih (acc.1, acc.2 ++ [it])
      refine ⟨ia, ib, ?_⟩
      refine ic.trans ?_
      refine Multiset.coe_eq_coe.mp ?_
      simp only [List.map_append, List.map_cons, List.map_nil, ← Multiset.coe_add,
        ← Multiset.coe_singleton]
      abel
    · rename_i hne
      obtain ⟨ia, ib, ic⟩ := ih (groupAdd acc.1 (sanitizeCnpj it.2) it.1, acc.2)
      refine ⟨fun h => ia (groupAdd_keys_nodup _ _ _ h), ?_, ?_⟩
      · intro x hx
        rcases ib x hx with h | h
        · rcases groupAdd_keys_cases acc.1 (sanitizeCnpj it.2) it.1 with hc | hc
          · exact Or.inl (hc ▸ h)
          · rw [hc] at h
            rcases List.mem_append.mp h with h' | h'
            · exact Or.inl h'
            · refine Or.inr ?_
              rw [List.mem_singleton.mp h']
              simpa using hne
        · exact Or.inr h
      · refine ic.trans ?_
        have := groupAdd_flat acc.1 (sanitizeCnpj it.2) it.1
        refine ((this.append_right _).append_right _).trans ?_
        refine Multiset.coe_eq_coe.mp ?_
        simp only [List.map_cons, ← Multiset.coe_add, ← Multiset.cons_coe,
          ← Multiset.singleton_add]
        abel

theorem countRowsFor_eq_zero (cnpj : String) (st : RunState)
    (h : ∀ e ∈ st.detailedRows, e.cnpj_limpo ≠ cnpj) : countRowsFor cnpj st = 0 := by
  unfold countRowsFor
  rw [List.length_eq_zero, List.filter_eq_nil_iff]
  intro e he
  simpa using h e he

/-! ### The invalid-row stage -/

theorem invalidStep_shape (ctx : RunCtx) (st : RunState) (it : Nat × String) :
    (invalidStep ctx st it).detailedRows = st.detailedRows ++
      [mkEntry it.1 it.2 "" "CNPJ_INVALIDO" "VALIDACAO" "VALIDACAO" "CNPJ invalido"] ∧
    (invalidStep ctx st it).pending = st.pending ∧
    (invalidStep ctx st it).cache = st.cache ∧
    (invalidStep ctx st it).outcomeByCnpj = st.outcomeByCnpj ∧
    (invalidStep ctx st it).processed = st.processed + 1 ∧
    (invalidStep ctx st it).invalidCount = st.invalidCount + 1 ∧
    (invalidStep ctx st it).success = st.success ∧
    (invalidStep ctx st it).semDadoCount = st.semDadoCount ∧
    (invalidStep ctx st it).erroCount = st.erroCount ∧
    (invalidStep ctx st it).cacheHits = st.cacheHits ∧
    (invalidStep ctx st it).interrupted = st.interrupted ∧
    (invalidStep ctx st it).roundLists = st.roundLists ∧
    (invalidStep ctx st it).waits = st.waits := by
  unfold invalidStep
  dsimp only
  exact ⟨(sameData_reportProcessedProgress ctx _).detailedRows,
    (sameData_reportProcessedProgress ctx _).pending,
    (sameData_reportProcessedProgress ctx _).cache,
    (sameData_reportProcessedProgress ctx _).outcomeByCnpj,
    (sameData_reportProcessedProgress ctx _).processed,
    (sameData_reportProcessedProgress ctx _).invalidCount,
    (sameData_reportProcessedProgress ctx _).success,
    (sameData_reportProcessedProgress ctx _).semDadoCount,
    (sameData_reportProcessedProgress ctx _).erroCount,
    (sameData_reportProcessedProgress ctx _).cacheHits,
    (sameData_reportProcessedProgress ctx _).interrupted,
    (sameData_reportProcessedProgress ctx _).roundLists,
    (sameData_reportProcessedProgress ctx _).waits⟩

theorem invalid_fold (ctx : RunCtx) :
    ∀ (L : List (Nat × String)) (st : RunState),
      (L.foldl (invalidStep ctx) st).detailedRows = st.detailedRows ++
        L.map (fun it =>
          mkEntry it.1 it.2 "" "CNPJ_INVALIDO" "VALIDACAO" "VALIDACAO" "CNPJ invalido") ∧
      (L.foldl (invalidStep ctx) st).pending = st.pending ∧
      (L.foldl (invalidStep ctx) st).cache = st.cache ∧
      (L.foldl (invalidStep ctx) st).outcomeByCnpj = st.outcomeByCnpj ∧
      (L.foldl (invalidStep ctx) st).processed = st.processed + L.length ∧
      (L.foldl (invalidStep ctx) st).invalidCount = st.invalidCount + L.length ∧
      (L.foldl (invalidStep ctx) st).success = st.success ∧
      (L.foldl (invalidStep ctx) st).semDadoCount = st.semDadoCount ∧
      (L.foldl (invalidStep ctx) st).erroCount = st.erroCount ∧
      (L.foldl (invalidStep ctx) st).cacheHits = st.cacheHits ∧
      (L.foldl (invalidStep ctx) st).interrupted = st.interrupted ∧
      (L.foldl (invalidStep ctx) st).roundLists = st.roundLists ∧
      (L.foldl (invalidStep ctx) st).waits = st.waits := by
  intro L
  induction L with
  | nil =>
    intro st
    exact ⟨by simp, rfl, rfl, rfl, rfl, rfl, rfl, rfl, rfl, rfl, rfl, rfl, rfl⟩
  | cons it rest ih =>
    intro st
    obtain ⟨sa, sb, sc, sd, se, sf, sg, sh, si, sj, sk, sl, sm⟩ :=
      invalidStep_shape ctx st it
    obtain ⟨ia, ib, ic, id', ie, if', ig, ih', ii, ij, ik, il, im⟩ :=
      ih (invalidStep ctx st it)
    rw [List.foldl_cons]
    refine ⟨?_, ib.trans sb, ic.trans sc, id'.trans sd, ?_, ?_, ig.trans sg,
      ih'.trans sh, ii.trans si, ij.trans sj, ik.trans sk, il.trans sl, im.trans sm⟩
    · rw [ia, sa, List.map_cons, List.append_assoc]
      rfl
    · rw [ie, se, List.length_cons]
      omega
    · rw [if', sf, List.length_cons]
      omega

/-! ### The cache-hit stage -/

theorem cacheStep_hit (ctx : RunCtx) (st : RunState) (g : String × List Nat)
    (h : (mapGet? st.cache g.1 == some "SIM" || mapGet? st.cache g.1 == some "NÃO") = true) :
    (cacheStep ctx st g).detailedRows = st.detailedRows ++ g.2.map (fun row =>
      mkEntry row (origGet ctx row) g.1 ((mapGet? st.cache g.1).getD "") "CACHE" "CACHE"
        "valor em cache") ∧
    (cacheStep ctx st g).pending = st.pending ∧
    (cacheStep ctx st g).cache = st.cache ∧
    (cacheStep ctx st g).processed = st.processed + g.2.length ∧
    (cacheStep ctx st g).success = st.success + g.2.length ∧
    (cacheStep ctx st g).cacheHits = st.cacheHits + g.2.length ∧
    (cacheStep ctx st g).semDadoCount = st.semDadoCount ∧
    (cacheStep ctx st g).erroCount = st.erroCount ∧
    (cacheStep ctx st g).invalidCount = st.invalidCount ∧
    (cacheStep ctx st g).interrupted = st.interrupted ∧
    (cacheStep ctx st g).roundLists = st.roundLists ∧
    (cacheStep ctx st g).waits = st.waits := by
  unfold cacheStep
  dsimp only
  rw [if_pos h]
  exact ⟨(sameData_reportProcessedProgress ctx _).detailedRows,
    (sameData_reportProcessedProgress ctx _).pending,
    (sameData_reportProcessedProgress ctx _).cache,
    (sameData_reportProcessedProgress ctx _).processed,
    (sameData_reportProcessedProgress ctx _).success,
    (sameData_reportProcessedProgress ctx _).cacheHits,
    (sameData_reportProcessedProgress ctx _).semDadoCount,
    (sameData_reportProcessedProgress ctx _).erroCount,
    (sameData_reportProcessedProgress ctx _).invalidCount,
    (sameData_reportProcessedProgress ctx _).interrupted,
    (sameData_reportProcessedProgress ctx _).roundLists,
    (sameData_reportProcessedProgress ctx _).waits⟩

theorem cacheStep_miss (ctx : RunCtx) (st : RunState) (g : String × List Nat)
    (h : ¬(mapGet? st.cache g.1 == some "SIM" || mapGet? st.cache g.1 == some "NÃO") = true) :
    cacheStep ctx st g = { st with pending := st.pending ++ [g.1] } := by
  unfold cacheStep
  dsimp only
  rw [if_neg h]

/-- The cache-hit partition: against a constant cache `C`, the fold splits the
groups by the hit predicate, appending CACHE report rows for the hits and the
keys of the misses to `pending`, and counts every hit row as processed,
success and cache hit. -/
theorem cacheStage_fold (ctx : RunCtx) (C : List (String × String)) :
    ∀ (L : List (String × List Nat)) (st : RunState), st.cache = C →
      (L.foldl (cacheStep ctx) st).cache = C ∧
      (L.foldl (cacheStep ctx) st).pending = st.pending ++
        (L.filter (fun g =>
          !(mapGet? C g.1 == some "SIM" || mapGet? C g.1 == some "NÃO"))).map Prod.fst ∧
      (L.foldl (cacheStep ctx) st).detailedRows = st.detailedRows ++
        (L.filter (fun g =>
          mapGet? C g.1 == some "SIM" || mapGet? C g.1 == some "NÃO")).flatMap (fun g =>
            g.2.map (fun row =>
              mkEntry row (origGet ctx row) g.1 ((mapGet? C g.1).getD "") "CACHE" "CACHE"
                "valor em cache")) ∧
      (L.foldl (cacheStep ctx) st).processed = st.processed +
        (((L.filter (fun g =>
          mapGet? C g.1 == some "SIM" || mapGet? C g.1 == some "NÃO")).map
            (fun g => g.2.length)).sum) ∧
      (L.foldl (cacheStep ctx) st).success = st.success +
        (((L.filter (fun g =>
          mapGet? C g.1 == some "SIM" || mapGet? C g.1 == some "NÃO")).map
            (fun g => g.2.length)).sum) ∧
      (L.foldl (cacheStep ctx) st).cacheHits = st.cacheHits +
        (((L.filter (fun g =>
          mapGet? C g.1 == some "SIM" || mapGet? C g.1 == some "NÃO")).map
            (fun g => g.2.length)).sum) ∧
      (L.foldl (cacheStep ctx) st).semDadoCount = st.semDadoCount ∧
      (L.foldl (cacheStep ctx) st).erroCount = st.erroCount ∧
      (L.foldl (cacheStep ctx) st).invalidCount = st.invalidCount ∧
      (L.foldl (cacheStep ctx) st).interrupted = st.interrupted ∧
      (L.foldl (cacheStep ctx) st).roundLists = st.roundLists ∧
      (L.foldl (cacheStep ctx) st).waits = st.waits := by
  intro L
  induction L with
  | nil =>
    intro st hC
    exact ⟨hC, by simp, by simp, rfl, rfl, rfl, rfl, rfl, rfl, rfl, rfl, rfl⟩
  | cons g rest ih =>
    intro st hC
    rw [List.foldl_cons]
    by_cases hg : (mapGet? C g.1 == some "SIM" || mapGet? C g.1 == some "NÃO") = true
    · have hg' : (mapGet? st.cache g.1 == some "SIM" ||
          mapGet? st.cache g.1 == some "NÃO") = true := by rw [hC]; exact hg
      obtain ⟨sa, sb, sc, sd, se, sf, sg', sh, si, sj, sk, sl⟩ := cacheStep_hit ctx st g hg'
      obtain ⟨ia, ib, ic, id', ie, if', ig, ih', ii, ij, ik, il⟩ :=
        ih (cacheStep ctx st g) (sc.trans hC)
      have hhit : List.filter (fun g =>
            mapGet? C g.1 == some "SIM" || mapGet? C g.1 == some "NÃO") (g :: rest) =
          g :: List.filter (fun g =>
            mapGet? C g.1 == some "SIM" || mapGet? C g.1 == some "NÃO") rest :=
        List.filter_cons_of_pos (by exact hg)
      have hmiss : List.filter (fun g =>
            !(mapGet? C g.1 == some "SIM" || mapGet? C g.1 == some "NÃO")) (g :: rest) =
          List.filter (fun g =>
            !(mapGet? C g.1 == some "SIM" || mapGet? C g.1 == some "NÃO")) rest :=
        List.filter_cons_of_neg (by simp [hg])
      rw [hhit, hmiss]
      refine ⟨ia, ?_, ?_, ?_, ?_, ?_, ig.trans sg', ih'.trans sh, ii.trans si,
        ij.trans sj, ik.trans sk, il.trans sl⟩
      · rw [ib, sb]
      · rw [ic, sa, List.flatMap_cons, List.append_assoc, hC]
      · rw [id', sd, List.map_cons, List.sum_cons]
        omega
      · rw [ie, se, List.map_cons, List.sum_cons]
        omega
      · rw [if', sf, List.map_cons, List.sum_cons]
        omega
    · have hg' : ¬(mapGet? st.cache g.1 == some "SIM" ||
          mapGet? st.cache g.1 == some "NÃO") = true := by rw [hC]; exact hg
      rw [cacheStep_miss ctx st g hg']
      obtain ⟨ia, ib, ic, id', ie, if', ig, ih', ii, ij, ik, il⟩ :=
        ih { st with pending := st.pending ++ [g.1] } hC
      have hhit : List.filter (fun g =>
            mapGet? C g.1 == some "SIM" || mapGet? C g.1 == some "NÃO") (g :: rest) =
          List.filter (fun g =>
            mapGet? C g.1 == some "SIM" || mapGet? C g.1 == some "NÃO") rest :=
        List.filter_cons_of_neg (by exact hg)
      have hmiss : List.filter (fun g =>
            !(mapGet? C g.1 == some "SIM" || mapGet? C g.1 == some "NÃO")) (g :: rest) =
          g :: List.filter (fun g =>
            !(mapGet? C g.1 == some "SIM" || mapGet? C g.1 == some "NÃO")) rest :=
        List.filter_cons_of_pos (by simpa using hg)
      rw [hhit, hmiss]
      refine ⟨ia, ?_, ic, id', ie, if', ig, ih', ii, ij, ik, il⟩
      rw [ib]
      dsimp only
      rw [List.map_cons, List.append_assoc, List.singleton_append]

/-! ### The round loop -/

theorem runRounds_zero (ctx : RunCtx) (rounds : Nat → RoundInput) (roundIndex : Nat)
    (st : RunState) : runRounds ctx rounds 0 roundIndex st = st := rfl

theorem runRounds_succ (ctx : RunCtx) (rounds : Nat → RoundInput) (fuel roundIndex : Nat)
    (st : RunState) :
    runRounds ctx rounds (fuel + 1) roundIndex st =
      if st.pending.isEmpty then st
      else if (rounds roundIndex).stopBefore then { st with interrupted := true }
      else
        let inp := rounds roundIndex
        let roundList := sortStrings st.pending
        let st := { st with roundLists := st.roundLists ++ [roundList] }
        let st := roundProgressStage ctx inp.completed st
        let res := processRoundList ctx roundIndex inp.stopAfter inp.outcome st roundList
        let st := { res.1 with pending := res.2 }
        if inp.stopAfter then { st with interrupted := true }
        else if !st.pending.isEmpty && decide (0 < fuel) then
          if inp.stopDuringWait then { st with interrupted := true }
          else runRounds ctx rounds fuel (roundIndex + 1)
            { st with waits := st.waits ++ [min (2 * roundIndex) 8] }
        else runRounds ctx rounds fuel (roundIndex + 1) st := rfl

theorem processRoundList_fields (ctx : RunCtx) (roundIndex : Nat) (stopMid : Bool)
    (oc : String → Option QueryOutcome) :
    ∀ (L : List String) (acc : RunState × List String),
      (L.foldl (resolveCnpj ctx roundIndex stopMid oc) acc).1.interrupted =
        acc.1.interrupted ∧
      (L.foldl (resolveCnpj ctx roundIndex stopMid oc) acc).1.roundLists =
        acc.1.roundLists ∧
      (L.foldl (resolveCnpj ctx roundIndex stopMid oc) acc).1.waits = acc.1.waits ∧
      (L.foldl (resolveCnpj ctx roundIndex stopMid oc) acc).1.invalidCount =
        acc.1.invalidCount ∧
      (L.foldl (resolveCnpj ctx roundIndex stopMid oc) acc).1.cacheHits =
        acc.1.cacheHits := by
  intro L
  induction L with
  | nil => intro acc; exact ⟨rfl, rfl, rfl, rfl, rfl⟩
  | cons c rest ih =>
    intro acc
    obtain ⟨_, _, _, _, hp, hi, hrl, hw, hinv, hch⟩ :=
      resolveCnpj_shape ctx roundIndex stopMid oc acc c
    obtain ⟨ia, ib, ic, id', ie⟩ := ih (resolveCnpj ctx roundIndex stopMid oc acc c)
    rw [List.foldl_cons]
    exact ⟨ia.trans hi, ib.trans hrl, ic.trans hw, id'.trans hinv, ie.trans hch⟩

/-- Stops observed at the round checkpoints set the interrupted flag. -/
theorem runRounds_stops (ctx : RunCtx) (rounds : Nat → RoundInput) (fuel roundIndex : Nat)
    (st : RunState) :
    (st.pending.isEmpty = false → (rounds roundIndex).stopBefore = true →
      (runRounds ctx rounds (fuel + 1) roundIndex st).interrupted = true) ∧
    (st.pending.isEmpty = false → (rounds roundIndex).stopBefore = false →
      (rounds roundIndex).stopAfter = true →
      (runRounds ctx rounds (fuel + 1) roundIndex st).interrupted = true) := by
  rw [runRounds_succ]
  refine ⟨fun h1 h2 => ?_, fun h1 h2 h3 => ?_⟩
  · rw [if_neg (by simp [h1]), if_pos h2]
  · rw [if_neg (by simp [h1]), if_neg (by simp [h2])]
    dsimp only
    rw [if_pos h3]

theorem runRounds_one_waits (ctx : RunCtx) (rounds : Nat → RoundInput) (roundIndex : Nat)
    (st : RunState) : (runRounds ctx rounds 1 roundIndex st).waits = st.waits := by
  rw [show (1 : Nat) = 0 + 1 from rfl, runRounds_succ]
  split
  · rfl
  · split
    · rfl
    · dsimp only
      have hw : (processRoundList ctx roundIndex (rounds roundIndex).stopAfter
          (rounds roundIndex).outcome
          (roundProgressStage ctx (rounds roundIndex).completed
            { st with roundLists := st.roundLists ++ [sortStrings st.pending] })
          (sortStrings st.pending)).1.waits = st.waits := by
        refine ((processRoundList_fields ctx roundIndex (rounds roundIndex).stopAfter
          (rounds roundIndex).outcome (sortStrings st.pending) _).2.2.1).trans ?_
        exact (sameData_roundProgressStage ctx (rounds roundIndex).completed _).waits
      split
      · exact hw
      · rw [if_neg (by simp), runRounds_zero]
        exact hw

theorem runRounds_rows_mono (ctx : RunCtx) (rounds : Nat → RoundInput) :
    ∀ (fuel roundIndex : Nat) (st : RunState) (e : ReportEntry),
      e ∈ st.detailedRows → e ∈ (runRounds ctx rounds fuel roundIndex st).detailedRows := by
  intro fuel
  induction fuel with
  | zero => intro i st e he; exact he
  | succ fuel ih =>
    intro i st e he
    rw [runRounds_succ]
    split
    · exact he
    · split
      · exact he
      · dsimp only
        have he1 : e ∈ (processRoundList ctx i (rounds i).stopAfter (rounds i).outcome
            (roundProgressStage ctx (rounds i).completed
              { st with roundLists := st.roundLists ++ [sortStrings st.pending] })
            (sortStrings st.pending)).1.detailedRows := by
          refine processRoundList_rows_mono ctx i (rounds i).stopAfter (rounds i).outcome
            (sortStrings st.pending) _ e ?_
          rw [(sameData_roundProgressStage ctx (rounds i).completed _).detailedRows]
          exact he
        split
        · exact he1
        · split
          · split
            · exact he1
            · exact ih _ _ e he1
          · exact ih _ _ e he1

/-- An identifier outside the pending set and all recorded round lists never
enters a round list or the pending set later. -/
theorem runRounds_avoid (ctx : RunCtx) (rounds : Nat → RoundInput) (c : String) :
    ∀ (fuel roundIndex : Nat) (st : RunState),
      c ∉ st.pending → (∀ rl ∈ st.roundLists, c ∉ rl) →
      c ∉ (runRounds ctx rounds fuel roundIndex st).pending ∧
      (∀ rl ∈ (runRounds ctx rounds fuel roundIndex st).roundLists, c ∉ rl) := by
  intro fuel
  induction fuel with
  | zero => intro i st h1 h2; exact ⟨h1, h2⟩
  | succ fuel ih =>
    intro i st h1 h2
    rw [runRounds_succ]
    split
    · exact ⟨h1, h2⟩
    · split
      · exact ⟨h1, h2⟩
      · dsimp only
        have hrl : c ∉ sortStrings st.pending := fun h =>
          h1 ((stableSort_perm strLeJs st.pending).mem_iff.mp h)
        have h2' : ∀ rl ∈ st.roundLists ++ [sortStrings st.pending], c ∉ rl := by
          intro rl hm
          rcases List.mem_append.mp hm with h | h
          · exact h2 rl h
          · rw [List.mem_singleton.mp h]
            exact hrl
        obtain ⟨hp, _, _, _⟩ := processRoundList_untouched ctx i (rounds i).stopAfter
          (rounds i).outcome c (sortStrings st.pending)
          (roundProgressStage ctx (rounds i).completed
            { st with roundLists := st.roundLists ++ [sortStrings st.pending] }) [] hrl
          (by simp)
        have hrls : (processRoundList ctx i (rounds i).stopAfter (rounds i).outcome
            (roundProgressStage ctx (rounds i).completed
              { st with roundLists := st.roundLists ++ [sortStrings st.pending] })
            (sortStrings st.pending)).1.roundLists =
            st.roundLists ++ [sortStrings st.pending] := by
          refine ((processRoundList_fields ctx i (rounds i).stopAfter
            (rounds i).outcome (sortStrings st.pending) _).2.1).trans ?_
          exact (sameData_roundProgressStage ctx (rounds i).completed _).roundLists
        split
        · exact ⟨hp, by rw [hrls]; exact h2'⟩
        · split
          · split
            · exact ⟨hp, by rw [hrls]; exact h2'⟩
            · exact ih _ _ hp (by rw [hrls]; exact h2')
          · exact ih _ _ hp (by rw [hrls]; exact h2')

/-! ### The no-data counter -/

theorem resolveCnpj_semDado (ctx : RunCtx) (roundIndex : Nat) (stopMid : Bool)
    (oc : String → Option QueryOutcome)
    (hoc : ∀ c o, oc c = some o →
      o.status = .SIM ∨ o.status = .NAO ∨ o.status = .ERRO)
    (acc : RunState × List String) (c : String) :
    (resolveCnpj ctx roundIndex stopMid oc acc c).1.semDadoCount = acc.1.semDadoCount := by
  obtain ⟨st, np⟩ := acc
  unfold resolveCnpj
  dsimp only
  cases hc : oc c with
  | none => rfl
  | some o =>
    dsimp only
    split
    · exact ((sameData_credit_report ctx c _ _).semDadoCount)
    · split
      · rfl
      · rename_i hdef _
        have herr : o.status = .ERRO := by
          rcases hoc c o hc with h | h | h
          · exact absurd (by simp [h]) hdef
          · exact absurd (by simp [h]) hdef
          · exact h
        rw [herr]
        dsimp only
        rw [if_pos (by decide)]
        rw [(sameData_reportProcessedProgress ctx _).semDadoCount]
        dsimp only
        rw [(sameData_creditRemaining ctx c _ _).semDadoCount]

theorem processRoundList_semDado (ctx : RunCtx) (roundIndex : Nat) (stopMid : Bool)
    (oc : String → Option QueryOutcome)
    (hoc : ∀ c o, oc c = some o →
      o.status = .SIM ∨ o.status = .NAO ∨ o.status = .ERRO)
    (L : List String) (acc : RunState × List String) :
    (L.foldl (resolveCnpj ctx roundIndex stopMid oc) acc).1.semDadoCount =
      acc.1.semDadoCount := by
  refine foldl_preserve
    (fun a : RunState × List String => a.1.semDadoCount = acc.1.semDadoCount)
    (resolveCnpj ctx roundIndex stopMid oc) ?_ L acc rfl
  intro a x ha
  rw [resolveCnpj_semDado ctx roundIndex stopMid oc hoc a x, ha]

theorem runRounds_semDado (ctx : RunCtx) (rounds : Nat → RoundInput)
    (hoc : ∀ j c o, (rounds j).outcome c = some o →
      o.status = .SIM ∨ o.status = .NAO ∨ o.status = .ERRO) :
    ∀ (fuel roundIndex : Nat) (st : RunState),
      (runRounds ctx rounds fuel roundIndex st).semDadoCount = st.semDadoCount := by
  intro fuel
  induction fuel with
  | zero => intro i st; rfl
  | succ fuel ih =>
    intro i st
    rw [runRounds_succ]
    split
    · rfl
    · split
      · rfl
      · dsimp only
        have hsd : (processRoundList ctx i (rounds i).stopAfter (rounds i).outcome
            (roundProgressStage ctx (rounds i).completed
              { st with roundLists := st.roundLists ++ [sortStrings st.pending] })
            (sortStrings st.pending)).1.semDadoCount = st.semDadoCount := by
          refine (processRoundList_semDado ctx i (rounds i).stopAfter (rounds i).outcome
            (hoc i) (sortStrings st.pending) _).trans ?_
          exact (sameData_roundProgressStage ctx (rounds i).completed _).semDadoCount
        split
        · exact hsd
        · split
          · split
            · exact hsd
            · exact (ih _ _).trans hsd
          · exact (ih _ _).trans hsd

/-! ### The round-loop coverage invariant -/

/-- The round loop keeps the pending set duplicate-free and row-free, and
never creates or loses coverage: the report row numbers plus the row weights
of the pending identifiers form an invariant multiset. -/
theorem runRounds_inv (ctx : RunCtx) (rounds : Nat → RoundInput) :
    ∀ (fuel roundIndex : Nat) (st : RunState),
      st.pending.Nodup →
      (∀ c ∈ st.pending, countRowsFor c st = 0) →
      (runRounds ctx rounds fuel roundIndex st).pending.Nodup ∧
      (∀ c ∈ (runRounds ctx rounds fuel roundIndex st).pending,
        countRowsFor c (runRounds ctx rounds fuel roundIndex st) = 0) ∧
      List.Perm
        ((runRounds ctx rounds fuel roundIndex st).detailedRows.map (·.linha) ++
          (runRounds ctx rounds fuel roundIndex st).pending.flatMap
            (fun c => (rowsOf ctx c).map toString))
        (st.detailedRows.map (·.linha) ++
          st.pending.flatMap (fun c => (rowsOf ctx c).map toString)) := by
  intro fuel
  induction fuel with
  | zero => intro i st h1 h2; exact ⟨h1, h2, List.Perm.refl _⟩
  | succ fuel ih =>
    intro i st h1 h2
    rw [runRounds_succ]
    split
    · exact ⟨h1, h2, List.Perm.refl _⟩
    · split
      · exact ⟨h1, by simpa [countRowsFor] using h2, List.Perm.refl _⟩
      · dsimp only
        set stg := roundProgressStage ctx (rounds i).completed
          { st with roundLists := st.roundLists ++ [sortStrings st.pending] } with hstg
        set res := processRoundList ctx i (rounds i).stopAfter (rounds i).outcome stg
          (sortStrings st.pending) with hres
        have hsp : List.Perm (sortStrings st.pending) st.pending :=
          stableSort_perm strLeJs st.pending
        have hnd1 : (sortStrings st.pending ++ ([] : List String)).Nodup := by
          rw [List.append_nil]
          exact hsp.nodup_iff.mpr h1
        have hrows_stg : stg.detailedRows = st.detailedRows := by
          rw [hstg]
          exact (sameData_roundProgressStage ctx (rounds i).completed _).detailedRows
        have hcnt1 : ∀ c ∈ sortStrings st.pending ++ ([] : List String),
            countRowsFor c stg = 0 := by
          intro c hc
          rw [List.append_nil] at hc
          unfold countRowsFor
          rw [hrows_stg]
          exact h2 c (hsp.mem_iff.mp hc)
        obtain ⟨ra, rb, rc, rd⟩ := processRoundList_inv ctx i (rounds i).stopAfter
          (rounds i).outcome (sortStrings st.pending) stg [] hnd1 hcnt1
        have hres2 : (sortStrings st.pending).foldl
            (resolveCnpj ctx i (rounds i).stopAfter (rounds i).outcome) (stg, []) = res := by
          rw [hres]
          rfl
        rw [hres2] at ra rb rc rd
        have hcov : List.Perm
            (res.1.detailedRows.map (·.linha) ++
              res.2.flatMap (fun c => (rowsOf ctx c).map toString))
            (st.detailedRows.map (·.linha) ++
              st.pending.flatMap (fun c => (rowsOf ctx c).map toString)) := by
          refine rd.trans ?_
          rw [hrows_stg]
          simp only [List.flatMap_nil, List.append_nil]
          exact List.Perm.append_left _ (hsp.flatMap_right _)
        have hcnt2 : ∀ c ∈ res.2, countRowsFor c { res.1 with pending := res.2 } = 0 :=
          fun c hc => rb c hc
        split
        · exact ⟨ra, hcnt2, hcov⟩
        · split
          · split
            · exact ⟨ra, hcnt2, hcov⟩
            · obtain ⟨qa, qb, qc⟩ := ih _
                { { res.1 with pending := res.2 } with
                    waits := { res.1 with pending := res.2 }.waits ++ [min (2 * i) 8] }
                ra hcnt2
              exact ⟨qa, qb, qc.trans hcov⟩
          · obtain ⟨qa, qb, qc⟩ := ih _ { res.1 with pending := res.2 } ra hcnt2
            exact ⟨qa, qb, qc.trans hcov⟩

/-! ### The progress-event invariant -/

theorem progressInv_eq {ctx : RunCtx} {a b : RunState} (h : ProgressInv ctx a)
    (hev : b.events = a.events) (hrep : b.reported = a.reported) : ProgressInv ctx b := by
  have hd : dones b = dones a := by unfold dones; rw [hev]
  exact ⟨hd ▸ h.chain, by rw [hd, hrep]; exact h.lastr, hrep ▸ h.hle,
    by rw [hev]; exact h.alle⟩

theorem dones_append (st : RunState) (d t : Nat) :
    dones { st with reported := d, events := st.events ++ [(d, t)] } = dones st ++ [d] := by
  unfold dones
  dsimp only
  rw [List.map_append]
  rfl

theorem reportVisualProgress_inv (ctx : RunCtx) (v : Nat) (st : RunState)
    (h : ProgressInv ctx st) : ProgressInv ctx (reportVisualProgress ctx v st) := by
  unfold reportVisualProgress
  dsimp only
  split
  · exact h
  · rename_i hgt
    have hlt : st.reported < max 0 (min ctx.total (v / ctx.maxRounds)) := by omega
    refine ⟨?_, ?_, by dsimp only; omega, ?_⟩
    · rw [dones_append]
      refine List.chain'_append.mpr ⟨h.chain, List.chain'_singleton _, ?_⟩
      intro x hx y hy
      rw [h.lastr, Option.mem_some_iff] at hx
      rw [List.head?_cons, Option.mem_some_iff] at hy
      omega
    · rw [dones_append, List.getLast?_concat]
    · intro e he
      dsimp only at he
      rcases List.mem_append.mp he with h' | h'
      · exact h.alle e h'
      · rw [List.mem_singleton.mp h']

theorem reportProcessedProgress_inv (ctx : RunCtx) (st : RunState)
    (h : ProgressInv ctx st) : ProgressInv ctx (reportProcessedProgress ctx st) := by
  unfold reportProcessedProgress
  dsimp only
  split
  · exact reportVisualProgress_inv ctx _ _ (progressInv_eq h rfl rfl)
  · exact reportVisualProgress_inv ctx _ _ h

theorem creditRemaining_inv (ctx : RunCtx) (c : String) (n : Nat) (st : RunState)
    (h : ProgressInv ctx st) : ProgressInv ctx (creditRemaining ctx c n st) := by
  unfold creditRemaining
  dsimp only
  split
  · exact reportVisualProgress_inv ctx _ _ (progressInv_eq h rfl rfl)
  · exact h

theorem onRoundProgress_inv (ctx : RunCtx) (acc : List String × RunState) (c : String)
    (h : ProgressInv ctx acc.2) : ProgressInv ctx (onRoundProgress ctx acc c).2 := by
  obtain ⟨seen, st⟩ := acc
  unfold onRoundProgress
  dsimp only
  split
  · exact h
  · split
    · exact h
    · exact reportVisualProgress_inv ctx _ _ (progressInv_eq h rfl rfl)

theorem roundProgressStage_inv (ctx : RunCtx) (completed : List String) (st : RunState)
    (h : ProgressInv ctx st) : ProgressInv ctx (roundProgressStage ctx completed st) := by
  unfold roundProgressStage
  exact foldl_preserve (fun a : List String × RunState => ProgressInv ctx a.2)
    (onRoundProgress ctx) (fun a c ha => onRoundProgress_inv ctx a c ha)
    completed ([], st) h

theorem resolveCnpj_prog (ctx : RunCtx) (roundIndex : Nat) (stopMid : Bool)
    (oc : String → Option QueryOutcome) (acc : RunState × List String) (c : String)
    (h : ProgressInv ctx acc.1) :
    ProgressInv ctx (resolveCnpj ctx roundIndex stopMid oc acc c).1 := by
  obtain ⟨st, np⟩ := acc
  unfold resolveCnpj
  dsimp only
  cases hc : oc c with
  | none => exact h
  | some o =>
    dsimp only
    split
    · exact reportProcessedProgress_inv ctx _
        (creditRemaining_inv ctx _ _ _ (progressInv_eq h rfl rfl))
    · split
      · exact h
      · split <;>
          (refine reportProcessedProgress_inv ctx _
              (progressInv_eq (creditRemaining_inv ctx _ _ _ ?_) rfl rfl)
           exact progressInv_eq h rfl rfl)

theorem processRoundList_prog (ctx : RunCtx) (roundIndex : Nat) (stopMid : Bool)
    (oc : String → Option QueryOutcome) (L : List String) (acc : RunState × List String)
    (h : ProgressInv ctx acc.1) :
    ProgressInv ctx (L.foldl (resolveCnpj ctx roundIndex stopMid oc) acc).1 :=
  foldl_preserve (fun a : RunState × List String => ProgressInv ctx a.1)
    (resolveCnpj ctx roundIndex stopMid oc)
    (fun a c ha => resolveCnpj_prog ctx roundIndex stopMid oc a c ha) L acc h

theorem runRounds_prog (ctx : RunCtx) (rounds : Nat → RoundInput) :
    ∀ (fuel roundIndex : Nat) (st : RunState), ProgressInv ctx st →
      ProgressInv ctx (runRounds ctx rounds fuel roundIndex st) := by
  intro fuel
  induction fuel with
  | zero => intro i st h; exact h
  | succ fuel ih =>
    intro i st h
    rw [runRounds_succ]
    split
    · exact h
    · split
      · exact progressInv_eq h rfl rfl
      · dsimp only
        have h1 : ProgressInv ctx (processRoundList ctx i (rounds i).stopAfter
            (rounds i).outcome
            (roundProgressStage ctx (rounds i).completed
              { st with roundLists := st.roundLists ++ [sortStrings st.pending] })
            (sortStrings st.pending)).1 :=
          processRoundList_prog ctx i (rounds i).stopAfter (rounds i).outcome _ _
            (roundProgressStage_inv ctx _ _ (progressInv_eq h rfl rfl))
        split
        · exact progressInv_eq h1 rfl rfl
        · split
          · split
            · exact progressInv_eq h1 rfl rfl
            · exact ih _ _ (progressInv_eq h1 rfl rfl)
          · exact ih _ _ (progressInv_eq h1 rfl rfl)

theorem invalidStep_inv (ctx : RunCtx) (st : RunState) (it : Nat × String)
    (h : ProgressInv ctx st) : ProgressInv ctx (invalidStep ctx st it) :=
  reportProcessedProgress_inv ctx _ (progressInv_eq h rfl rfl)

theorem cacheStep_inv (ctx : RunCtx) (st : RunState) (g : String × List Nat)
    (h : ProgressInv ctx st) : ProgressInv ctx (cacheStep ctx st g) := by
  unfold cacheStep
  dsimp only
  split
  · exact reportProcessedProgress_inv ctx _ (progressInv_eq h rfl rfl)
  · exact progressInv_eq h rfl rfl

theorem finalErrorStep_inv (ctx : RunCtx) (st : RunState) (c : String)
    (h : ProgressInv ctx st) : ProgressInv ctx (finalErrorStep ctx st c) :=
  reportProcessedProgress_inv ctx _ (progressInv_eq h rfl rfl)

theorem initState_prog (ctx : RunCtx) (cacheLoaded : List (String × String)) :
    ProgressInv ctx (initState ctx cacheLoaded) := by
  refine ⟨List.chain'_singleton _, rfl, Nat.zero_le _, ?_⟩
  intro e he
  rw [List.mem_singleton.mp he]

theorem initStateOf_prog (inp : RunInput) : ProgressInv (ctxOf inp) (initStateOf inp) := by
  have h1 : ProgressInv (ctxOf inp)
      (invalidStage (ctxOf inp) (invalidRowsOf (ctxOf inp).selectedRows)
        (initState (ctxOf inp) (loadCache inp.cacheFile))) :=
    foldl_preserve (ProgressInv (ctxOf inp)) (invalidStep (ctxOf inp))
      (fun s g hs => invalidStep_inv (ctxOf inp) s g hs) _ _
      (initState_prog (ctxOf inp) _)
  have h2 : ProgressInv (ctxOf inp)
      (cacheStage (ctxOf inp)
        (invalidStage (ctxOf inp) (invalidRowsOf (ctxOf inp).selectedRows)
          (initState (ctxOf inp) (loadCache inp.cacheFile)))) :=
    foldl_preserve (ProgressInv (ctxOf inp)) (cacheStep (ctxOf inp))
      (fun s g hs => cacheStep_inv (ctxOf inp) s g hs) _ _ h1
  exact progressInv_eq h2 rfl rfl

theorem reportVisualProgress_last (ctx : RunCtx) (st : RunState) (h : ProgressInv ctx st)
    (hm : 0 < ctx.maxRounds) :
    (dones (reportVisualProgress ctx (ctx.total * ctx.maxRounds) st)).getLast? =
      some ctx.total := by
  have hd : max 0 (min ctx.total (ctx.total * ctx.maxRounds / ctx.maxRounds)) =
      ctx.total := by
    rw [Nat.mul_div_cancel _ hm]
    omega
  unfold reportVisualProgress
  dsimp only
  split
  · rename_i hcond
    rw [hd] at hcond
    rw [h.lastr]
    exact congrArg some (Nat.le_antisymm h.hle hcond)
  · rw [dones_append, List.getLast?_concat, hd]

/-! ### Stage wrappers -/

theorem finalErrorStage_fields (ctx : RunCtx) (st : RunState) :
    (finalErrorStage ctx st).interrupted = st.interrupted ∧
    (finalErrorStage ctx st).pending = st.pending ∧
    (finalErrorStage ctx st).cache = st.cache ∧
    (finalErrorStage ctx st).semDadoCount = st.semDadoCount ∧
    (finalErrorStage ctx st).success = st.success ∧
    (finalErrorStage ctx st).invalidCount = st.invalidCount ∧
    (finalErrorStage ctx st).cacheHits = st.cacheHits ∧
    (finalErrorStage ctx st).roundLists = st.roundLists ∧
    (finalErrorStage ctx st).waits = st.waits := by
  unfold finalErrorStage
  split
  · obtain ⟨_, hp, hi, hc, hsd, hsu, hin, hch, hrl, hw, _⟩ :=
      finalError_fold ctx (sortStrings st.pending) st
    exact ⟨hi, hp, hc, hsd, hsu, hin, hch, hrl, hw⟩
  · exact ⟨rfl, rfl, rfl, rfl, rfl, rfl, rfl, rfl, rfl⟩

theorem finalErrorStage_of_interrupted (ctx : RunCtx) (st : RunState)
    (h : st.interrupted = true) : finalErrorStage ctx st = st := by
  unfold finalErrorStage
  rw [if_neg (by simp [h])]

theorem interruptedStage_fields (ctx : RunCtx) (st : RunState) :
    (interruptedStage ctx st).interrupted = st.interrupted ∧
    (interruptedStage ctx st).pending = st.pending ∧
    (interruptedStage ctx st).cache = st.cache ∧
    (interruptedStage ctx st).semDadoCount = st.semDadoCount ∧
    (interruptedStage ctx st).success = st.success ∧
    (interruptedStage ctx st).invalidCount = st.invalidCount ∧
    (interruptedStage ctx st).cacheHits = st.cacheHits ∧
    (interruptedStage ctx st).events = st.events ∧
    (interruptedStage ctx st).reported = st.reported ∧
    (interruptedStage ctx st).waits = st.waits ∧
    (interruptedStage ctx st).roundLists = st.roundLists ∧
    (interruptedStage ctx st).processed = st.processed ∧
    (interruptedStage ctx st).erroCount = st.erroCount ∧
    (interruptedStage ctx st).outcomeByCnpj = st.outcomeByCnpj := by
  unfold interruptedStage
  split
  · obtain ⟨_, hc, ho, hp, hi, hpr, hsu, hsd, her, hin, hch, hev, hre, hrl, hw⟩ :=
      interrupted_fold ctx (sortStrings st.pending) st
    exact ⟨hi, hp, hc, hsd, hsu, hin, hch, hev, hre, hw, hrl, hpr, her, ho⟩
  · exact ⟨rfl, rfl, rfl, rfl, rfl, rfl, rfl, rfl, rfl, rfl, rfl, rfl, rfl, rfl⟩

theorem finalErrorStage_inv (ctx : RunCtx) (st : RunState) (h : ProgressInv ctx st) :
    ProgressInv ctx (finalErrorStage ctx st) := by
  unfold finalErrorStage
  split
  · exact foldl_preserve (ProgressInv ctx) (finalErrorStep ctx)
      (fun s c hs => finalErrorStep_inv ctx s c hs) _ _ h
  · exact h

theorem interruptedStage_inv (ctx : RunCtx) (st : RunState) (h : ProgressInv ctx st) :
    ProgressInv ctx (interruptedStage ctx st) := by
  unfold interruptedStage
  split
  · exact foldl_preserve (ProgressInv ctx) (interruptedStep ctx)
      (fun s c hs => progressInv_eq hs rfl rfl) _ _ h
  · exact h

/-- A surviving entry of a key-filtered association list keeps its lookup. -/
theorem mapGet?_filter {κ α : Type} [BEq κ] [LawfulBEq κ] (p : κ × α → Bool) :
    ∀ (l : List (κ × α)) (k : κ) (v : α),
      mapGet? l k = some v → p (k, v) = true → mapGet? (l.filter p) k = some v := by
  intro l
  induction l with
  | nil => intro k v h; simp [mapGet?] at h
  | cons e rest ih =>
    intro k v h hp
    by_cases hk : (e.1 == k) = true
    · have hv : e.2 = v := by
        unfold mapGet? at h
        simp only [List.find?_cons, hk, if_true] at h
        simpa using h
      have he : e = (k, v) := by
        obtain ⟨e1, e2⟩ := e
        simp only at hv hk
        rw [hv, eq_of_beq hk]
      rw [List.filter_cons_of_pos (he ▸ hp)]
      unfold mapGet?
      simp only [List.find?_cons, hk, if_true]
      simpa using hv
    · have hkf : (e.1 == k) = false := by simpa using hk
      have h' : mapGet? rest k = some v := by
        unfold mapGet? at h ⊢
        simp only [List.find?_cons, hkf] at h
        simpa using h
      by_cases hpe : p e = true
      · rw [List.filter_cons_of_pos hpe]
        unfold mapGet?
        simp only [List.find?_cons, hkf]
        exact ih k v h' hp
      · rw [List.filter_cons_of_neg hpe]
        exact ih k v h' hp

/-! ### Resolver outcome statuses -/

theorem consultarSimplesAux_status (resp : ProviderName → ProviderResponse) :
    ∀ (ps : List ProviderName) (errors : List QueryOutcome),
      (consultarSimplesAux resp ps errors).1.status = .SIM ∨
      (consultarSimplesAux resp ps errors).1.status = .NAO ∨
      (consultarSimplesAux resp ps errors).1.status = .ERRO := by
  intro ps
  induction ps with
  | nil => intro errors; exact Or.inr (Or.inr rfl)
  | cons p rest ih =>
    intro errors
    unfold consultarSimplesAux
    dsimp only
    split
    · rename_i hdef
      unfold isDefinitive at hdef
      rcases Bool.or_eq_true_iff.mp hdef with h | h
      · exact Or.inl (eq_of_beq h)
      · exact Or.inr (Or.inl (eq_of_beq h))
    · exact ih (errors ++ [providerCall resp p])

/-! ### Initial-state shape -/

theorem flatMap_congr_mem {α β : Type} :
    ∀ (l : List α) (f g : α → List β), (∀ x ∈ l, f x = g x) →
      l.flatMap f = l.flatMap g := by
  intro l
  induction l with
  | nil => intro f g _; rfl
  | cons x xs ih =>
    intro f g h
    rw [List.flatMap_cons, List.flatMap_cons, h x (List.mem_cons_self x xs),
      ih f g (fun y hy => h y (List.mem_cons_of_mem x hy))]

/-- With duplicate-free keys, a key of an entry satisfying `p` never occurs
among the keys of the entries refuting `p`. -/
theorem hit_not_in_miss_keys {α : Type} (L : List (String × α)) (p : String × α → Bool)
    (hnd : (L.map Prod.fst).Nodup) (g : String × α) (hg : g ∈ L) (hp : p g = true) :
    g.1 ∉ (L.filter (fun x => !p x)).map Prod.fst := by
  intro hmem
  obtain ⟨g', hg', he⟩ := List.mem_map.mp hmem
  have hgl : g' ∈ L := List.mem_of_mem_filter hg'
  have hpg' : (!p g') = true := (List.mem_filter.mp hg').2
  have hgg : g' = g := List.inj_on_of_nodup_map hnd hgl hg he
  rw [hgg, hp] at hpg'
  simp at hpg'

theorem rowsByCnpj_keys_nodup (sel : List (Nat × String)) :
    ((rowsByCnpjOf sel).map Prod.fst).Nodup :=
  (buildGroups_fold sel ([], [])).1 List.nodup_nil

theorem rowsByCnpj_keys_ne (sel : List (Nat × String)) :
    ∀ k ∈ (rowsByCnpjOf sel).map Prod.fst, k ≠ "" := by
  intro k hk
  rcases (buildGroups_fold sel ([], [])).2.1 k hk with h | h
  · simp at h
  · exact h

theorem rowsByCnpj_partition (sel : List (Nat × String)) :
    List.Perm ((rowsByCnpjOf sel).flatMap (·.2) ++ (invalidRowsOf sel).map Prod.fst)
      (sel.map Prod.fst) := by
  exact (buildGroups_fold sel ([], [])).2.2

theorem rowsOf_of_mem (sel : List (Nat × String)) (g : String × List Nat)
    (hg : g ∈ rowsByCnpjOf sel) : mapGet? (rowsByCnpjOf sel) g.1 = some g.2 := by
  obtain ⟨g1, g2⟩ := g
  exact mapGet?_eq_of_mem_nodup _ _ _ hg (rowsByCnpj_keys_nodup sel)

/-- The state in which the round loop starts: invalid rows reported, cache
hits answered and counted, the misses pending. -/
theorem initStateOf_shape (inp : RunInput) :
    (initStateOf inp).cache = loadCache inp.cacheFile ∧
    (initStateOf inp).pending = ((ctxOf inp).rowsByCnpj.filter (fun g =>
      !(mapGet? (loadCache inp.cacheFile) g.1 == some "SIM" ||
        mapGet? (loadCache inp.cacheFile) g.1 == some "NÃO"))).map Prod.fst ∧
    (initStateOf inp).detailedRows =
      (invalidRowsOf (ctxOf inp).selectedRows).map (fun it =>
        mkEntry it.1 it.2 "" "CNPJ_INVALIDO" "VALIDACAO" "VALIDACAO" "CNPJ invalido") ++
      ((ctxOf inp).rowsByCnpj.filter (fun g =>
        mapGet? (loadCache inp.cacheFile) g.1 == some "SIM" ||
        mapGet? (loadCache inp.cacheFile) g.1 == some "NÃO")).flatMap (fun g =>
          g.2.map (fun row => mkEntry row (origGet (ctxOf inp) row) g.1
            ((mapGet? (loadCache inp.cacheFile) g.1).getD "") "CACHE" "CACHE"
            "valor em cache")) ∧
    (initStateOf inp).cacheHits = cachedRowsTotal inp ∧
    (initStateOf inp).success = cachedRowsTotal inp ∧
    (initStateOf inp).processed =
      (invalidRowsOf (ctxOf inp).selectedRows).length + cachedRowsTotal inp ∧
    (initStateOf inp).semDadoCount = 0 ∧
    (initStateOf inp).erroCount = 0 ∧
    (initStateOf inp).invalidCount = (invalidRowsOf (ctxOf inp).selectedRows).length ∧
    (initStateOf inp).interrupted = false ∧
    (initStateOf inp).roundLists = [] ∧
    (initStateOf inp).waits = [] := by
  have heq : initStateOf inp = attemptsInit
      (List.foldl (cacheStep (ctxOf inp))
        (List.foldl (invalidStep (ctxOf inp))
          (initState (ctxOf inp) (loadCache inp.cacheFile))
          (invalidRowsOf (ctxOf inp).selectedRows))
        ((ctxOf inp).rowsByCnpj)) := rfl
  obtain ⟨va, vb, vc, vd, ve, vf, vg, vh, vi, vj, vk, vl, vm⟩ :=
    invalid_fold (ctxOf inp) (invalidRowsOf (ctxOf inp).selectedRows)
      (initState (ctxOf inp) (loadCache inp.cacheFile))
  obtain ⟨ca, cb, cc, cd, ce, cf, cg, ch, ci, cj, ck, cl⟩ :=
    cacheStage_fold (ctxOf inp) (loadCache inp.cacheFile) (ctxOf inp).rowsByCnpj
      (List.foldl (invalidStep (ctxOf inp))
        (initState (ctxOf inp) (loadCache inp.cacheFile))
        (invalidRowsOf (ctxOf inp).selectedRows))
      (vc.trans rfl)
  rw [heq]
  unfold attemptsInit
  dsimp only
  refine ⟨ca, ?_, ?_, ?_, ?_, ?_, cg.trans vh, ch.trans vi, ?_, cj.trans vk,
    ck.trans vl, cl.trans vm⟩
  · rw [cb, vb]
    rfl
  · rw [cc, va]
    rfl
  · rw [cf, vj]
    unfold initState cachedRowsTotal
    dsimp only
    omega
  · rw [ce, vg]
    unfold initState cachedRowsTotal
    dsimp only
    omega
  · rw [cd, ve]
    unfold initState cachedRowsTotal
    dsimp only
    omega
  · rw [ci, vf]
    unfold initState
    dsimp only
    omega

theorem processWorkbook_ctx (inp : RunInput) : (processWorkbook inp).ctx = ctxOf inp := rfl

theorem processWorkbook_state (inp : RunInput) :
    (processWorkbook inp).state =
      (if (interruptedStage (ctxOf inp) (finalErrorStage (ctxOf inp)
            (runRounds (ctxOf inp) inp.rounds (ctxOf inp).maxRounds 1
              (initStateOf inp)))).interrupted = true
        then interruptedStage (ctxOf inp) (finalErrorStage (ctxOf inp)
          (runRounds (ctxOf inp) inp.rounds (ctxOf inp).maxRounds 1 (initStateOf inp)))
        else reportVisualProgress (ctxOf inp) ((ctxOf inp).total * (ctxOf inp).maxRounds)
          (interruptedStage (ctxOf inp) (finalErrorStage (ctxOf inp)
            (runRounds (ctxOf inp) inp.rounds (ctxOf inp).maxRounds 1
              (initStateOf inp))))) := rfl

theorem processWorkbook_result (inp : RunInput) :
    (processWorkbook inp).result =
      ⟨(processWorkbook inp).state.processed, (ctxOf inp).total,
       (processWorkbook inp).state.success,
       (processWorkbook inp).state.invalidCount + (processWorkbook inp).state.erroCount +
         (processWorkbook inp).state.semDadoCount,
       (processWorkbook inp).state.semDadoCount, (processWorkbook inp).state.erroCount,
       (processWorkbook inp).state.invalidCount,
       (processWorkbook inp).state.interrupted⟩ := rfl

theorem processWorkbook_reportSorted (inp : RunInput) :
    (processWorkbook inp).reportSorted =
      sortReportEntries (interruptedStage (ctxOf inp) (finalErrorStage (ctxOf inp)
        (runRounds (ctxOf inp) inp.rounds (ctxOf inp).maxRounds 1
          (initStateOf inp)))).detailedRows := rfl

theorem processWorkbook_reportLines (inp : RunInput) :
    (processWorkbook inp).reportLines =
      writeDetailedReport (interruptedStage (ctxOf inp) (finalErrorStage (ctxOf inp)
        (runRounds (ctxOf inp) inp.rounds (ctxOf inp).maxRounds 1
          (initStateOf inp)))).detailedRows := rfl

theorem processWorkbook_savedCache (inp : RunInput) :
    (processWorkbook inp).savedCache =
      saveCache (interruptedStage (ctxOf inp) (finalErrorStage (ctxOf inp)
        (runRounds (ctxOf inp) inp.rounds (ctxOf inp).maxRounds 1
          (initStateOf inp)))).cache := rfl

theorem initStateOf_pending_nodup (inp : RunInput) : (initStateOf inp).pending.Nodup := by
  rw [(initStateOf_shape inp).2.1]
  refine List.Nodup.sublist ?_ (rowsByCnpj_keys_nodup (selectedRowsOf inp))
  exact (List.filter_sublist _).map Prod.fst

theorem initStateOf_pending_mem (inp : RunInput) :
    ∀ c ∈ (initStateOf inp).pending, c ∈ ((ctxOf inp).rowsByCnpj).map Prod.fst := by
  intro c hc
  rw [(initStateOf_shape inp).2.1] at hc
  exact ((List.filter_sublist _).map Prod.fst).mem hc

theorem initStateOf_noRows (inp : RunInput) :
    ∀ c ∈ (initStateOf inp).pending, countRowsFor c (initStateOf inp) = 0 := by
  intro c hc
  have hc' := hc
  rw [(initStateOf_shape inp).2.1] at hc'
  have hcne : c ≠ "" :=
    rowsByCnpj_keys_ne (selectedRowsOf inp) c (initStateOf_pending_mem inp c hc)
  refine countRowsFor_eq_zero c _ ?_
  intro e he
  rw [(initStateOf_shape inp).2.2.1] at he
  rcases List.mem_append.mp he with h | h
  · obtain ⟨it, _, hit⟩ := List.mem_map.mp h
    rw [← hit]
    exact fun hlim => hcne hlim.symm
  · obtain ⟨g, hg, hrow⟩ := List.mem_flatMap.mp h
    obtain ⟨row, _, hrow'⟩ := List.mem_map.mp hrow
    rw [← hrow']
    intro hlim
    have hlim' : g.1 = c := hlim
    refine hit_not_in_miss_keys ((ctxOf inp).rowsByCnpj)
      (fun g => mapGet? (loadCache inp.cacheFile) g.1 == some "SIM" ||
        mapGet? (loadCache inp.cacheFile) g.1 == some "NÃO")
      (rowsByCnpj_keys_nodup (selectedRowsOf inp)) g (List.mem_of_mem_filter hg)
      (List.mem_filter.mp hg).2 ?_
    rw [hlim']
    exact hc'

/-- Before the first round, the report rows plus the pending weights cover
exactly the selected input rows. -/
theorem initStateOf_coverage (inp : RunInput) :
    List.Perm
      ((initStateOf inp).detailedRows.map (·.linha) ++
        (initStateOf inp).pending.flatMap
          (fun c => (rowsOf (ctxOf inp) c).map toString))
      ((selectedRowsOf inp).map (fun it => toString it.1)) := by
  rw [(initStateOf_shape inp).2.2.1, (initStateOf_shape inp).2.1]
  rw [List.map_append, List.map_map, List.map_flatMap, List.flatMap_map]
  have hinv : (invalidRowsOf (ctxOf inp).selectedRows).map
      ((fun e : ReportEntry => e.linha) ∘ (fun it : Nat × String =>
        mkEntry it.1 it.2 "" "CNPJ_INVALIDO" "VALIDACAO" "VALIDACAO" "CNPJ invalido")) =
      ((invalidRowsOf (ctxOf inp).selectedRows).map Prod.fst).map toString := by
    rw [List.map_map]
    exact List.map_congr_left (fun it _ => rfl)
  have hhit : ((ctxOf inp).rowsByCnpj.filter (fun g =>
      mapGet? (loadCache inp.cacheFile) g.1 == some "SIM" ||
      mapGet? (loadCache inp.cacheFile) g.1 == some "NÃO")).flatMap (fun g =>
        (g.2.map (fun row => mkEntry row (origGet (ctxOf inp) row) g.1
          ((mapGet? (loadCache inp.cacheFile) g.1).getD "") "CACHE" "CACHE"
          "valor em cache")).map (fun e => e.linha)) =
      ((ctxOf inp).rowsByCnpj.filter (fun g =>
        mapGet? (loadCache inp.cacheFile) g.1 == some "SIM" ||
        mapGet? (loadCache inp.cacheFile) g.1 == some "NÃO")).flatMap
          (fun g => g.2.map toString) := by
    refine flatMap_congr_mem _ _ _ ?_
    intro g _
    rw [List.map_map]
    exact List.map_congr_left (fun row _ => rfl)
  have hmiss : ((ctxOf inp).rowsByCnpj.filter (fun g =>
      !(mapGet? (loadCache inp.cacheFile) g.1 == some "SIM" ||
        mapGet? (loadCache inp.cacheFile) g.1 == some "NÃO"))).flatMap
        (fun x => (rowsOf (ctxOf inp) x.1).map toString) =
      ((ctxOf inp).rowsByCnpj.filter (fun g =>
        !(mapGet? (loadCache inp.cacheFile) g.1 == some "SIM" ||
          mapGet? (loadCache inp.cacheFile) g.1 == some "NÃO"))).flatMap
          (fun g => g.2.map toString) := by
    refine flatMap_congr_mem _ _ _ ?_
    intro g hg
    unfold rowsOf
    have hro : mapGet? ((ctxOf inp).rowsByCnpj) g.1 = some g.2 :=
      rowsOf_of_mem (selectedRowsOf inp) g
        (show g ∈ rowsByCnpjOf (selectedRowsOf inp) from List.mem_of_mem_filter hg)
    rw [hro]
    rfl
  rw [hinv, hhit, hmiss]
  have hpart : List.Perm
      (((ctxOf inp).rowsByCnpj.filter (fun g =>
        mapGet? (loadCache inp.cacheFile) g.1 == some "SIM" ||
        mapGet? (loadCache inp.cacheFile) g.1 == some "NÃO")).flatMap
          (fun g => g.2.map toString) ++
        ((ctxOf inp).rowsByCnpj.filter (fun g =>
          !(mapGet? (loadCache inp.cacheFile) g.1 == some "SIM" ||
            mapGet? (loadCache inp.cacheFile) g.1 == some "NÃO"))).flatMap
            (fun g => g.2.map toString))
      (((ctxOf inp).rowsByCnpj.flatMap (·.2)).map toString) := by
    rw [← List.flatMap_append, ← List.map_flatMap]
    exact ((List.filter_append_perm _ _).flatMap_right _).map toString
  rw [List.append_assoc]
  refine (List.Perm.append_left _ hpart).trans ?_
  refine List.perm_append_comm.trans ?_
  rw [← List.map_append]
  refine ((rowsByCnpj_partition (selectedRowsOf inp)).map toString).trans ?_
  rw [List.map_map]
  exact List.Perm.refl _

theorem linha_of_blocks (ctx : RunCtx) (L : List String) (f : String → Nat → ReportEntry)
    (hf : ∀ c row, (f c row).linha = toString row) :
    ((L.flatMap (fun c => (rowsOf ctx c).map (f c))).map (·.linha)) =
      L.flatMap (fun c => (rowsOf ctx c).map toString) := by
  rw [List.map_flatMap]
  refine flatMap_congr_mem _ _ _ ?_
  intro c _
  rw [List.map_map]
  exact List.map_congr_left (fun row _ => hf c row)

/-- The two closing stages only add the pending identifiers' rows: their
result's row numbers are the previous rows plus the pending row weights. -/
theorem stages_coverage (ctx : RunCtx) (st1 : RunState) :
    List.Perm
      ((interruptedStage ctx (finalErrorStage ctx st1)).detailedRows.map (·.linha))
      (st1.detailedRows.map (·.linha) ++
        st1.pending.flatMap (fun c => (rowsOf ctx c).map toString)) := by
  have hperm : ∀ (bl : String → Nat → ReportEntry),
      (∀ c row, (bl c row).linha = toString row) →
      List.Perm
        ((st1.detailedRows ++ (sortStrings st1.pending).flatMap
          (fun c => (rowsOf ctx c).map (bl c))).map (·.linha))
        (st1.detailedRows.map (·.linha) ++
          st1.pending.flatMap (fun c => (rowsOf ctx c).map toString)) := by
    intro bl hbl
    rw [List.map_append, linha_of_blocks ctx _ bl hbl]
    exact List.Perm.append_left _
      ((stableSort_perm strLeJs st1.pending).flatMap_right _)
  by_cases hi : st1.interrupted = true
  · rw [finalErrorStage_of_interrupted ctx st1 hi]
    unfold interruptedStage
    split
    · rw [(interrupted_fold ctx (sortStrings st1.pending) st1).1]
      exact hperm _ (fun c row => rfl)
    · rename_i hcond
      have hnil : st1.pending = [] := by
        rw [hi] at hcond
        simpa using hcond
      rw [hnil]
      simp only [List.flatMap_nil, List.append_nil]
      exact List.Perm.refl _
  · have hi' : st1.interrupted = false := by simpa using hi
    have h2 : (interruptedStage ctx (finalErrorStage ctx st1)) =
        finalErrorStage ctx st1 := by
      unfold interruptedStage
      rw [if_neg (by simp [(finalErrorStage_fields ctx st1).1, hi'])]
    rw [h2]
    unfold finalErrorStage
    split
    · rw [(finalError_fold ctx (sortStrings st1.pending) st1).1]
      exact hperm _ (fun c row => rfl)
    · rename_i hcond
      have hnil : st1.pending = [] := by
        rw [hi'] at hcond
        simpa using hcond
      rw [hnil]
      simp only [List.flatMap_nil, List.append_nil]
      exact List.Perm.refl _

theorem processWorkbook_interrupted (inp : RunInput) :
    (processWorkbook inp).state.interrupted =
      (runRounds (ctxOf inp) inp.rounds (ctxOf inp).maxRounds 1
        (initStateOf inp)).interrupted := by
  rw [processWorkbook_state]
  split
  · exact (interruptedStage_fields _ _).1.trans (finalErrorStage_fields _ _).1
  · exact ((sameData_reportVisualProgress _ _ _).interrupted).trans
      ((interruptedStage_fields _ _).1.trans (finalErrorStage_fields _ _).1)

theorem processWorkbook_pending (inp : RunInput) :
    (processWorkbook inp).state.pending =
      (runRounds (ctxOf inp) inp.rounds (ctxOf inp).maxRounds 1
        (initStateOf inp)).pending := by
  rw [processWorkbook_state]
  split
  · exact (interruptedStage_fields _ _).2.1.trans (finalErrorStage_fields _ _).2.1
  · exact ((sameData_reportVisualProgress _ _ _).pending).trans
      ((interruptedStage_fields _ _).2.1.trans (finalErrorStage_fields _ _).2.1)

theorem processWorkbook_cache (inp : RunInput) :
    (processWorkbook inp).state.cache =
      (runRounds (ctxOf inp) inp.rounds (ctxOf inp).maxRounds 1
        (initStateOf inp)).cache := by
  rw [processWorkbook_state]
  split
  · exact (interruptedStage_fields _ _).2.2.1.trans (finalErrorStage_fields _ _).2.2.1
  · exact ((sameData_reportVisualProgress _ _ _).cache).trans
      ((interruptedStage_fields _ _).2.2.1.trans (finalErrorStage_fields _ _).2.2.1)

theorem processWorkbook_roundLists (inp : RunInput) :
    (processWorkbook inp).state.roundLists =
      (runRounds (ctxOf inp) inp.rounds (ctxOf inp).maxRounds 1
        (initStateOf inp)).roundLists := by
  rw [processWorkbook_state]
  split
  · exact (interruptedStage_fields _ _).2.2.2.2.2.2.2.2.2.2.1.trans
      (finalErrorStage_fields _ _).2.2.2.2.2.2.2.1
  · exact ((sameData_reportVisualProgress _ _ _).roundLists).trans
      ((interruptedStage_fields _ _).2.2.2.2.2.2.2.2.2.2.1.trans
        (finalErrorStage_fields _ _).2.2.2.2.2.2.2.1)

theorem processWorkbook_semDado (inp : RunInput) :
    (processWorkbook inp).state.semDadoCount =
      (runRounds (ctxOf inp) inp.rounds (ctxOf inp).maxRounds 1
        (initStateOf inp)).semDadoCount := by
  rw [processWorkbook_state]
  split
  · exact (interruptedStage_fields _ _).2.2.2.1.trans
      (finalErrorStage_fields _ _).2.2.2.1
  · exact ((sameData_reportVisualProgress _ _ _).semDadoCount).trans
      ((interruptedStage_fields _ _).2.2.2.1.trans
        (finalErrorStage_fields _ _).2.2.2.1)

theorem finalErrorStage_rows_mono (ctx : RunCtx) (st : RunState) (e : ReportEntry)
    (he : e ∈ st.detailedRows) : e ∈ (finalErrorStage ctx st).detailedRows := by
  unfold finalErrorStage
  split
  · rw [(finalError_fold ctx (sortStrings st.pending) st).1]
    exact List.mem_append_left _ he
  · exact he

theorem interruptedStage_rows_mono (ctx : RunCtx) (st : RunState) (e : ReportEntry)
    (he : e ∈ st.detailedRows) : e ∈ (interruptedStage ctx st).detailedRows := by
  unfold interruptedStage
  split
  · rw [(interrupted_fold ctx (sortStrings st.pending) st).1]
    exact List.mem_append_left _ he
  · exact he

theorem processWorkbook_rows_mono (inp : RunInput) (e : ReportEntry)
    (he : e ∈ (runRounds (ctxOf inp) inp.rounds (ctxOf inp).maxRounds 1
      (initStateOf inp)).detailedRows) :
    e ∈ (processWorkbook inp).state.detailedRows := by
  rw [processWorkbook_state]
  split
  · exact interruptedStage_rows_mono _ _ _ (finalErrorStage_rows_mono _ _ _ he)
  · rw [(sameData_reportVisualProgress _ _ _).detailedRows]
    exact interruptedStage_rows_mono _ _ _ (finalErrorStage_rows_mono _ _ _ he)

/-- C10: the `semDado` field of every run result is 0.  The only increment of
the no-data counter sits in the finalization branch for an outcome status
that is neither SIM, NAO nor ERRO, and both outcome producers — the fallback
resolver and the worker loop's exception handler — only ever emit SIM, NAO
or ERRO statuses, so that branch is unreachable. -/
theorem c10_semdado_zero :
    (∀ resp : ProviderName → ProviderResponse,
      (consultarSimples resp).1.status = .SIM ∨
      (consultarSimples resp).1.status = .NAO ∨
      (consultarSimples resp).1.status = .ERRO) ∧
    (∀ (workerId : Nat) (detail : String),
      (workerCatchOutcome workerId detail).status = .ERRO) ∧
    (∀ inp : RunInput,
      (∀ j c o, (inp.rounds j).outcome c = some o →
        o.status = .SIM ∨ o.status = .NAO ∨ o.status = .ERRO) →
      (processWorkbook inp).result.semDado = 0) := by
  refine ⟨fun resp => consultarSimplesAux_status resp PROVIDERS_FALLBACK [],
    fun w d => rfl, fun inp hoc => ?_⟩
  have h1 : (processWorkbook inp).result.semDado =
      (processWorkbook inp).state.semDadoCount := by
    rw [processWorkbook_result]
  rw [h1, processWorkbook_semDado,
    runRounds_semDado (ctxOf inp) inp.rounds hoc _ _ (initStateOf inp),
    (initStateOf_shape inp).2.2.2.2.2.2.1]

theorem c10_semdado_zero_witness :
    (processWorkbook ⟨[(2, "11222333000181")], none, 0, [],
      fun _ => ⟨false, [], fun _ => none, false, false⟩⟩).result =
      ⟨1, 1, 0, 1, 0, 1, 0, false⟩ ∧
    (processWorkbook ⟨[(2, "11222333000181")], none, 0, [],
      fun _ => ⟨false, [], fun _ => none, false, false⟩⟩).result.semDado = 0 :=
  ⟨by decide,
   c10_semdado_zero.2.2 ⟨[(2, "11222333000181")], none, 0, [],
      fun _ => ⟨false, [], fun _ => none, false, false⟩⟩
     (fun j c o h => Option.noConfusion h)⟩

/-- C2: a soft-error (ERRO) outcome is retried while rounds remain and no
stop is requested — the identifier stays pending with no report row and no
cache write that round; otherwise it is finalized with terminal status ERRO
and one report row per covered output row; a leftover pending identifier of
a non-cancelled run is force-finalized as ERRO with detail
'sem retorno apos reprocessamento' and origin REPROCESSAMENTO_FINAL; and
with `reprocessRounds = 0` there is a single round and no inter-round wait
ever happens. -/
theorem c2_soft_error_rounds :
    (∀ (ctx : RunCtx) (roundIndex : Nat) (oc : String → Option QueryOutcome)
      (cnpj : String) (o : QueryOutcome),
      oc cnpj = some o → o.status = .ERRO → roundIndex < ctx.maxRounds →
      ∀ (roundList : List String) (st : RunState), cnpj ∈ roundList →
        cnpj ∈ (processRoundList ctx roundIndex false oc st roundList).2 ∧
        countRowsFor cnpj (processRoundList ctx roundIndex false oc st roundList).1 =
          countRowsFor cnpj st ∧
        mapGet? (processRoundList ctx roundIndex false oc st roundList).1.cache cnpj =
          mapGet? st.cache cnpj) ∧
    (∀ (ctx : RunCtx) (roundIndex : Nat) (stopMid : Bool)
      (oc : String → Option QueryOutcome) (cnpj : String) (o : QueryOutcome),
      oc cnpj = some o → o.status = .ERRO →
      ¬(roundIndex < ctx.maxRounds ∧ stopMid = false) →
      ∀ (roundList : List String) (st : RunState), cnpj ∈ roundList → roundList.Nodup →
        cnpj ∉ (processRoundList ctx roundIndex stopMid oc st roundList).2 ∧
        mapGet? (processRoundList ctx roundIndex stopMid oc st roundList).1.outcomeByCnpj
          cnpj = some ⟨.ERRO, o.detail, o.provider⟩ ∧
        ∀ row ∈ rowsOf ctx cnpj,
          mkEntry row (origGet ctx row) cnpj "ERRO" "API" o.provider o.detail ∈
            (processRoundList ctx roundIndex stopMid oc st roundList).1.detailedRows) ∧
    (∀ (ctx : RunCtx) (st : RunState),
      st.interrupted = false → st.pending ≠ [] → st.pending.Nodup →
      ∀ c ∈ st.pending,
        mapGet? (finalErrorStage ctx st).outcomeByCnpj c =
          some ⟨.ERRO, "sem retorno apos reprocessamento", "fallback"⟩ ∧
        ∀ row ∈ rowsOf ctx c,
          mkEntry row (origGet ctx row) c "ERRO" "REPROCESSAMENTO_FINAL" "fallback"
            "sem retorno apos reprocessamento" ∈ (finalErrorStage ctx st).detailedRows) ∧
    (∀ inp : RunInput, inp.reprocessRounds = 0 →
      (ctxOf inp).maxRounds = 1 ∧ (processWorkbook inp).state.waits = []) := by
  refine ⟨?_, ?_, ?_, ?_⟩
  · intro ctx roundIndex oc cnpj o ho hs hlt roundList st hmem
    exact processRoundList_retry ctx roundIndex oc cnpj o ho hs hlt roundList st []
      (Or.inr hmem)
  · intro ctx roundIndex stopMid oc cnpj o ho hs hnot roundList st hmem hnd
    exact processRoundList_final ctx roundIndex stopMid oc cnpj o ho hs hnot roundList
      st [] hmem (List.not_mem_nil cnpj) hnd
  · intro ctx st hint hne hnd c hc
    have hcond : (!st.interrupted && !st.pending.isEmpty) = true := by
      rw [hint]
      simpa using hne
    have hcs : c ∈ sortStrings st.pending :=
      (stableSort_perm strLeJs st.pending).mem_iff.mpr hc
    constructor
    · unfold finalErrorStage
      rw [if_pos hcond]
      exact finalError_fold_outcome ctx (sortStrings st.pending) st c hcs
        ((stableSort_perm strLeJs st.pending).nodup_iff.mpr hnd)
    · intro row hrow
      unfold finalErrorStage
      rw [if_pos hcond, (finalError_fold ctx (sortStrings st.pending) st).1]
      refine List.mem_append_right _ (List.mem_flatMap.mpr ⟨c, hcs, ?_⟩)
      exact List.mem_map.mpr ⟨row, hrow, rfl⟩
  · intro inp h0
    have hm : (ctxOf inp).maxRounds = 1 := by
      show 1 + max 0 inp.reprocessRounds = 1
      rw [h0]
      rfl
    refine ⟨hm, ?_⟩
    have hw : (processWorkbook inp).state.waits =
        (runRounds (ctxOf inp) inp.rounds (ctxOf inp).maxRounds 1
          (initStateOf inp)).waits := by
      rw [processWorkbook_state]
      split
      · exact (interruptedStage_fields _ _).2.2.2.2.2.2.2.2.2.1.trans
          (finalErrorStage_fields _ _).2.2.2.2.2.2.2.2
      · exact ((sameData_reportVisualProgress _ _ _).waits).trans
          ((interruptedStage_fields _ _).2.2.2.2.2.2.2.2.2.1.trans
            (finalErrorStage_fields _ _).2.2.2.2.2.2.2.2)
    rw [hw, hm, runRounds_one_waits, (initStateOf_shape inp).2.2.2.2.2.2.2.2.2.2.2]

theorem c2_soft_error_rounds_witness :
    (processRoundList ⟨1, 2, [("11222333000181", [2])], [(2, "11222333000181")]⟩ 1 false
      (fun _ => some ⟨.ERRO, "d", "p"⟩)
      (initState ⟨1, 2, [("11222333000181", [2])], [(2, "11222333000181")]⟩ [])
      ["11222333000181"]).2 = ["11222333000181"] ∧
    (1 : Nat) < 2 ∧
    mapGet? (processRoundList ⟨1, 2, [("11222333000181", [2])], [(2, "11222333000181")]⟩
      2 false (fun _ => some ⟨.ERRO, "d", "p"⟩)
      (initState ⟨1, 2, [("11222333000181", [2])], [(2, "11222333000181")]⟩ [])
      ["11222333000181"]).1.outcomeByCnpj "11222333000181" =
      some ⟨.ERRO, "d", "p"⟩ ∧
    (processWorkbook ⟨[(2, "11222333000181")], none, 0, [],
      fun _ => ⟨false, [], fun _ => none, false, false⟩⟩).state.waits = [] := by
  refine ⟨by decide, by decide, ?_, ?_⟩
  · exact (c2_soft_error_rounds.2.1 ⟨1, 2, [("11222333000181", [2])],
      [(2, "11222333000181")]⟩ 2 false (fun _ => some ⟨.ERRO, "d", "p"⟩)
      "11222333000181" ⟨.ERRO, "d", "p"⟩ rfl rfl (by decide)
      ["11222333000181"] _ (List.mem_singleton.mpr rfl) (by decide)).2.1
  · exact (c2_soft_error_rounds.2.2.2 ⟨[(2, "11222333000181")], none, 0, [],
      fun _ => ⟨false, [], fun _ => none, false, false⟩⟩ rfl).2

/-- C6: `reportVisualProgress` emits a new progress event exactly when the
floored, `[0, total]`-clamped value strictly exceeds the last reported value;
over a whole run the emitted `done` values are strictly increasing (hence
non-decreasing), each event carries the row total, and at a non-cancelled
completion the final reported `done` equals `total`. -/
theorem c6_progress_events :
    (∀ (ctx : RunCtx) (v : Nat) (st : RunState),
      (max 0 (min ctx.total (v / ctx.maxRounds)) ≤ st.reported →
        reportVisualProgress ctx v st = st) ∧
      (st.reported < max 0 (min ctx.total (v / ctx.maxRounds)) →
        (reportVisualProgress ctx v st).events = st.events ++
          [(max 0 (min ctx.total (v / ctx.maxRounds)), ctx.total)] ∧
        (reportVisualProgress ctx v st).reported =
          max 0 (min ctx.total (v / ctx.maxRounds)))) ∧
    (∀ inp : RunInput,
      (dones (processWorkbook inp).state).Chain' (· < ·) ∧
      (∀ e ∈ (processWorkbook inp).state.events, e.2 = (ctxOf inp).total) ∧
      ((processWorkbook inp).result.interrupted = false →
        (dones (processWorkbook inp).state).getLast? = some (ctxOf inp).total)) := by
  have hstage : ∀ inp : RunInput, ProgressInv (ctxOf inp)
      (interruptedStage (ctxOf inp) (finalErrorStage (ctxOf inp)
        (runRounds (ctxOf inp) inp.rounds (ctxOf inp).maxRounds 1
          (initStateOf inp)))) := by
    intro inp
    exact interruptedStage_inv _ _ (finalErrorStage_inv _ _
      (runRounds_prog _ _ _ _ _ (initStateOf_prog inp)))
  refine ⟨fun ctx v st => ⟨fun hle => ?_, fun hlt => ?_⟩, fun inp => ?_⟩
  · unfold reportVisualProgress
    dsimp only
    rw [if_pos hle]
  · unfold reportVisualProgress
    dsimp only
    rw [if_neg (by omega)]
    exact ⟨rfl, rfl⟩
  · have hpi : ProgressInv (ctxOf inp) (processWorkbook inp).state := by
      rw [processWorkbook_state]
      split
      · exact hstage inp
      · exact reportVisualProgress_inv _ _ _ (hstage inp)
    refine ⟨hpi.chain, hpi.alle, ?_⟩
    intro hni
    have hsi : (processWorkbook inp).state.interrupted = false := by
      have he : (processWorkbook inp).result.interrupted =
          (processWorkbook inp).state.interrupted := by rw [processWorkbook_result]
      rw [← he]
      exact hni
    by_cases hcond : (interruptedStage (ctxOf inp) (finalErrorStage (ctxOf inp)
        (runRounds (ctxOf inp) inp.rounds (ctxOf inp).maxRounds 1
          (initStateOf inp)))).interrupted = true
    · exfalso
      rw [processWorkbook_state, if_pos hcond] at hsi
      rw [hsi] at hcond
      exact Bool.false_ne_true hcond
    · rw [processWorkbook_state, if_neg hcond]
      refine reportVisualProgress_last (ctxOf inp) _ (hstage inp) ?_
      have hmr : (ctxOf inp).maxRounds = 1 + max 0 inp.reprocessRounds := rfl
      omega

theorem c6_progress_events_witness :
    dones (processWorkbook ⟨[(2, "11222333000181")], none, 0, [],
      fun _ => ⟨false, [], fun _ => none, false, false⟩⟩).state = [0, 1] ∧
    (dones (processWorkbook ⟨[(2, "11222333000181")], none, 0, [],
      fun _ => ⟨false, [], fun _ => none, false, false⟩⟩).state).Chain' (· < ·) ∧
    (dones (processWorkbook ⟨[(2, "11222333000181")], none, 0, [],
      fun _ => ⟨false, [], fun _ => none, false, false⟩⟩).state).getLast? = some 1 := by
  refine ⟨by decide, (c6_progress_events.2 ⟨[(2, "11222333000181")], none, 0, [],
    fun _ => ⟨false, [], fun _ => none, false, false⟩⟩).1, ?_⟩
  exact (c6_progress_events.2 ⟨[(2, "11222333000181")], none, 0, [],
    fun _ => ⟨false, [], fun _ => none, false, false⟩⟩).2.2 (by decide)

/-- C7: a stop observed at a round checkpoint makes the run finish with
`interrupted = true`; an interrupted run never force-finalizes pending
identifiers as ERRO, and instead every identifier still pending receives one
PENDENTE row with origin INTERRUPCAO per covered output row; the cache and
the detailed report are still produced from the final state, keeping every
resolved cache entry. -/
theorem c7_interruption :
    (∀ (ctx : RunCtx) (rounds : Nat → RoundInput) (fuel roundIndex : Nat) (st : RunState),
      st.pending.isEmpty = false →
      (((rounds roundIndex).stopBefore = true →
        (runRounds ctx rounds (fuel + 1) roundIndex st).interrupted = true) ∧
       ((rounds roundIndex).stopBefore = false → (rounds roundIndex).stopAfter = true →
        (runRounds ctx rounds (fuel + 1) roundIndex st).interrupted = true))) ∧
    (∀ (ctx : RunCtx) (st : RunState), st.interrupted = true →
      finalErrorStage ctx st = st) ∧
    (∀ inp : RunInput,
      (processWorkbook inp).result.interrupted =
        (runRounds (ctxOf inp) inp.rounds (ctxOf inp).maxRounds 1
          (initStateOf inp)).interrupted ∧
      ((processWorkbook inp).result.interrupted = true →
        ∀ c ∈ (processWorkbook inp).state.pending, ∀ row ∈ rowsOf (ctxOf inp) c,
          mkEntry row (origGet (ctxOf inp) row) c "PENDENTE" "INTERRUPCAO"
            "NÃO_CONCLUIDO" "processamento interrompido antes da conclusao" ∈
            (processWorkbook inp).state.detailedRows) ∧
      (processWorkbook inp).savedCache = saveCache (processWorkbook inp).state.cache ∧
      (∀ k v, mapGet? (processWorkbook inp).state.cache k = some v →
        v = "SIM" ∨ v = "NÃO" →
        mapGet? (processWorkbook inp).savedCache k = some v) ∧
      ((processWorkbook inp).result.interrupted = true →
        (processWorkbook inp).reportLines =
          writeDetailedReport (processWorkbook inp).state.detailedRows)) := by
  refine ⟨fun ctx rounds fuel i st hne =>
      ⟨(runRounds_stops ctx rounds fuel i st).1 hne,
       (runRounds_stops ctx rounds fuel i st).2 hne⟩,
    fun ctx st h => finalErrorStage_of_interrupted ctx st h, fun inp => ?_⟩
  have hres : (processWorkbook inp).result.interrupted =
      (processWorkbook inp).state.interrupted := by rw [processWorkbook_result]
  have hsc : (interruptedStage (ctxOf inp) (finalErrorStage (ctxOf inp)
      (runRounds (ctxOf inp) inp.rounds (ctxOf inp).maxRounds 1
        (initStateOf inp)))).cache =
      (runRounds (ctxOf inp) inp.rounds (ctxOf inp).maxRounds 1
        (initStateOf inp)).cache :=
    (interruptedStage_fields _ _).2.2.1.trans (finalErrorStage_fields _ _).2.2.1
  refine ⟨hres.trans (processWorkbook_interrupted inp), ?_, ?_, ?_, ?_⟩
  · intro hI c hc row hrow
    have hI1 : (runRounds (ctxOf inp) inp.rounds (ctxOf inp).maxRounds 1
        (initStateOf inp)).interrupted = true :=
      ((processWorkbook_interrupted inp).symm.trans (hres.symm.trans hI))
    have hc1 : c ∈ (runRounds (ctxOf inp) inp.rounds (ctxOf inp).maxRounds 1
        (initStateOf inp)).pending := by
      rw [← processWorkbook_pending inp]
      exact hc
    have hfe : finalErrorStage (ctxOf inp)
        (runRounds (ctxOf inp) inp.rounds (ctxOf inp).maxRounds 1 (initStateOf inp)) =
        runRounds (ctxOf inp) inp.rounds (ctxOf inp).maxRounds 1 (initStateOf inp) :=
      finalErrorStage_of_interrupted _ _ hI1
    have hcond : (interruptedStage (ctxOf inp) (finalErrorStage (ctxOf inp)
        (runRounds (ctxOf inp) inp.rounds (ctxOf inp).maxRounds 1
          (initStateOf inp)))).interrupted = true := by
      rw [hfe, (interruptedStage_fields _ _).1]
      exact hI1
    rw [processWorkbook_state, if_pos hcond, hfe]
    have hne : (runRounds (ctxOf inp) inp.rounds (ctxOf inp).maxRounds 1
        (initStateOf inp)).pending.isEmpty = false := by
      cases hemp : (runRounds (ctxOf inp) inp.rounds (ctxOf inp).maxRounds 1
          (initStateOf inp)).pending.isEmpty
      · rfl
      · exact absurd (List.isEmpty_iff.mp hemp ▸ hc1) (List.not_mem_nil c)
    unfold interruptedStage
    rw [if_pos (by rw [hI1, hne]; rfl), (interrupted_fold _ _ _).1]
    refine List.mem_append_right _ (List.mem_flatMap.mpr
      ⟨c, (stableSort_perm strLeJs _).mem_iff.mpr hc1, ?_⟩)
    exact List.mem_map.mpr ⟨row, hrow, rfl⟩
  · rw [processWorkbook_savedCache, processWorkbook_cache, hsc]
  · intro k v hkv hv
    rw [processWorkbook_savedCache, hsc]
    rw [processWorkbook_cache] at hkv
    unfold saveCache
    refine mapGet?_filter _ _ k v hkv ?_
    rcases hv with h | h <;> rw [h] <;> rfl
  · intro hI
    have hcond : (interruptedStage (ctxOf inp) (finalErrorStage (ctxOf inp)
        (runRounds (ctxOf inp) inp.rounds (ctxOf inp).maxRounds 1
          (initStateOf inp)))).interrupted = true := by
      rw [(interruptedStage_fields _ _).1, (finalErrorStage_fields _ _).1]
      exact (processWorkbook_interrupted inp).symm.trans (hres.symm.trans hI)
    rw [processWorkbook_reportLines, processWorkbook_state, if_pos hcond]

theorem c7_interruption_witness :
    (processWorkbook ⟨[(2, "11222333000181")], none, 0, [],
      fun _ => ⟨false, [], fun _ => none, true, false⟩⟩).result.interrupted = true ∧
    mkEntry 2 "11222333000181" "11222333000181" "PENDENTE" "INTERRUPCAO"
        "NÃO_CONCLUIDO" "processamento interrompido antes da conclusao" ∈
      (processWorkbook ⟨[(2, "11222333000181")], none, 0, [],
        fun _ => ⟨false, [], fun _ => none, true, false⟩⟩).state.detailedRows := by
  have hI : (processWorkbook ⟨[(2, "11222333000181")], none, 0, [],
      fun _ => ⟨false, [], fun _ => none, true, false⟩⟩).result.interrupted = true := by
    decide
  refine ⟨hI, ?_⟩
  have h := (c7_interruption.2.2 ⟨[(2, "11222333000181")], none, 0, [],
    fun _ => ⟨false, [], fun _ => none, true, false⟩⟩).2.1 hI "11222333000181"
    (by decide) 2 (by decide)
  exact h

/-- C8: the detailed report has exactly one row per selected input row across
all paths — the multiset of its row numbers equals the selected rows' numbers
— it is sorted ascending by row number, is written under the fixed header,
and its line count is one headline plus one line per selected row. -/
theorem c8_report_complete :
    ∀ inp : RunInput,
      List.Perm ((processWorkbook inp).reportSorted.map (·.linha))
        ((selectedRowsOf inp).map (fun it => toString it.1)) ∧
      (processWorkbook inp).reportSorted.Pairwise (fun a b => reportLe a b = true) ∧
      (processWorkbook inp).reportLines =
        "linha,cnpj_original,cnpj_limpo,resultado,origem,provedor,detalhe" ::
          (processWorkbook inp).reportSorted.map (fun e =>
            String.intercalate "," (reportHeaders.map (fun h =>
              csvEscape (entryField e h)))) ∧
      (processWorkbook inp).reportLines.length = 1 + (selectedRowsOf inp).length := by
  intro inp
  obtain ⟨ra, rb, rc⟩ := runRounds_inv (ctxOf inp) inp.rounds (ctxOf inp).maxRounds 1
    (initStateOf inp) (initStateOf_pending_nodup inp) (initStateOf_noRows inp)
  have hperm : List.Perm ((processWorkbook inp).reportSorted.map (·.linha))
      ((selectedRowsOf inp).map (fun it => toString it.1)) := by
    rw [processWorkbook_reportSorted]
    refine ((stableSort_perm reportLe _).map _).trans ?_
    refine (stages_coverage (ctxOf inp) _).trans ?_
    exact rc.trans (initStateOf_coverage inp)
  refine ⟨hperm, ?_, ?_, ?_⟩
  · rw [processWorkbook_reportSorted]
    refine stableSort_pairwise reportLe ?_ ?_ _
    · intro a b c hab hbc
      simp only [reportLe, decide_eq_true_eq] at hab hbc ⊢
      omega
    · intro a b hab
      simp only [reportLe, decide_eq_false_iff_not] at hab
      simp only [reportLe, decide_eq_true_eq]
      omega
  · rw [processWorkbook_reportLines, processWorkbook_reportSorted]
    unfold writeDetailedReport
    rfl
  · have hlen := hperm.length_eq
    rw [List.length_map, List.length_map, processWorkbook_reportSorted] at hlen
    rw [processWorkbook_reportLines]
    unfold writeDetailedReport
    rw [List.length_cons, List.length_map]
    omega

theorem c8_report_complete_witness :
    (processWorkbook ⟨[(2, "11222333000181"), (3, "abc"), (4, " 11222333000181 ")],
      none, 0, [], fun _ =>
        ⟨false, [], fun _ => some ⟨.SIM, "optante", "receitaws"⟩, false, false⟩⟩).reportLines =
      ["linha,cnpj_original,cnpj_limpo,resultado,origem,provedor,detalhe",
       "2,11222333000181,11222333000181,SIM,API,receitaws,optante",
       "3,abc,,CNPJ_INVALIDO,VALIDACAO,VALIDACAO,CNPJ invalido",
       "4,11222333000181,11222333000181,SIM,API,receitaws,optante"] ∧
    List.Perm ((processWorkbook ⟨[(2, "11222333000181"), (3, "abc"),
        (4, " 11222333000181 ")], none, 0, [], fun _ =>
        ⟨false, [], fun _ => some ⟨.SIM, "optante", "receitaws"⟩,
          false, false⟩⟩).reportSorted.map (·.linha))
      ((selectedRowsOf ⟨[(2, "11222333000181"), (3, "abc"), (4, " 11222333000181 ")],
        none, 0, [], fun _ =>
        ⟨false, [], fun _ => some ⟨.SIM, "optante", "receitaws"⟩,
          false, false⟩⟩).map (fun it => toString it.1)) := by
  refine ⟨by decide, ?_⟩
  exact (c8_report_complete ⟨[(2, "11222333000181"), (3, "abc"),
    (4, " 11222333000181 ")], none, 0, [], fun _ =>
    ⟨false, [], fun _ => some ⟨.SIM, "optante", "receitaws"⟩, false, false⟩⟩).1

/-- C9: an identifier whose loaded cache entry is SIM or NÃO is answered in
the pre-round cache stage: it never enters the pending set, hence never
appears in any round list (the only source of network lookups), its rows get
CACHE-origin report entries carrying the cached status, and the hit rows are
counted as processed, success and cache hits before any round runs. -/
theorem c9_cache_bypass :
    (∀ (inp : RunInput) (g : String × List Nat) (s : String),
      g ∈ (ctxOf inp).rowsByCnpj →
      mapGet? (loadCache inp.cacheFile) g.1 = some s →
      s = "SIM" ∨ s = "NÃO" →
      g.1 ∉ (initStateOf inp).pending ∧
      g.1 ∉ (processWorkbook inp).state.pending ∧
      (∀ rl ∈ (processWorkbook inp).state.roundLists, g.1 ∉ rl) ∧
      (∀ row ∈ g.2, mkEntry row (origGet (ctxOf inp) row) g.1 s "CACHE" "CACHE"
        "valor em cache" ∈ (processWorkbook inp).state.detailedRows)) ∧
    (∀ inp : RunInput,
      (initStateOf inp).cacheHits = cachedRowsTotal inp ∧
      (initStateOf inp).success = cachedRowsTotal inp ∧
      (initStateOf inp).processed =
        (invalidRowsOf (ctxOf inp).selectedRows).length + cachedRowsTotal inp) := by
  refine ⟨?_, fun inp => ⟨(initStateOf_shape inp).2.2.2.1,
    (initStateOf_shape inp).2.2.2.2.1, (initStateOf_shape inp).2.2.2.2.2.1⟩⟩
  intro inp g s hg hs hsv
  have hhit : (mapGet? (loadCache inp.cacheFile) g.1 == some "SIM" ||
      mapGet? (loadCache inp.cacheFile) g.1 == some "NÃO") = true := by
    rw [hs]
    rcases hsv with h | h <;> rw [h] <;> rfl
  have hnp0 : g.1 ∉ (initStateOf inp).pending := by
    rw [(initStateOf_shape inp).2.1]
    exact hit_not_in_miss_keys ((ctxOf inp).rowsByCnpj)
      (fun g => mapGet? (loadCache inp.cacheFile) g.1 == some "SIM" ||
        mapGet? (loadCache inp.cacheFile) g.1 == some "NÃO")
      (rowsByCnpj_keys_nodup (selectedRowsOf inp)) g hg hhit
  have hrl0 : ∀ rl ∈ (initStateOf inp).roundLists, g.1 ∉ rl := by
    rw [(initStateOf_shape inp).2.2.2.2.2.2.2.2.2.2.1]
    intro rl hrl
    exact absurd hrl (List.not_mem_nil rl)
  obtain ⟨hp1, hrl1⟩ := runRounds_avoid (ctxOf inp) inp.rounds g.1 (ctxOf inp).maxRounds
    1 (initStateOf inp) hnp0 hrl0
  refine ⟨hnp0, ?_, ?_, ?_⟩
  · rw [processWorkbook_pending]
    exact hp1
  · rw [processWorkbook_roundLists]
    exact hrl1
  · intro row hrow
    have hmem0 : mkEntry row (origGet (ctxOf inp) row) g.1 s "CACHE" "CACHE"
        "valor em cache" ∈ (initStateOf inp).detailedRows := by
      rw [(initStateOf_shape inp).2.2.1]
      refine List.mem_append_right _ (List.mem_flatMap.mpr
        ⟨g, List.mem_filter.mpr ⟨hg, hhit⟩, ?_⟩)
      refine List.mem_map.mpr ⟨row, hrow, ?_⟩
      rw [hs]
      rfl
    exact processWorkbook_rows_mono inp _
      (runRounds_rows_mono (ctxOf inp) inp.rounds _ _ _ _ hmem0)

theorem c9_cache_bypass_witness :
    cachedRowsTotal ⟨[(2, "11222333000181")], none, 0, [("11222333000181", "SIM")],
      fun _ => ⟨false, [], fun _ => none, false, false⟩⟩ = 1 ∧
    (initStateOf ⟨[(2, "11222333000181")], none, 0, [("11222333000181", "SIM")],
      fun _ => ⟨false, [], fun _ => none, false, false⟩⟩).cacheHits =
      cachedRowsTotal ⟨[(2, "11222333000181")], none, 0, [("11222333000181", "SIM")],
        fun _ => ⟨false, [], fun _ => none, false, false⟩⟩ ∧
    "11222333000181" ∉ (processWorkbook ⟨[(2, "11222333000181")], none, 0,
      [("11222333000181", "SIM")],
      fun _ => ⟨false, [], fun _ => none, false, false⟩⟩).state.pending ∧
    mkEntry 2 "11222333000181" "11222333000181" "SIM" "CACHE" "CACHE"
        "valor em cache" ∈ (processWorkbook ⟨[(2, "11222333000181")], none, 0,
      [("11222333000181", "SIM")],
      fun _ => ⟨false, [], fun _ => none, false, false⟩⟩).state.detailedRows := by
  refine ⟨by decide, (c9_cache_bypass.2 _).1, ?_, ?_⟩
  · exact (c9_cache_bypass.1 ⟨[(2, "11222333000181")], none, 0,
      [("11222333000181", "SIM")], fun _ => ⟨false, [], fun _ => none, false, false⟩⟩
      ("11222333000181", [2]) "SIM" (by decide) (by decide) (Or.inl rfl)).2.1
  · exact (c9_cache_bypass.1 ⟨[(2, "11222333000181")], none, 0,
      [("11222333000181", "SIM")], fun _ => ⟨false, [], fun _ => none, false, false⟩⟩
      ("11222333000181", [2]) "SIM" (by decide) (by decide) (Or.inl rfl)).2.2.2 2
      (by decide)

end ConsultaCnpj
